import Mathlib

/-!
Verification development for the aiken code generator
(`crates/aiken-lang/src/uplc.rs` and `crates/aiken-lang/src/expr.rs`).

The Rust sources are embedded shallowly: pure tree types become Lean
inductives, the stateful `CodeGenerator` methods become explicit
state-passing functions, mutually recursive lowering routines take a
fuel parameter, and every Rust panic (`unwrap`, `todo`, `unreachable`)
becomes `Option.none`.  Names follow the source where Lean allows it.

Types and helpers that live in crates outside the provided sources
(the `uplc` crate's `Term`/`Constant`/builders, `tipo.rs` predicates,
`air.rs`, `builder.rs` helpers) are reconstructed from the repository
specification; each such definition carries a doc comment saying so.
Name uniquification (the interner) only fills the `unique` field of
names, so names are modelled as plain strings and the interner as the
identity.
-/

set_option maxHeartbeats 1600000
set_option maxRecDepth 8000

namespace AikenGen

/-- Modelled from the spec: the VM-side type tags (`uplc::ast::Type`),
including `Pair(a,b)` for 2-tuples. -/
inductive UplcType where
| boolU
| integer
| stringU
| byteStringU
| unit
| dataU
| listU (t : UplcType)
| pair (a b : UplcType)
deriving DecidableEq, Repr

/-- Modelled from the spec: Plutus data values, the universal `Data`
encoding used by `ConstrData` and friends. -/
inductive PData where
| constrD (ix : Nat) (fields : List PData)
| mapD (entries : List (PData × PData))
| listD (items : List PData)
| iD (i : Int)
| bD (bytes : List Nat)

/-- Modelled from the spec: UPLC constants (`uplc::ast::Constant`). -/
inductive UplcConstant where
| integer (i : Int)
| stringC (s : String)
| byteStringC (bs : List Nat)
| unit
| boolC (b : Bool)
| protoList (t : UplcType) (xs : List UplcConstant)
| protoPair (a b : UplcType) (fstC sndC : UplcConstant)
| dataC (d : PData)

mutual

/-- Modelled from the spec: structural equality on Plutus data, used by
the `EqualsData` builtin of the downstream VM. -/
def PData.beq : PData → PData → Bool
| .constrD i fs, .constrD j gs => i == j && PData.beqList fs gs
| .mapD xs, .mapD ys => PData.beqPairs xs ys
| .listD xs, .listD ys => PData.beqList xs ys
| .iD i, .iD j => i == j
| .bD xs, .bD ys => xs == ys
| _, _ => false

/-- Elementwise `PData.beq` on lists. -/
def PData.beqList : List PData → List PData → Bool
| [], [] => true
| a :: as, b :: bs => PData.beq a b && PData.beqList as bs
| _, _ => false

/-- Elementwise `PData.beq` on key-value pair lists. -/
def PData.beqPairs : List (PData × PData) → List (PData × PData) → Bool
| [], [] => true
| (a₁, a₂) :: as, (b₁, b₂) :: bs =>
    PData.beq a₁ b₁ && PData.beq a₂ b₂ && PData.beqPairs as bs
| _, _ => false

end

/-- Modelled from the spec: the UPLC builtin functions referenced by the
code generator (`uplc::builtins::DefaultFunction`). -/
inductive DefaultFunction where
| addInteger
| subtractInteger
| multiplyInteger
| divideInteger
| modInteger
| equalsInteger
| lessThanInteger
| lessThanEqualsInteger
| equalsByteString
| equalsString
| equalsData
| ifThenElse
| chooseList
| chooseUnit
| mkCons
| headList
| tailList
| nullList
| fstPair
| sndPair
| mkPairData
| constrData
| mapData
| listData
| iData
| bData
| unConstrData
| unMapData
| unListData
| unIData
| unBData
| traceB
deriving DecidableEq, Repr

/-- Modelled from the spec: UPLC terms (`uplc::ast::Term<Name>`); the
interner only assigns `unique` indices to bound names, so a name is kept
as its text. -/
inductive Term where
| var (name : String)
| delay (t : Term)
| lam (param : String) (body : Term)
| apply (f a : Term)
| con (c : UplcConstant)
| builtin (f : DefaultFunction)
| force (t : Term)
| errorT

/-- Modelled from the spec: number of type-level forces each builtin
needs before value arguments (`DefaultFunction::force_count`). -/
def DefaultFunction.forceCount : DefaultFunction → Nat
| .ifThenElse => 1
| .chooseList => 2
| .chooseUnit => 1
| .mkCons => 1
| .headList => 1
| .tailList => 1
| .nullList => 1
| .fstPair => 2
| .sndPair => 2
| .traceB => 1
| _ => 0

/-- `Term::force_wrap` from the uplc crate: wrap a term in one `Force`. -/
def Term.forceWrap (t : Term) : Term := Term.force t

/-- Modelled from the spec: `builder::apply_wrap`. -/
def applyWrap (f a : Term) : Term := Term.apply f a

/-- Modelled from the spec: `builder::if_else` — strict three-way
application of the forced `IfThenElse` builtin. -/
def ifElse (c t e : Term) : Term :=
  Term.apply (Term.apply (Term.apply (Term.force (Term.builtin .ifThenElse)) c) t) e

/-- Modelled from the spec: `builder::delayed_if_else`, which delays both
branches so only one is forced. -/
def delayedIfElse (c t e : Term) : Term :=
  Term.force (Term.apply (Term.apply (Term.apply (Term.force (Term.builtin .ifThenElse)) c) (Term.delay t)) (Term.delay e))

/-- Modelled from the spec: `builder::choose_list`. -/
def chooseListT (l t e : Term) : Term :=
  Term.apply (Term.apply (Term.apply (Term.force (Term.force (Term.builtin .chooseList))) l) t) e

/-- Modelled from the spec: `builder::delayed_choose_list`. -/
def delayedChooseList (l t e : Term) : Term :=
  Term.force (Term.apply (Term.apply (Term.apply (Term.force (Term.force (Term.builtin .chooseList))) l) (Term.delay t)) (Term.delay e))

/-- Modelled from the spec: `builder::constr_index_exposer` — extracts
the constructor tag of a data-encoded value as an integer. -/
def constrIndexExposer (t : Term) : Term :=
  Term.apply (Term.force (Term.force (Term.builtin .fstPair))) (Term.apply (Term.builtin .unConstrData) t)

/-- Modelled from the spec: `builder::repeat_tail_list`. -/
def repeatTailList : Term → Nat → Term
| t, 0 => t
| t, n + 1 => Term.apply (Term.force (Term.builtin .tailList)) (repeatTailList t n)

/-- The name of the fields-exposer helper combinator (`CONSTR_FIELDS_EXPOSER`). -/
def constrFieldsExposerName : String := "__constr_fields_exposer"

/-- The name of the field-projection helper combinator (`CONSTR_GET_FIELD`). -/
def constrGetFieldName : String := "__constr_get_field"

/-- Modelled from the spec: the body of the `__constr_fields_exposer`
helper combinator (its exact term shape is fixed but irrelevant to the
claims; only the binding structure matters). -/
def constrFieldsExposerDef : Term :=
  Term.lam "__constr_var"
    (Term.apply (Term.force (Term.force (Term.builtin .sndPair)))
      (Term.apply (Term.builtin .unConstrData) (Term.var "__constr_var")))

/-- Modelled from the spec: the body of the `__constr_get_field` helper
combinator. -/
def constrGetFieldDef : Term :=
  Term.lam "__constr_list"
    (Term.lam "__arg_number"
      (Term.apply (Term.force (Term.builtin .headList)) (Term.var "__constr_list")))

/-- Modelled from the spec: `builder::constr_fields_exposer` — binds the
helper combinator around the program term (one splice). -/
def constrFieldsExposer (t : Term) : Term :=
  Term.apply (Term.lam constrFieldsExposerName t) constrFieldsExposerDef

/-- Modelled from the spec: `builder::constr_get_field` — binds the
helper combinator around the program term (one splice). -/
def constrGetField (t : Term) : Term :=
  Term.apply (Term.lam constrGetFieldName t) constrGetFieldDef

/-- Modelled from the spec: `builder::final_wrapper` — forces the final
result of a validator to a `Unit` (success) or `Error` (failure). -/
def finalWrapper (t : Term) : Term :=
  delayedIfElse t (Term.con .unit) Term.errorT

/-- Modelled from the spec: the checker-produced `Type` (`tipo.rs`):
`App { public, module, name, args }`, `Fn { args, ret }`,
`Tuple { elems }`, `Var { … }`. -/
inductive Tipo where
| app (isPublic : Bool) (module : String) (name : String) (args : List Tipo)
| fn (args : List Tipo) (ret : Tipo)
| tuple (elems : List Tipo)
| varT (id : Nat)

/-- Modelled from the spec: `Type::is_int`. -/
def Tipo.isInt : Tipo → Bool
| .app _ "" "Int" _ => true
| _ => false

/-- Modelled from the spec: `Type::is_bool`. -/
def Tipo.isBool : Tipo → Bool
| .app _ "" "Bool" _ => true
| _ => false

/-- Modelled from the spec: `Type::is_string`. -/
def Tipo.isString : Tipo → Bool
| .app _ "" "String" _ => true
| _ => false

/-- Modelled from the spec: `Type::is_bytearray`. -/
def Tipo.isBytearray : Tipo → Bool
| .app _ "" "ByteArray" _ => true
| _ => false

/-- Modelled from the spec: `Type::is_void`. -/
def Tipo.isVoid : Tipo → Bool
| .app _ "" "Void" _ => true
| _ => false

/-- Modelled from the spec: `Type::is_list`. -/
def Tipo.isList : Tipo → Bool
| .app _ "" "List" _ => true
| _ => false

/-- Modelled from the spec: `Type::is_map` — a `List` whose element type
is a 2-tuple. -/
def Tipo.isMap : Tipo → Bool
| .app _ "" "List" [.tuple [_, _]] => true
| _ => false

/-- Modelled from the spec: `Type::is_tuple`. -/
def Tipo.isTuple : Tipo → Bool
| .tuple _ => true
| _ => false

mutual

/-- Modelled from the spec: `Type::is_generic` — whether an unresolved
type variable occurs anywhere in the type. -/
def Tipo.isGeneric : Tipo → Bool
| .varT _ => true
| .app _ _ _ args => Tipo.anyGeneric args
| .fn args ret => Tipo.anyGeneric args || ret.isGeneric
| .tuple elems => Tipo.anyGeneric elems

/-- Helper for `Tipo.isGeneric` over argument lists. -/
def Tipo.anyGeneric : List Tipo → Bool
| [] => false
| t :: ts => t.isGeneric || Tipo.anyGeneric ts

end

/-- Modelled from the spec: `Type::get_inner_types` — element types of a
list, components of a tuple, arguments and return of a function type. -/
def Tipo.getInnerTypes : Tipo → List Tipo
| .app _ _ _ args => args
| .tuple elems => elems
| .fn args ret => args ++ [ret]
| .varT _ => []

/-- Modelled from the spec: `Type::arg_types`. -/
def Tipo.argTypes : Tipo → Option (List Tipo)
| .fn args _ => some args
| .app _ _ _ args => some args
| _ => none

/-- Modelled from the spec: `Type::get_uplc_type` — the VM type tag,
including `Pair(a,b)` for 2-tuples. -/
def Tipo.getUplcType (t : Tipo) : UplcType :=
  if t.isInt then .integer
  else if t.isBool then .boolU
  else if t.isString then .stringU
  else if t.isBytearray then .byteStringU
  else if t.isVoid then .unit
  else if t.isMap then .listU (.pair .dataU .dataU)
  else if t.isList then .listU .dataU
  else
    match t with
    | .tuple [_, _] => .pair .dataU .dataU
    | .tuple _ => .listU .dataU
    | _ => .dataU

/-- Modelled from the spec: the `Int` builtin type. -/
def intTipo : Tipo := Tipo.app true "" "Int" []

/-- Modelled from the spec: the `Bool` builtin type. -/
def boolTipo : Tipo := Tipo.app true "" "Bool" []

/-- Modelled from the spec: the `Void` builtin type (`builtins::void`). -/
def voidTipo : Tipo := Tipo.app true "" "Void" []

/-- Modelled from the spec: the `List` builtin type applied to an
element type. -/
def listTipo (elem : Tipo) : Tipo := Tipo.app true "" "List" [elem]

/-- `FieldMap` (`tipo.rs`): maps a record label to its positional field
index (the source also stores a location, which is irrelevant here). -/
structure FieldMap where
  fields : List (String × Nat)

/-- A literal of a module constant (`ast::Constant`), as far as
`constants_ir` needs it. -/
inductive ConstantLit where
| intL (value : String)
| stringL (value : String)
| byteArrayL (bytes : List Nat)

/-- `ValueConstructorVariant` (`tipo.rs`): local variable, module
constant, module function, data constructor.  Locations are dropped. -/
inductive ValueConstructorVariant where
| localVariable
| moduleConstant (literal : ConstantLit)
| moduleFn (name : String) (module : String) (arity : Nat)
    (builtinF : Option DefaultFunction) (fieldMapF : Option FieldMap)
| record (name : String) (arity : Nat) (fieldMapR : Option FieldMap)

/-- `ValueConstructor` (`tipo.rs`). -/
structure ValueConstructor where
  isPublic : Bool
  variant : ValueConstructorVariant
  tipo : Tipo

/-- `ValueConstructor::public`. -/
def ValueConstructor.public (tipo : Tipo) (variant : ValueConstructorVariant) : ValueConstructor :=
  ⟨true, variant, tipo⟩

/-- `PatternConstructor` (`tipo.rs`): the `Record { name, field_map }`
payload of a constructor pattern. -/
structure PatternConstructor where
  name : String
  fieldMap : Option FieldMap

/-- `Pattern` (`ast.rs`), typed instantiation.  A constructor argument is
a `CallArg` with an optional label. -/
inductive Pattern where
| intP (value : String)
| stringP (value : String)
| varP (name : String)
| varUsage (name : String)
| assignP (name : String) (pattern : Pattern)
| discardP
| listP (elements : List Pattern) (tail : Option Pattern)
| constructorP (isRecord : Bool) (name : String)
    (arguments : List (Option String × Pattern))
    (constructor : PatternConstructor) (tipo : Tipo)
| tupleP (elems : List Pattern)

/-- `ArgName`/`TypedArg` (`ast.rs`): `argName = none` models a discarded
argument name (`get_variable_name()` returns `None`). -/
structure TypedArg where
  argName : Option String
  tipo : Tipo

/-- `ModuleValueConstructor` (`tipo.rs`). -/
inductive ModuleValueConstructor where
| recordM (name : String)
| fnM (name : String) (module : String)
| constantM (literal : ConstantLit)

/-- `AssignmentKind` (`ast.rs`). -/
inductive AssignmentKind where
| letKind
| assertKind
| checkKind

/-- `BinOp` (`ast.rs`). -/
inductive BinOp where
| andB | orB | eqB | notEqB
| ltInt | ltEqInt | gtEqInt | gtInt
| addInt | subInt | multInt | divInt | modInt

/-- `UnOp` (`ast.rs`). -/
inductive UnOp where
| notU
| negate

/-- `TypedExpr` (`expr.rs`).  Locations are dropped; a `When` clause is
its pattern list together with its `then` body (guards are not consumed
by the generator); an `If` branch is a condition–body pair. -/
inductive TypedExpr where
| intE (tipo : Tipo) (value : String)
| stringE (tipo : Tipo) (value : String)
| byteArrayE (tipo : Tipo) (bytes : List Nat)
| sequence (expressions : List TypedExpr)
| pipeline (expressions : List TypedExpr)
| varE (constructor : ValueConstructor) (name : String)
| fnE (tipo : Tipo) (isCapture : Bool) (args : List TypedArg) (body : TypedExpr)
| listE (tipo : Tipo) (elements : List TypedExpr) (tail : Option TypedExpr)
| callE (tipo : Tipo) (fnExpr : TypedExpr) (args : List TypedExpr)
| binOpE (tipo : Tipo) (name : BinOp) (left right : TypedExpr)
| assignmentE (tipo : Tipo) (value : TypedExpr) (pattern : Pattern) (kind : AssignmentKind)
| traceE (tipo : Tipo) (thenE : TypedExpr) (text : Option String)
| whenE (tipo : Tipo) (subjects : List TypedExpr) (clauses : List (List Pattern × TypedExpr))
| ifE (tipo : Tipo) (branches : List (TypedExpr × TypedExpr)) (finalElse : TypedExpr)
| recordAccessE (tipo : Tipo) (label : String) (index : Nat) (record : TypedExpr)
| moduleSelect (tipo : Tipo) (label : String) (moduleName : String)
    (constructor : ModuleValueConstructor)
| tupleE (tipo : Tipo) (elems : List TypedExpr)
| tupleIndexE (tipo : Tipo) (index : Nat) (tupleExpr : TypedExpr)
| todoE (tipo : Tipo) (label : Option String)
| errorTermE (tipo : Tipo) (label : Option String)
| recordUpdateE (tipo : Tipo) (spread : TypedExpr) (args : List TypedExpr)
| unOpE (tipo : Tipo) (op : UnOp) (value : TypedExpr)

mutual

/-- `TypedExpr::tipo` over the trailing expression of a sequence:
`expressions.last().map(tipo).unwrap_or_else(void)`. -/
def TypedExpr.tipoLast : List TypedExpr → Tipo
| [] => voidTipo
| [e] => e.tipo
| _ :: rest => TypedExpr.tipoLast rest

/-- `TypedExpr::tipo` (`expr.rs` lines 174–200): total over all
variants; `Sequence`/`Pipeline` take the type of their last expression
(or `void` when empty), `Trace` the type of its continuation, `Var` the
type recorded in its value constructor. -/
def TypedExpr.tipo : TypedExpr → Tipo
| .varE constructor _ => constructor.tipo
| .traceE _ thenE _ => thenE.tipo
| .fnE tipo _ _ _ => tipo
| .intE tipo _ => tipo
| .todoE tipo _ => tipo
| .errorTermE tipo _ => tipo
| .whenE tipo _ _ => tipo
| .listE tipo _ _ => tipo
| .callE tipo _ _ => tipo
| .ifE tipo _ _ => tipo
| .unOpE tipo _ _ => tipo
| .binOpE tipo _ _ _ => tipo
| .tupleE tipo _ => tipo
| .stringE tipo _ => tipo
| .byteArrayE tipo _ => tipo
| .tupleIndexE tipo _ _ => tipo
| .assignmentE tipo _ _ _ => tipo
| .moduleSelect tipo _ _ _ => tipo
| .recordAccessE tipo _ _ _ => tipo
| .recordUpdateE tipo _ _ => tipo
| .sequence expressions => TypedExpr.tipoLast expressions
| .pipeline expressions => TypedExpr.tipoLast expressions

end

/-- The AIR instruction set (`air.rs`): the payloads are exactly the
fields destructured by `uplc.rs`; every instruction carries its scope
vector.  The variants whose synthesis is `todo!()` in the source
(`DefineConst`, `DefineConstrFields`, `DefineConstrFieldAccess`,
`Constr`, `Fields`, `Record`, `RecordUpdate`) are kept with their scope
only. -/
inductive Air where
| intA (scope : List Nat) (value : String)
| stringA (scope : List Nat) (value : String)
| byteArrayA (scope : List Nat) (bytes : List Nat)
| varA (scope : List Nat) (constructor : ValueConstructor) (name : String) (variantName : String)
| fnA (scope : List Nat) (params : List String)
| callA (scope : List Nat) (count : Nat)
| builtinA (scope : List Nat) (func : DefaultFunction) (tipo : Tipo)
| binOpA (scope : List Nat) (name : BinOp) (count : Nat) (tipo : Tipo)
| unOpA (scope : List Nat) (op : UnOp)
| assignmentA (scope : List Nat) (name : String) (kind : AssignmentKind)
| defineFunc (scope : List Nat) (funcName moduleName variantName : String)
    (params : List String) (recursive : Bool)
| defineConst (scope : List Nat)
| defineConstrFields (scope : List Nat)
| defineConstrFieldAccess (scope : List Nat)
| lamA (scope : List Nat) (name : String)
| listA (scope : List Nat) (count : Nat) (tipo : Tipo) (tail : Bool)
| listAccessor (scope : List Nat) (names : List String) (tail : Bool) (tipo : Tipo)
| listExpose (scope : List Nat) (tailHeadNames : List (String × String))
    (tail : Option (String × String)) (tipo : Tipo)
| tupleA (scope : List Nat) (tipo : Tipo) (count : Nat)
| tupleAccessor (scope : List Nat) (names : List String) (tipo : Tipo)
| tupleIndexA (scope : List Nat) (tipo : Tipo) (index : Nat)
| recordAccessA (scope : List Nat) (index : Nat) (tipo : Tipo)
| fieldsExpose (scope : List Nat) (count : Nat) (indices : List (Nat × String × Tipo))
| whenA (scope : List Nat) (subjectName : String) (tipo : Tipo)
| clauseA (scope : List Nat) (tipo : Tipo) (subjectName : String) (complexClause : Bool)
| listClauseA (scope : List Nat) (tipo : Tipo) (tailName : String)
    (nextTailName : Option String) (complexClause : Bool) (inverse : Bool)
| tupleClauseA (scope : List Nat) (tipo : Tipo) (indices : List (Nat × String))
    (predefinedIndices : List (Nat × String)) (subjectName : String)
    (count : Nat) (complexClause : Bool)
| clauseGuard (scope : List Nat) (subjectName : String) (tipo : Tipo)
| finallyA (scope : List Nat)
| ifA (scope : List Nat)
| constrA (scope : List Nat)
| fieldsA (scope : List Nat)
| recordA (scope : List Nat)
| recordUpdateA (scope : List Nat)
| discardA (scope : List Nat)
| traceA (scope : List Nat) (text : Option String) (tipo : Tipo)
| todoA (scope : List Nat) (label : Option String) (tipo : Tipo)
| errorTermA (scope : List Nat) (tipo : Tipo) (label : Option String)

/-- `Air::scope()`. -/
def Air.scope : Air → List Nat
| .intA s _ => s
| .stringA s _ => s
| .byteArrayA s _ => s
| .varA s _ _ _ => s
| .fnA s _ => s
| .callA s _ => s
| .builtinA s _ _ => s
| .binOpA s _ _ _ => s
| .unOpA s _ => s
| .assignmentA s _ _ => s
| .defineFunc s _ _ _ _ _ => s
| .defineConst s => s
| .defineConstrFields s => s
| .defineConstrFieldAccess s => s
| .lamA s _ => s
| .listA s _ _ _ => s
| .listAccessor s _ _ _ => s
| .listExpose s _ _ _ => s
| .tupleA s _ _ => s
| .tupleAccessor s _ _ => s
| .tupleIndexA s _ _ => s
| .recordAccessA s _ _ => s
| .fieldsExpose s _ _ => s
| .whenA s _ _ => s
| .clauseA s _ _ _ => s
| .listClauseA s _ _ _ _ _ => s
| .tupleClauseA s _ _ _ _ _ _ => s
| .clauseGuard s _ _ => s
| .finallyA s => s
| .ifA s => s
| .constrA s => s
| .fieldsA s => s
| .recordA s => s
| .recordUpdateA s => s
| .discardA s => s
| .traceA s _ _ => s
| .todoA s _ _ => s
| .errorTermA s _ _ => s

/-- `FunctionAccessKey` (`builder.rs`): module, function and
monomorphization variant. -/
structure FunctionAccessKey where
  moduleName : String
  functionName : String
  variantName : String
deriving DecidableEq

/-- `DataTypeKey` (`builder.rs`). -/
structure DataTypeKey where
  moduleName : String
  definedType : String
deriving DecidableEq

/-- One constructor of a data type declaration: its name and the
optional labels of its arguments. -/
structure DataTypeConstructor where
  name : String
  arguments : List (Option String)

/-- `TypedDataType` as consumed by the generator. -/
structure TypedDataType where
  constructors : List DataTypeConstructor

/-- `TypedFunction` as consumed by the generator. -/
structure TypedFunction where
  arguments : List TypedArg
  body : TypedExpr

/-- `FuncComponents` (`builder.rs`): lowered body, dependency keys,
recursion flag and parameter names. -/
structure FuncComponents where
  ir : List Air
  dependencies : List FunctionAccessKey
  recursive : Bool
  args : List String

/-- The read-only registries handed to `CodeGenerator::new`. -/
structure Env where
  functions : List (FunctionAccessKey × TypedFunction)
  dataTypes : List (DataTypeKey × TypedDataType)
  moduleTypes : List (String × List (String × ValueConstructor))

/-- Association-list lookup, mirroring `HashMap::get` on key types with
decidable equality. -/
def lookupKey {α β : Type} [DecidableEq α] (xs : List (α × β)) (k : α) : Option β :=
  (xs.find? (fun p => p.1 = k)).map Prod.snd

/-- The generator's own mutable fields (`CodeGenerator`): the
`defined_functions` set, the id generator, the `needs_field_access`
flag and the `zero_arg_functions` cache.  The id generator is modelled
from the spec as a strictly monotonic counter starting at 0. -/
structure GenState where
  definedFunctions : List FunctionAccessKey
  idGen : Nat
  needsFieldAccess : Bool
  zeroArgFunctions : List (FunctionAccessKey × List Air)

/-- The state at `CodeGenerator::new`. -/
def GenState.init : GenState := ⟨[], 0, false, []⟩

/-- `IdGenerator::next`. -/
def GenState.next (st : GenState) : Nat × GenState :=
  (st.idGen, { st with idGen := st.idGen + 1 })

/-- Modelled from the spec: `get_common_ancestor` — the longest common
scope prefix. -/
def commonAncestor : List Nat → List Nat → List Nat
| a :: as, b :: bs => if a = b then a :: commonAncestor as bs else []
| _, _ => []

/-- Decimal integer parsing, mirroring Rust's `str::parse::<i128>` as
used on AIR literal payloads (`value.parse().unwrap()`). -/
def parseDigits : List Char → Option Nat
| [] => none
| cs =>
  cs.foldl (fun acc c =>
    match acc with
    | none => none
    | some n => if c.isDigit then some (n * 10 + (c.toNat - 48)) else none)
    (some 0)

/-- Decimal integer parsing with optional leading minus sign. -/
def parseInt (s : String) : Option Int :=
  match s.toList with
  | '-' :: rest => (parseDigits rest).map (fun n => -(n : Int))
  | cs => (parseDigits cs).map (fun n => (n : Int))

mutual

/-- Modelled from the spec: a single constant converted to its `Data`
encoding (`builder::convert_constants_to_data`, one element). -/
def constantToData : UplcConstant → PData
| .integer i => .iD i
| .byteStringC bs => .bD bs
| .stringC s => .bD (s.toList.map Char.toNat)
| .boolC b => .constrD (if b then 1 else 0) []
| .unit => .constrD 0 []
| .dataC d => d
| .protoList _ xs => .listD (constantsToDataList xs)
| .protoPair _ _ a b => .listD [constantToData a, constantToData b]

/-- Elementwise `constantToData`. -/
def constantsToDataList : List UplcConstant → List PData
| [] => []
| c :: cs => constantToData c :: constantsToDataList cs

end

/-- Modelled from the spec: `builder::convert_constants_to_data`. -/
def convertConstantsToData (cs : List UplcConstant) : List UplcConstant :=
  cs.map (fun c => .dataC (constantToData c))

/-- Modelled from the spec: `builder::convert_type_to_data` — wrap a
term of the given type into its `Data` encoding. -/
def convertTypeToData (t : Term) (tipo : Tipo) : Term :=
  if tipo.isInt then Term.apply (Term.builtin .iData) t
  else if tipo.isBytearray then Term.apply (Term.builtin .bData) t
  else if tipo.isString then Term.apply (Term.builtin .bData) t
  else if tipo.isBool then
    ifElse t (Term.con (.dataC (.constrD 1 []))) (Term.con (.dataC (.constrD 0 [])))
  else if tipo.isVoid then Term.con (.dataC (.constrD 0 []))
  else if tipo.isMap then Term.apply (Term.builtin .mapData) t
  else if tipo.isList then Term.apply (Term.builtin .listData) t
  else t

/-- Modelled from the spec: `builder::convert_data_to_type` — unwrap a
`Data`-encoded term back to the native constant form of the type. -/
def convertDataToType (t : Term) (tipo : Tipo) : Term :=
  if tipo.isInt then Term.apply (Term.builtin .unIData) t
  else if tipo.isBytearray then Term.apply (Term.builtin .unBData) t
  else if tipo.isString then Term.apply (Term.builtin .unBData) t
  else if tipo.isBool then
    Term.apply (Term.apply (Term.builtin .equalsInteger) (Term.con (.integer 1)))
      (constrIndexExposer t)
  else if tipo.isVoid then Term.con .unit
  else if tipo.isMap then Term.apply (Term.builtin .unMapData) t
  else if tipo.isList then Term.apply (Term.builtin .unListData) t
  else t

/-- Modelled from the spec: `builder::constants_ir` — inline a module
constant's IR. -/
def constantsIr (literal : ConstantLit) (scope : List Nat) : Air :=
  match literal with
  | .intL v => .intA scope v
  | .stringL v => .stringA scope v
  | .byteArrayL bs => .byteArrayA scope bs

/-- Modelled from the spec: `builder::wrap_validator_args` — λ-abstracts
the term over the argument list (first argument outermost). -/
def wrapValidatorArgs (t : Term) (args : List TypedArg) : Term :=
  args.foldr (fun a acc => Term.lam (a.argName.getD "_") acc) t

/-- Modelled from the spec: `builder::list_access_to_uplc` — binds the
remaining names of a `ListAccessor` one at a time, alternating
`HeadList` (converted from data to the element type) and `TailList`;
when `tail` is set the last name binds the remaining tail. -/
def listAccessToUplc : List String → List Nat → Bool → Nat → Term → Tipo → Term
| [], _, _, _, term, _ => term
| [name], _, true, _, term, _ => Term.lam name term
| name :: rest, ids, tail, idx, term, tipo =>
  let tailVar := "__tail_" ++ toString (ids.getD idx 0)
  Term.lam tailVar
    (Term.apply
      (Term.lam name
        (Term.apply (listAccessToUplc rest ids tail (idx + 1) term tipo)
          (Term.apply (Term.force (Term.builtin .tailList)) (Term.var tailVar))))
      (convertDataToType
        (Term.apply (Term.force (Term.builtin .headList)) (Term.var tailVar))
        ((tipo.getInnerTypes.headD voidTipo))))

/-- `ClauseProperties` (`builder.rs`): the per-`When` mutable record,
with one variant per subject shape. -/
inductive ClauseProperties where
| constrClause (clauseVarName : String) (needsConstrVar : Bool)
    (isComplexClause : Bool) (originalSubjectName : String)
| listClause (clauseVarName : String) (needsConstrVar : Bool)
    (isComplexClause : Bool) (originalSubjectName : String) (currentIndex : Nat)
| tupleClause (clauseVarName : String) (needsConstrVar : Bool)
    (isComplexClause : Bool) (originalSubjectName : String)
    (definedTupleIndices : List (Nat × String))

/-- Modelled from the spec: `ClauseProperties::init` dispatches on the
subject type (list, tuple, otherwise constructor). -/
def ClauseProperties.init (tipo : Tipo) (clauseVarName originalSubjectName : String) : ClauseProperties :=
  if tipo.isList then .listClause clauseVarName false false originalSubjectName 0
  else if tipo.isTuple then .tupleClause clauseVarName false false originalSubjectName []
  else .constrClause clauseVarName false false originalSubjectName

/-- `clause_properties.needs_constr_var()`. -/
def ClauseProperties.needsConstrVar : ClauseProperties → Bool
| .constrClause _ n _ _ => n
| .listClause _ n _ _ _ => n
| .tupleClause _ n _ _ _ => n

/-- `clause_properties.is_complex_clause()`. -/
def ClauseProperties.isComplexClause : ClauseProperties → Bool
| .constrClause _ _ c _ => c
| .listClause _ _ c _ _ => c
| .tupleClause _ _ c _ _ => c

/-- `clause_properties.original_subject_name()`. -/
def ClauseProperties.originalSubjectName : ClauseProperties → String
| .constrClause _ _ _ o => o
| .listClause _ _ _ o _ => o
| .tupleClause _ _ _ o _ => o

/-- `clause_properties.clause_var_name()`. -/
def ClauseProperties.clauseVarName : ClauseProperties → String
| .constrClause v _ _ _ => v
| .listClause v _ _ _ _ => v
| .tupleClause v _ _ _ _ => v

/-- Replace the `needs_constr_var` field. -/
def ClauseProperties.setNeedsConstrVar : ClauseProperties → Bool → ClauseProperties
| .constrClause v _ c o, n => .constrClause v n c o
| .listClause v _ c o i, n => .listClause v n c o i
| .tupleClause v _ c o d, n => .tupleClause v n c o d

/-- Replace the `is_complex_clause` field. -/
def ClauseProperties.setComplexClause : ClauseProperties → Bool → ClauseProperties
| .constrClause v n _ o, c => .constrClause v n c o
| .listClause v n _ o i, c => .listClause v n c o i
| .tupleClause v n _ o d, c => .tupleClause v n c o d

/-- Modelled from the spec: `builder::check_when_pattern_needs` — a
variable or alias pattern needs the whole constructor value, a nested
list/constructor/tuple pattern makes the clause complex. -/
def checkWhenPatternNeeds (p : Pattern) (props : ClauseProperties) : ClauseProperties :=
  match p with
  | .varP _ => props.setNeedsConstrVar true
  | .assignP _ _ => props.setNeedsConstrVar true
  | .listP _ _ => props.setComplexClause true
  | .constructorP _ _ _ _ _ => props.setComplexClause true
  | .tupleP _ => props.setComplexClause true
  | _ => props

/-- The non-decreasing sort key used by clause canonicalization: the
element count of a list pattern; catch-all (variable or discard)
patterns sort last. -/
def clauseSortKey (c : List Pattern × TypedExpr) : Nat :=
  match c.1.head? with
  | some (.listP elems _) => elems.length
  | _ => 1000000

/-- Stable insertion into a key-sorted clause list: the new clause goes
after all clauses with a key strictly less than its own and before any
clause with an equal key, so that a right fold over the source list
keeps equal-key clauses in source order. -/
def clauseOrderedInsert (c : List Pattern × TypedExpr) :
    List (List Pattern × TypedExpr) → List (List Pattern × TypedExpr)
| [] => [c]
| d :: ds =>
  if clauseSortKey c ≤ clauseSortKey d then c :: d :: ds
  else d :: clauseOrderedInsert c ds

/-- Modelled from the spec: `builder::rearrange_clauses` — reorder the
clauses of a list-pattern `When` into non-decreasing element-count
order with the catch-all rest clause last, ties broken by source order
(stable insertion sort). -/
def rearrangeClauses : List (List Pattern × TypedExpr) → List (List Pattern × TypedExpr)
| [] => []
| c :: cs => clauseOrderedInsert c (rearrangeClauses cs)

/-- The `Type::Fn→App` / `Type::App` dissection used to locate a data
type definition (`uplc.rs`, several sites); any other shape is an
`unreachable!()`. -/
def dataTypeKeyOf : Tipo → Option DataTypeKey
| .fn _ (.app _ module name _) => some ⟨module, name⟩
| .fn _ _ => none
| .app _ module name _ => some ⟨module, name⟩
| _ => none

/-- Stable insertion by a `Nat` key (mirrors itertools `sorted_by`,
which is a stable sort). -/
def keyOrderedInsert {α : Type} (key : α → Nat) (a : α) : List α → List α
| [] => [a]
| b :: bs => if key a < key b then a :: b :: bs else b :: keyOrderedInsert key a bs

/-- Stable sort by a `Nat` key. -/
def sortByKey {α : Type} (key : α → Nat) : List α → List α
| [] => []
| a :: as => keyOrderedInsert key a (sortByKey key as)

/-- `split_last` on a list: the leading clauses and the final clause. -/
def splitLast {α : Type} (xs : List α) : Option (List α × α) :=
  match xs.getLast? with
  | none => none
  | some a => some (xs.dropLast, a)

/-- The placeholder type used by `pattern_ir` for temporary list items
(`Type::App` with empty module and name). -/
def emptyAppTipo : Tipo := Tipo.app true "" "" []

/-- The fallback `Discard` type used by `when_recursive_ir` for labels
missing from the type map. -/
def discardTipo : Tipo := Tipo.app true "" "Discard" []

/-- Effectful map over a list in the `Option` monad (a failing element
models a Rust panic inside the corresponding loop). -/
def mapOptionList {α β : Type} (f : α → Option β) (xs : List α) : Option (List β) :=
  xs.mapM f

/-- The label-to-type map built by constructor-pattern lowering: the
i-th declared argument label (unwrapped) mapped to the i-th concrete
argument type. -/
def labelTypeMap (ctorArgs : List (Option String)) (argTs : List Tipo) : Option (List (String × Tipo)) :=
  argTs.enum.mapM (fun p => do
    let lbl ← ctorArgs.get? p.1
    let l ← lbl
    return (l, p.2))

mutual

/-- `CodeGenerator::build_ir` (`uplc.rs` lines 115–540): flatten a typed
expression into AIR, threading the id generator and the
`needs_field_access` flag; fuel bounds the recursion, `none` models a
Rust panic or a `todo!()`. -/
def buildIr (env : Env) : Nat → TypedExpr → GenState → List Nat → Option (List Air × GenState)
| 0, _, _, _ => none
| fuel + 1, body, st, scope =>
  match body with
  | .intE _ value => some ([.intA scope value], st)
  | .stringE _ value => some ([.stringA scope value], st)
  | .byteArrayE _ bytes => some ([.byteArrayA scope bytes], st)
  | .pipeline expressions => buildIrSeq env fuel expressions st scope true
  | .sequence expressions => buildIrSeq env fuel expressions st scope true
  | .varE constructor name =>
    match constructor.variant with
    | .moduleConstant literal => some ([constantsIr literal scope], st)
    | .moduleFn _ _ _ (some builtinF) _ =>
      some ([.builtinA scope builtinF constructor.tipo], st)
    | _ => some ([.varA scope constructor name ""], st)
  | .fnE _ _ args bodyE =>
    let (fid, st1) := st.next
    let funcScope := scope ++ [fid]
    do
    let (funcBody, st2) ← buildIr env fuel bodyE st1 funcScope
    let argNames := args.map (fun a => a.argName.getD "_")
    return (Air.fnA scope argNames :: funcBody, st2)
  | .listE tipo elements tail =>
    do
    let (elemsAir, st1) ← buildIrElems env fuel elements st scope
    match tail with
    | some tailExpr =>
      let (tid, st2) := st1.next
      let (tailAir, st3) ← buildIr env fuel tailExpr st2 (scope ++ [tid])
      return (Air.listA scope elements.length tipo true :: (elemsAir ++ tailAir), st3)
    | none =>
      return (Air.listA scope elements.length tipo false :: elemsAir, st1)
  | .callE _ fnExpr args =>
    let (fid, st1) := st.next
    do
    let (fnAir, st2) ← buildIr env fuel fnExpr st1 (scope ++ [fid])
    let (argsAir, st3) ← buildIrElems env fuel args st2 scope
    return (Air.callA scope args.length :: (fnAir ++ argsAir), st3)
  | .binOpE _ name left right =>
    let (lid, st1) := st.next
    let (rid, st2) := st1.next
    do
    let (leftAir, st3) ← buildIr env fuel left st2 (scope ++ [lid])
    let (rightAir, st4) ← buildIr env fuel right st3 (scope ++ [rid])
    return (Air.binOpA scope name 2 left.tipo :: (leftAir ++ rightAir), st4)
  | .assignmentE tipo value pattern kind =>
    let (vid, st1) := st.next
    do
    let (valueVec, st2) ← buildIr env fuel value st1 (scope ++ [vid])
    assignmentIr env fuel pattern valueVec tipo kind st2 scope
  | .whenE _ subjects clauses =>
    let (sid, st1) := st.next
    let subjectName := "__subject_name_" ++ toString sid
    let (cid, st2) := st1.next
    let constrVar := "__constr_name_" ++ toString cid
    match subjects.head? with
    | none => none
    | some subject =>
      match clauses.head? with
      | none => none
      | some c0 =>
        match c0.1.head? with
        | none => none
        | some p0 =>
          let selected :=
            match p0 with
            | .listP _ _ => rearrangeClauses clauses
            | _ => clauses
          whenCore env fuel subject subjectName constrVar selected st2 scope
  | .ifE _ branches finalElse =>
    do
    let (ifAir, st1) ← buildIrIfBranches env fuel branches st scope true
    let (eid, st2) := st1.next
    let (elseAir, st3) ← buildIr env fuel finalElse st2 (scope ++ [eid])
    return (ifAir ++ elseAir, st3)
  | .recordAccessE tipo _ index record =>
    let st1 := { st with needsFieldAccess := true }
    do
    let (recAir, st2) ← buildIr env fuel record st1 scope
    return (Air.recordAccessA scope index tipo :: recAir, st2)
  | .moduleSelect tipo _ moduleName constructor =>
    match constructor with
    | .recordM _ => none
    | .fnM name module =>
      match lookupKey env.functions ⟨moduleName, name, ""⟩ with
      | some func =>
        some ([.varA scope
          (ValueConstructor.public tipo (.moduleFn name module func.arguments.length none none))
          (module ++ "_" ++ name) ""], st)
      | none =>
        do
        let typeInfo ← lookupKey env.moduleTypes moduleName
        let value ← lookupKey typeInfo name
        match value.variant with
        | .moduleFn _ _ _ builtinF _ => do
          let b ← builtinF
          return ([.builtinA scope b tipo], st)
        | _ => none
    | .constantM literal => some ([constantsIr literal scope], st)
  | .todoE tipo label => some ([.todoA scope label tipo], st)
  | .recordUpdateE _ _ _ => none
  | .unOpE _ op value => do
    let (vAir, st1) ← buildIr env fuel value st scope
    return (Air.unOpA scope op :: vAir, st1)
  | .tupleE tipo elems => do
    let (elemsAir, st1) ← buildIrElems env fuel elems st scope
    return (Air.tupleA scope tipo elems.length :: elemsAir, st1)
  | .traceE tipo thenE text =>
    let (tid, st1) := st.next
    do
    let (thenAir, st2) ← buildIr env fuel thenE st1 (scope ++ [tid])
    return (Air.traceA scope text tipo :: thenAir, st2)
  | .tupleIndexE _ index tupleExpr => do
    let (tAir, st1) ← buildIr env fuel tupleExpr st scope
    return (Air.tupleIndexA scope tupleExpr.tipo index :: tAir, st1)
  | .errorTermE tipo label => some ([.errorTermA scope tipo label], st)
termination_by structural fuel => fuel

/-- The `Sequence`/`Pipeline` loop of `build_ir`: the first child shares
the parent scope, later children get fresh child scopes. -/
def buildIrSeq (env : Env) : Nat → List TypedExpr → GenState → List Nat → Bool → Option (List Air × GenState)
| 0, _, _, _, _ => none
| _ + 1, [], st, _, _ => some ([], st)
| fuel + 1, e :: rest, st, scope, isFirst =>
  if isFirst then do
    let (eAir, st1) ← buildIr env fuel e st scope
    let (restAir, st2) ← buildIrSeq env fuel rest st1 scope false
    return (eAir ++ restAir, st2)
  else
    let (bid, st1) := st.next
    do
    let (eAir, st2) ← buildIr env fuel e st1 (scope ++ [bid])
    let (restAir, st3) ← buildIrSeq env fuel rest st2 scope false
    return (eAir ++ restAir, st3)
termination_by structural fuel => fuel

/-- The element loop shared by `List`, `Call` and `Tuple` lowering:
each child gets a fresh child scope. -/
def buildIrElems (env : Env) : Nat → List TypedExpr → GenState → List Nat → Option (List Air × GenState)
| 0, _, _, _ => none
| _ + 1, [], st, _ => some ([], st)
| fuel + 1, e :: rest, st, scope =>
  let (eid, st1) := st.next
  do
  let (eAir, st2) ← buildIr env fuel e st1 (scope ++ [eid])
  let (restAir, st3) ← buildIrElems env fuel rest st2 scope
  return (eAir ++ restAir, st3)
termination_by structural fuel => fuel

/-- The `If` branch loop of `build_ir`: the first branch's `If`
instruction shares the parent scope, the rest get fresh scopes; the
condition and body of every branch live under the branch scope. -/
def buildIrIfBranches (env : Env) : Nat → List (TypedExpr × TypedExpr) → GenState → List Nat → Bool → Option (List Air × GenState)
| 0, _, _, _, _ => none
| _ + 1, [], st, _, _ => some ([], st)
| fuel + 1, (cond, bodyE) :: rest, st, scope, isFirst =>
  let (bid, st1) := st.next
  let branchScope := scope ++ [bid]
  do
  let (condAir, st2) ← buildIr env fuel cond st1 branchScope
  let (bodyAir, st3) ← buildIr env fuel bodyE st2 branchScope
  let (restAir, st4) ← buildIrIfBranches env fuel rest st3 scope false
  return ((Air.ifA (if isFirst then scope else branchScope) :: (condAir ++ bodyAir)) ++ restAir, st4)
termination_by structural fuel => fuel

/-- The body of the `When` lowering after clause-order selection
(`build_ir`, `TypedExpr::When` arm, from `split_last` on): splits the
final clause off, lowers the leading clauses, emits the `Finally`
fall-through and assembles the subject binding. -/
def whenCore (env : Env) : Nat → TypedExpr → String → String → List (List Pattern × TypedExpr) → GenState → List Nat → Option (List Air × GenState)
| 0, _, _, _, _, _, _ => none
| fuel + 1, subject, subjectName, constrVar, selected, st, scope =>
  match splitLast selected with
  | none => some ([], st)
  | some (initClauses, lastClause) =>
    let props := ClauseProperties.init subject.tipo constrVar subjectName
    do
    let (patternVec1, props1, st1) ←
      handleEachClause env fuel initClauses props subject.tipo st scope
    match lastClause.1.head? with
    | none => none
    | some lastPattern =>
      let (fid, st2) := st1.next
      let finalScope := scope ++ [fid]
      let (finalClauseVec, st3) ← buildIr env fuel lastClause.2 st2 finalScope
      let (whenAdd, props2, st4) ←
        whenIr env fuel lastPattern finalClauseVec subject.tipo props1 st3 finalScope
      let patternVec3 := (patternVec1 ++ [Air.finallyA finalScope]) ++ whenAdd
      if props2.needsConstrVar then do
        let (subjAir, st5) ← buildIr env fuel subject st4 scope
        let (wid, st6) := st5.next
        return ((Air.lamA scope constrVar :: subjAir) ++
          (Air.whenA scope subjectName subject.tipo ::
            Air.varA (scope ++ [wid]) (ValueConstructor.public subject.tipo .localVariable) constrVar "" ::
            patternVec3), st6)
      else do
        let (wid, st5) := st4.next
        let (subjAir, st6) ← buildIr env fuel subject st5 (scope ++ [wid])
        return (Air.whenA scope subjectName subject.tipo :: (subjAir ++ patternVec3), st6)
termination_by structural fuel => fuel

/-- `CodeGenerator::handle_each_clause` (`uplc.rs` lines 542–673). -/
def handleEachClause (env : Env) : Nat → List (List Pattern × TypedExpr) → ClauseProperties → Tipo → GenState → List Nat → Option (List Air × ClauseProperties × GenState)
| 0, _, _, _, _, _ => none
| _ + 1, [], props, _, st, _ => some ([], props, st)
| fuel + 1, clause :: rest, props, subjectType, st, scope =>
  let (cid, st1) := st.next
  let scopeC := scope ++ [cid]
  let props0 := props.setComplexClause false
  do
  let (clauseThenVec, st2) ← buildIr env fuel clause.2 st1 scopeC
  let pat0 ← clause.1.head?
  match props0 with
  | .constrClause _ _ _ originalSubjectName =>
    let subjectName := originalSubjectName
    let (clauseSubjectVec, props1, st3) ←
      whenIr env fuel pat0 clauseThenVec subjectType props0 st2 scopeC
    let instr := Air.clauseA scopeC subjectType subjectName props1.isComplexClause
    let (restAir, props2, st4) ← handleEachClause env fuel rest props1 subjectType st3 scope
    return ((instr :: clauseSubjectVec) ++ restAir, props2, st4)
  | .listClause _ _ _ originalSubjectName currentIndex =>
    let subjectName :=
      if currentIndex == 0 then originalSubjectName
      else "__tail_" ++ toString (currentIndex - 1)
    let (clauseSubjectVec, props1, st3) ←
      whenIr env fuel pat0 clauseThenVec subjectType props0 st2 scopeC
    let nextTail :=
      if rest.isEmpty then none
      else some ("__tail_" ++ toString currentIndex)
    let instr := Air.listClauseA scopeC subjectType subjectName nextTail props1.isComplexClause false
    match props1 with
    | .listClause v n c o i =>
      let props1b := ClauseProperties.listClause v n c o (i + 1)
      do
      let (restAir, props2, st4) ← handleEachClause env fuel rest props1b subjectType st3 scope
      return ((instr :: clauseSubjectVec) ++ restAir, props2, st4)
    | _ => none
  | .tupleClause _ _ _ originalSubjectName definedTupleIndices =>
    let prevDefined := definedTupleIndices
    let subjectName := originalSubjectName
    let (clauseSubjectVec, props1, st3) ←
      whenIr env fuel pat0 clauseThenVec subjectType props0 st2 scopeC
    match props1 with
    | .tupleClause _ _ _ _ currentDefined =>
      let indicesToDefine := currentDefined.filter (fun x => ¬ prevDefined.contains x)
      let instr := Air.tupleClauseA scopeC subjectType indicesToDefine prevDefined subjectName
        subjectType.getInnerTypes.length props1.isComplexClause
      do
      let (restAir, props2, st4) ← handleEachClause env fuel rest props1 subjectType st3 scope
      return ((instr :: clauseSubjectVec) ++ restAir, props2, st4)
    | _ => none
termination_by structural fuel => fuel

/-- `CodeGenerator::when_ir` (`uplc.rs` lines 675–879). -/
def whenIr (env : Env) : Nat → Pattern → List Air → Tipo → ClauseProperties → GenState → List Nat → Option (List Air × ClauseProperties × GenState)
| 0, _, _, _, _, _, _ => none
| fuel + 1, pattern, values, tipo, props, st, scope =>
  match pattern with
  | .intP value => some (Air.intA scope value :: values, props, st)
  | .stringP _ => none
  | .varP name =>
    some ([Air.discardA scope, Air.lamA scope name,
      Air.varA scope (ValueConstructor.public tipo .localVariable) props.originalSubjectName ""] ++ values,
      props, st)
  | .varUsage _ => none
  | .assignP name pat =>
    let newVec := [Air.lamA scope name,
      Air.varA scope (ValueConstructor.public tipo .localVariable) props.originalSubjectName ""] ++ values
    whenIr env fuel pat newVec tipo props st scope
  | .discardP => some (Air.discardA scope :: values, props, st)
  | .listP elements tail =>
    let props1 := elements.foldl (fun pr el => checkWhenPatternNeeds el pr) props
    let props2 := match tail with
      | some t => checkWhenPatternNeeds t props1
      | none => props1
    let props3 := props2.setNeedsConstrVar false
    do
    let (recAir, props4, st1) ←
      whenRecursiveIr env fuel (Pattern.listP elements tail) values props3 tipo st scope
    return (Air.discardA scope :: recAir, props4, st1)
  | .constructorP isRecord constrName arguments constructor tipoP =>
    let temp0 := props.setNeedsConstrVar false
    let temp1 := arguments.foldl (fun pr arg => checkWhenPatternNeeds arg.2 pr) temp0
    do
    let dtKey ← dataTypeKeyOf tipo
    let dataType ← lookupKey env.dataTypes dtKey
    let idx ← dataType.constructors.findIdx? (fun dt => dt.name = constrName)
    let newVec := [Air.varA scope (ValueConstructor.public tipo .localVariable) temp1.clauseVarName ""]
    let intPart := if dataType.constructors.length > 1 then [Air.intA scope (toString idx)] else []
    let (recAir, propsR, st1) ←
      whenRecursiveIr env fuel (Pattern.constructorP isRecord constrName arguments constructor tipoP)
        (if temp1.needsConstrVar then newVec else []) props tipo st scope
    let propsOut :=
      (propsR.setComplexClause (propsR.isComplexClause || temp1.isComplexClause)).setNeedsConstrVar
        (propsR.needsConstrVar || temp1.needsConstrVar)
    return ((intPart ++ recAir) ++ values, propsOut, st1)
  | .tupleP elems =>
    let props1 := elems.foldl (fun pr el => checkWhenPatternNeeds el pr) props
    let props2 := props1.setNeedsConstrVar false
    do
    let (recAir, props3, st1) ←
      whenRecursiveIr env fuel (Pattern.tupleP elems) [] props2 tipo st scope
    return (recAir ++ values, props3, st1)
termination_by structural fuel => fuel

/-- `CodeGenerator::when_recursive_ir` (`uplc.rs` lines 881–1177). -/
def whenRecursiveIr (env : Env) : Nat → Pattern → List Air → ClauseProperties → Tipo → GenState → List Nat → Option (List Air × ClauseProperties × GenState)
| 0, _, _, _, _, _, _ => none
| fuel + 1, pattern, values, props, tipo, st, scope =>
  match pattern with
  | .intP _ => none
  | .stringP _ => none
  | .varP _ => none
  | .varUsage _ => none
  | .assignP _ _ => none
  | .discardP => some (Air.discardA scope :: values, props, st)
  | .listP elements tail =>
    do
    let itemsType ← tipo.getInnerTypes.head?
    let (names, nested, st1) ← nestedNamesLoop env fuel elements itemsType st scope
    let tailName ← match tail with
      | some (.varP n) => some n
      | some .discardP => some ""
      | some _ => none
      | none => some ""
    let tailHeadNames := ((names.enum.filter (fun p => p.2 ≠ "_")).map
      (fun p => (if p.1 == 0 then props.originalSubjectName else "__tail_" ++ toString (p.1 - 1), p.2)))
    let instr :=
      if tail.isSome && !elements.isEmpty then
        let tailVar :=
          if elements.length == 1 then props.originalSubjectName
          else "__tail_" ++ toString (elements.length - 2)
        Air.listExpose scope tailHeadNames (some (tailVar, tailName)) tipo
      else
        Air.listExpose scope tailHeadNames none tipo
    return (instr :: (nested ++ values), props, st1)
  | .constructorP isRecord constrName arguments constructor tipoP =>
    do
    let dtKey ← dataTypeKeyOf tipoP
    let dataType ← lookupKey env.dataTypes dtKey
    let constructorType ← dataType.constructors.find? (fun dt => dt.name = constrName)
    if isRecord then do
      let fieldMap ← constructor.fieldMap
      let argTs ← tipoP.argTypes
      let typeMap ← labelTypeMap constructorType.arguments argTs
      let (argumentsIndex0, nested, st1) ←
        whenCtorArgsRec env fuel arguments fieldMap typeMap st scope
      let argumentsIndex := sortByKey (fun x => x.2.2) argumentsIndex0
      let indices ← mapOptionList (fun (x : String × String × Nat) => do
        let fieldType ← lookupKey typeMap x.1
        return (x.2.2, x.2.1, fieldType)) argumentsIndex
      let instrPart :=
        if argumentsIndex.isEmpty then []
        else [Air.fieldsExpose scope (argumentsIndex.length + 2) indices]
      return (instrPart ++ values ++ nested, props, st1)
    else do
      let argTs ← tipoP.argTypes
      let typeMap := argTs.enum
      let (argumentsIndex, nested, st1) ←
        whenCtorArgsPos env fuel arguments 0 typeMap st scope
      let indices ← mapOptionList (fun (x : String × Nat) => do
        let fieldType ← lookupKey typeMap x.2
        return (x.2, x.1, fieldType)) argumentsIndex
      let instrPart :=
        if argumentsIndex.isEmpty then []
        else [Air.fieldsExpose scope (argumentsIndex.length + 2) indices]
      return (instrPart ++ values ++ nested, props, st1)
  | .tupleP elems =>
    do
    let (names, nested, st1) ← nestedTupleNamesLoop env fuel elems 0 tipo.getInnerTypes st scope
    let defined0 ← match props with
      | .tupleClause _ _ _ _ d => some d
      | _ => none
    let (previousDefined, defined1) :=
      names.foldl (fun (acc : List (Nat × String) × List (Nat × String)) ni =>
        match acc.2.find? (fun d => d.1 == ni.2) with
        | some d => (acc.1 ++ [d], acc.2)
        | none => (acc.1, acc.2 ++ [(ni.2, ni.1)])) ([], defined0)
    let lamVars ← mapOptionList (fun (p : Nat × String) => do
      let newName ← (names.find? (fun ni => ni.2 == p.1)).map Prod.fst
      let patternType ← tipo.getInnerTypes.get? p.1
      return [Air.lamA scope newName,
        Air.varA scope (ValueConstructor.public patternType .localVariable) p.2 ""]) previousDefined
    let propsOut ← match props with
      | .tupleClause v n c o _ => some (ClauseProperties.tupleClause v n c o defined1)
      | _ => none
    return (lamVars.flatten ++ nested ++ values, propsOut, st1)
termination_by structural fuel => fuel

/-- The element loop of the `Pattern::List` arm of `when_recursive_ir`:
labels each element via `nested_pattern_ir_and_label`. -/
def nestedNamesLoop (env : Env) : Nat → List Pattern → Tipo → GenState → List Nat → Option (List String × List Air × GenState)
| 0, _, _, _, _ => none
| _ + 1, [], _, st, _ => some ([], [], st)
| fuel + 1, el :: rest, itemsType, st, scope =>
  do
  let (airs, nameOpt, st1) ← nestedPatternIrAndLabel env fuel el itemsType st scope
  let (names, nested, st2) ← nestedNamesLoop env fuel rest itemsType st1 scope
  return (nameOpt.getD "_" :: names, airs ++ nested, st2)
termination_by structural fuel => fuel

/-- The element loop of the `Pattern::Tuple` arm of
`when_recursive_ir`: labels each element against its component type. -/
def nestedTupleNamesLoop (env : Env) : Nat → List Pattern → Nat → List Tipo → GenState → List Nat → Option (List (String × Nat) × List Air × GenState)
| 0, _, _, _, _, _ => none
| _ + 1, [], _, _, st, _ => some ([], [], st)
| fuel + 1, el :: rest, index, itemsTypes, st, scope =>
  do
  let itemType ← itemsTypes.get? index
  let (airs, nameOpt, st1) ← nestedPatternIrAndLabel env fuel el itemType st scope
  let (names, nested, st2) ← nestedTupleNamesLoop env fuel rest (index + 1) itemsTypes st1 scope
  return ((nameOpt.getD "_", index) :: names, airs ++ nested, st2)
termination_by structural fuel => fuel

/-- The record-constructor argument loop of `when_recursive_ir`
(`filter_map` producing `(label, var_name, field_index)`). -/
def whenCtorArgsRec (env : Env) : Nat → List (Option String × Pattern) → FieldMap → List (String × Tipo) → GenState → List Nat → Option (List (String × String × Nat) × List Air × GenState)
| 0, _, _, _, _, _ => none
| _ + 1, [], _, _, st, _ => some ([], [], st)
| fuel + 1, item :: rest, fieldMap, typeMap, st, scope =>
  let label := item.1.getD ""
  let fieldIndex := (lookupKey fieldMap.fields label).getD 0
  do
  let (airs, nameOpt, st1) ←
    nestedPatternIrAndLabel env fuel item.2 ((lookupKey typeMap label).getD discardTipo) st scope
  let (acc, nested, st2) ← whenCtorArgsRec env fuel rest fieldMap typeMap st1 scope
  match nameOpt with
  | some varName => return ((label, varName, fieldIndex) :: acc, airs ++ nested, st2)
  | none => return (acc, airs ++ nested, st2)
termination_by structural fuel => fuel

/-- The positional-constructor argument loop of `when_recursive_ir`. -/
def whenCtorArgsPos (env : Env) : Nat → List (Option String × Pattern) → Nat → List (Nat × Tipo) → GenState → List Nat → Option (List (String × Nat) × List Air × GenState)
| 0, _, _, _, _, _ => none
| _ + 1, [], _, _, st, _ => some ([], [], st)
| fuel + 1, item :: rest, index, typeMap, st, scope =>
  do
  let itemType ← lookupKey typeMap index
  let (airs, nameOpt, st1) ← nestedPatternIrAndLabel env fuel item.2 itemType st scope
  let (acc, nested, st2) ← whenCtorArgsPos env fuel rest (index + 1) typeMap st1 scope
  match nameOpt with
  | some varName => return ((varName, index) :: acc, airs ++ nested, st2)
  | none => return (acc, airs ++ nested, st2)
termination_by structural fuel => fuel

/-- `CodeGenerator::nested_pattern_ir_and_label` (`uplc.rs` lines
1179–1480). -/
def nestedPatternIrAndLabel (env : Env) : Nat → Pattern → Tipo → GenState → List Nat → Option (List Air × Option String × GenState)
| 0, _, _, _, _ => none
| fuel + 1, pattern, patternType, st, scope =>
  match pattern with
  | .varP name => some ([], some name, st)
  | .discardP => some ([], none, st)
  | .listP elements tail =>
    let (inid, st1) := st.next
    let itemName := "__list_item_id_" ++ toString inid
    if elements.isEmpty then
      some ([Air.listClauseA scope patternType itemName none false true,
        Air.discardA scope,
        Air.varA scope (ValueConstructor.public patternType .localVariable) "__other_clauses_delayed" ""],
        some itemName, st1)
    else do
      let (airs, st2) ←
        nestedListLoop env fuel (Pattern.listP elements tail) elements.length tail itemName
          patternType 0 st1 scope
      return (airs, some itemName, st2)
  | .constructorP isRecord constrName arguments constructor tipoP =>
    let (cid, st1) := st.next
    let constrVarName := constrName ++ "_" ++ toString cid
    do
    let dtKey ← dataTypeKeyOf tipoP
    let dataType ← lookupKey env.dataTypes dtKey
    let guardPart :=
      if dataType.constructors.length > 1 then
        [Air.clauseGuard scope constrVarName tipoP]
      else []
    let propsInner := ClauseProperties.constrClause constrVarName false false constrVarName
    let (whenAir, _, st2) ←
      whenIr env fuel (Pattern.constructorP isRecord constrName arguments constructor tipoP)
        [] tipoP propsInner st1 scope
    return (guardPart ++ whenAir, some constrVarName, st2)
  | .tupleP elems =>
    let (tid, st1) := st.next
    let itemName := "__tuple_item_id_" ++ toString tid
    let propsInner := ClauseProperties.tupleClause itemName false false itemName []
    do
    let (innerAir, propsOut, st2) ←
      whenIr env fuel (Pattern.tupleP elems) [] patternType propsInner st1 scope
    let definedIndices ← match propsOut with
      | .tupleClause _ _ _ _ d => some d
      | _ => none
    let instr := Air.tupleClauseA scope patternType definedIndices []
      propsOut.originalSubjectName elems.length false
    return (instr :: innerAir, some itemName, st2)
  | _ => none
termination_by structural fuel => fuel

/-- The per-element loop of the nonempty `Pattern::List` arm of
`nested_pattern_ir_and_label`. -/
def nestedListLoop (env : Env) : Nat → Pattern → Nat → Option Pattern → String → Tipo → Nat → GenState → List Nat → Option (List Air × GenState)
| 0, _, _, _, _, _, _, _, _ => none
| fuel + 1, fullPat, total, tail, itemName, patternType, index, st, scope =>
  if index < total then
    let prevTailName :=
      if index == 0 then itemName
      else "__list_tail" ++ "_" ++ toString (index - 1)
    let propsInner := ClauseProperties.listClause itemName false false itemName index
    let tailNameIdx := "__list_tail" ++ "_" ++ toString index
    let ocdVar := Air.varA scope (ValueConstructor.public patternType .localVariable)
      "__other_clauses_delayed" ""
    if index == total - 1 then
      if tail.isSome then do
        let tn ← match tail with
          | some (.varP n) => some n
          | some .discardP => some "_"
          | _ => none
        let head := [Air.listClauseA scope patternType prevTailName (some tn) false false,
          Air.discardA scope, ocdVar]
        let (whenAir, _, st1) ← whenIr env fuel fullPat [] patternType propsInner st scope
        let (restAir, st2) ←
          nestedListLoop env fuel fullPat total tail itemName patternType (index + 1) st1 scope
        return ((head ++ whenAir) ++ restAir, st2)
      else do
        let head := [Air.listClauseA scope patternType prevTailName (some tailNameIdx) false false,
          Air.discardA scope, ocdVar,
          Air.listClauseA scope patternType tailNameIdx none false true,
          Air.discardA scope, ocdVar]
        let (whenAir, _, st1) ← whenIr env fuel fullPat [] patternType propsInner st scope
        let (restAir, st2) ←
          nestedListLoop env fuel fullPat total tail itemName patternType (index + 1) st1 scope
        return ((head ++ whenAir) ++ restAir, st2)
    else do
      let tn ← match tail with
        | some (.varP n) => some n
        | some .discardP => some "_"
        | _ => none
      let head := [Air.listClauseA scope patternType prevTailName (some tn) false false,
        Air.discardA scope, ocdVar]
      let (whenAir, _, st1) ← whenIr env fuel fullPat [] patternType propsInner st scope
      let (restAir, st2) ←
        nestedListLoop env fuel fullPat total tail itemName patternType (index + 1) st1 scope
      return ((head ++ whenAir) ++ restAir, st2)
  else
    some ([], st)
termination_by structural fuel => fuel

/-- `CodeGenerator::assignment_ir` (`uplc.rs` lines 1482–1517). -/
def assignmentIr (env : Env) : Nat → Pattern → List Air → Tipo → AssignmentKind → GenState → List Nat → Option (List Air × GenState)
| 0, _, _, _, _, _, _ => none
| fuel + 1, pattern, valueVec, tipo, kind, st, scope =>
  match pattern with
  | .intP _ => none
  | .stringP _ => none
  | .varP name => some (Air.assignmentA scope name kind :: valueVec, st)
  | .varUsage _ => none
  | .assignP _ _ => none
  | .discardP => patternIr env fuel pattern valueVec tipo st scope
  | .listP _ _ => patternIr env fuel pattern valueVec tipo st scope
  | .constructorP _ _ _ _ _ => patternIr env fuel pattern valueVec tipo st scope
  | .tupleP _ => patternIr env fuel pattern valueVec tipo st scope

/-- `CodeGenerator::pattern_ir` (`uplc.rs` lines 1519–1826). -/
def patternIr (env : Env) : Nat → Pattern → List Air → Tipo → GenState → List Nat → Option (List Air × GenState)
| 0, _, _, _, _, _ => none
| fuel + 1, pattern, values, tipo, st, scope =>
  match pattern with
  | .intP _ => none
  | .stringP _ => none
  | .varP _ => none
  | .varUsage _ => none
  | .assignP _ _ => none
  | .discardP => some (Air.discardA scope :: values, st)
  | .listP elements tail =>
    do
    let (names0, elementsVec, st1) ← patternListElems env fuel elements tipo st scope
    let names ← match tail with
      | some (.varP name) => some (names0 ++ [name])
      | some .discardP => some names0
      | some _ => none
      | none => some names0
    return ((Air.listAccessor scope names tail.isSome tipo :: values) ++ elementsVec, st1)
  | .constructorP isRecord constrName arguments constructor tipoP =>
    do
    let dtKey ← dataTypeKeyOf tipoP
    let dataType ← lookupKey env.dataTypes dtKey
    let constructorType ← dataType.constructors.find? (fun dt => dt.name = constrName)
    if isRecord then do
      let argTs ← tipoP.argTypes
      let typeMap ← labelTypeMap constructorType.arguments argTs
      let fieldMap ← constructor.fieldMap
      let (items, nested, st1) ← patternCtorArgsRec env fuel arguments fieldMap st scope
      let argumentsIndex := sortByKey (fun x => x.2.2) ((items.filter (fun x => !x.2.2.2)).map
        (fun x => (x.1, x.2.1, x.2.2.1)))
      let indices ← mapOptionList (fun (x : String × String × Nat) => do
        let fieldType ← lookupKey typeMap x.1
        return (x.2.2, x.2.1, fieldType)) argumentsIndex
      let instrPart :=
        if argumentsIndex.isEmpty then []
        else [Air.fieldsExpose scope (argumentsIndex.length + 2) indices]
      return ((instrPart ++ values) ++ nested, st1)
    else do
      let argTs ← tipoP.argTypes
      let typeMap := argTs.enum
      let (items, nested, st1) ← patternCtorArgsPos env fuel arguments 0 st scope
      let argumentsIndex := (items.filter (fun x => !x.2.2)).map (fun x => (x.1, x.2.1))
      let indices ← mapOptionList (fun (x : String × Nat) => do
        let fieldType ← lookupKey typeMap x.2
        return (x.2, x.1, fieldType)) argumentsIndex
      let instrPart :=
        if argumentsIndex.isEmpty then []
        else [Air.fieldsExpose scope (argumentsIndex.length + 2) indices]
      return ((instrPart ++ values) ++ nested, st1)
  | .tupleP elems =>
    do
    let (names, elementsVec, st1) ← patternListElems env fuel elems tipo st scope
    return ((Air.tupleAccessor scope names tipo :: values) ++ elementsVec, st1)
termination_by structural fuel => fuel

/-- The element loop shared by the `List` and `Tuple` arms of
`pattern_ir`: variables are named directly, nested list patterns get a
fresh `list_item_id_<k>` temporary lowered recursively, anything else
is a `todo!()`. -/
def patternListElems (env : Env) : Nat → List Pattern → Tipo → GenState → List Nat → Option (List String × List Air × GenState)
| 0, _, _, _, _ => none
| _ + 1, [], _, st, _ => some ([], [], st)
| fuel + 1, el :: rest, tipo, st, scope =>
  match el with
  | .varP name => do
    let (names, airs, st1) ← patternListElems env fuel rest tipo st scope
    return (name :: names, airs, st1)
  | .listP es tl => do
    let (iid, st1) := st.next
    let itemName := "list_item_id_" ++ toString iid
    let varVec := [Air.varA scope (ValueConstructor.public emptyAppTipo .localVariable) itemName ""]
    let innerType ← tipo.getInnerTypes.head?
    let (elAir, st2) ← patternIr env fuel (Pattern.listP es tl) varVec innerType st1 scope
    let (names, airs, st3) ← patternListElems env fuel rest tipo st2 scope
    return (itemName :: names, elAir ++ airs, st3)
  | _ => none
termination_by structural fuel => fuel

/-- The record-constructor argument loop of `pattern_ir` (labels, var
names, field indices and discard flags). -/
def patternCtorArgsRec (env : Env) : Nat → List (Option String × Pattern) → FieldMap → GenState → List Nat → Option (List (String × String × Nat × Bool) × List Air × GenState)
| 0, _, _, _, _ => none
| _ + 1, [], _, st, _ => some ([], [], st)
| fuel + 1, item :: rest, fieldMap, st, scope =>
  let label := item.1.getD ""
  let fieldIndex := (lookupKey fieldMap.fields label).getD 0
  match item.2 with
  | .varP name => do
    let (acc, nested, st1) ← patternCtorArgsRec env fuel rest fieldMap st scope
    return ((label, name, fieldIndex, false) :: acc, nested, st1)
  | .discardP => do
    let (acc, nested, st1) ← patternCtorArgsRec env fuel rest fieldMap st scope
    return ((label, "", fieldIndex, true) :: acc, nested, st1)
  | .constructorP isRecord constrName arguments constructor tipoP => do
    let (cid, st1) := st.next
    let constrVarName := constrName ++ "_" ++ toString cid
    let (elAir, st2) ←
      patternIr env fuel (Pattern.constructorP isRecord constrName arguments constructor tipoP)
        [Air.varA scope (ValueConstructor.public tipoP .localVariable) constrVarName ""]
        tipoP st1 scope
    let (acc, nested, st3) ← patternCtorArgsRec env fuel rest fieldMap st2 scope
    return ((label, constrVarName, fieldIndex, false) :: acc, elAir ++ nested, st3)
  | _ => none
termination_by structural fuel => fuel

/-- The positional-constructor argument loop of `pattern_ir`. -/
def patternCtorArgsPos (env : Env) : Nat → List (Option String × Pattern) → Nat → GenState → List Nat → Option (List (String × Nat × Bool) × List Air × GenState)
| 0, _, _, _, _ => none
| _ + 1, [], _, st, _ => some ([], [], st)
| fuel + 1, item :: rest, index, st, scope =>
  match item.2 with
  | .varP name => do
    let (acc, nested, st1) ← patternCtorArgsPos env fuel rest (index + 1) st scope
    return ((name, index, false) :: acc, nested, st1)
  | .discardP => do
    let (acc, nested, st1) ← patternCtorArgsPos env fuel rest (index + 1) st scope
    return (("", index, true) :: acc, nested, st1)
  | .constructorP isRecord constrName arguments constructor tipoP => do
    let (cid, st1) := st.next
    let constrVarName := constrName ++ "_" ++ toString cid
    let (elAir, st2) ←
      patternIr env fuel (Pattern.constructorP isRecord constrName arguments constructor tipoP)
        [Air.varA scope (ValueConstructor.public tipoP .localVariable) constrVarName ""]
        tipoP st1 scope
    let (acc, nested, st3) ← patternCtorArgsPos env fuel rest (index + 1) st2 scope
    return ((constrVarName, index, false) :: acc, elAir ++ nested, st3)
  | _ => none
termination_by structural fuel => fuel

end

/-- Draw `n` fresh ids in sequence (the `for _ in 0..n { id_list.push(next) }`
loops of `gen_uplc`). -/
def drawIds : GenState → Nat → List Nat × GenState
| st, 0 => ([], st)
| st, n + 1 =>
  let (i, st1) := st.next
  let (rest, st2) := drawIds st1 n
  (i :: rest, st2)

/-- Iterated `force_wrap` (`for _ in 0..func.force_count()`). -/
def forceWrapN : Term → Nat → Term
| t, 0 => t
| t, n + 1 => Term.force (forceWrapN t n)

/-- An empty list-of-pairs constant as used by the tuple-pair equality
branches. -/
def emptyPairList : Term :=
  Term.con (.protoList (.pair .dataU .dataU) [])

/-- `Term::Builtin(MkCons).force_wrap()` applied to a head and a tail. -/
def mkConsApply (headT tailT : Term) : Term :=
  Term.apply (Term.apply (Term.force (Term.builtin .mkCons)) headT) tailT

/-- The number of operands each AIR instruction pops from the operand
stack during `gen_uplc` (read off the `arg_stack.pop()` calls of each
match arm; a `todo!()` arm pops nothing). -/
def airOpCount : Air → Nat
| .intA _ _ => 0
| .stringA _ _ => 0
| .byteArrayA _ _ => 0
| .varA _ _ _ _ => 0
| .builtinA _ _ _ => 0
| .discardA _ => 0
| .errorTermA _ _ _ => 0
| .todoA _ _ _ => 0
| .fnA _ _ => 1
| .unOpA _ _ => 1
| .traceA _ _ _ => 1
| .recordAccessA _ _ _ => 1
| .tupleIndexA _ _ _ => 1
| .listExpose _ _ _ _ => 1
| .finallyA _ => 1
| .callA _ count => if count ≥ 1 then count + 1 else 1
| .binOpA _ _ _ _ => 2
| .assignmentA _ _ _ => 2
| .defineFunc _ _ _ _ _ _ => 2
| .lamA _ _ => 2
| .listA _ count _ tail => count + (if tail then 1 else 0)
| .listAccessor _ _ _ _ => 2
| .tupleA _ _ count => count
| .tupleAccessor _ _ _ => 2
| .fieldsExpose _ _ _ => 2
| .whenA _ _ _ => 2
| .clauseA _ _ _ _ => 3
| .listClauseA _ _ _ _ _ _ => 3
| .tupleClauseA _ _ _ _ _ _ complex => if complex then 2 else 1
| .clauseGuard _ _ _ => 2
| .ifA _ => 3
| .defineConst _ => 0
| .defineConstrFields _ => 0
| .defineConstrFieldAccess _ => 0
| .constrA _ => 0
| .fieldsA _ => 0
| .recordA _ => 0
| .recordUpdateA _ => 0

/-- The record-constructor data-list fold of the `Air::Var` arm with a
field map: reversed iteration over the index-sorted labels zipped with
the argument types, prepending each converted field with `MkCons`. -/
def recordFieldsWithMap (sortedFields : List ((String × Nat) × Tipo)) : Term :=
  sortedFields.foldr
    (fun f acc => mkConsApply (convertTypeToData (Term.var f.1.1) f.2) acc)
    (Term.con (.protoList .dataU []))

/-- The record-constructor data-list fold of the `Air::Var` arm without
a field map: forward iteration over `__arg_i`, prepending with
`MkCons` (exactly as the source iterates, without reversing). -/
def recordFieldsPositional (argsWithIndex : List (Nat × Tipo)) : Term :=
  argsWithIndex.foldl
    (fun acc p => mkConsApply (convertTypeToData (Term.var ("__arg_" ++ toString p.1)) p.2) acc)
    (Term.con (.protoList .dataU []))

/-- The inner countdown loop of the `Air::FieldsExpose` arm: walks the
field indices from `highest - 1` down to `0`, binding either a named
field (via `HeadList`) plus the next tail, or just the next tail. -/
def fieldsExposeLoop (idList : List Nat) (constrNameLam : String) :
    Nat → Option (Nat × String × Tipo) → List (Nat × String × Tipo) → Term → Term
| 0, _, _, body => body
| n + 1, currentField0, remaining0, body =>
  let index := n
  let currentTailId := idList.getD index 0
  let previousTailId := if index == 0 then 0 else idList.getD (index - 1) 0
  let (currentField, remaining) :=
    match currentField0 with
    | none =>
      match remaining0 with
      | f :: fs => (some f, fs)
      | [] => (none, ([] : List (Nat × String × Tipo)))
    | some f => (some f, remaining0)
  let prevTail :=
    if index == 0 then Term.var constrNameLam
    else Term.var ("__tail_" ++ toString (index - 1) ++ "_" ++ toString previousTailId)
  match currentField with
  | some field =>
    if field.1 == index then
      let unwrapper := convertDataToType
        (Term.apply (Term.force (Term.builtin .headList)) prevTail) field.2.2
      let body1 := Term.apply
        (Term.lam field.2.1
          (Term.apply
            (Term.lam ("__tail_" ++ toString index ++ "_" ++ toString currentTailId) body)
            (Term.apply (Term.force (Term.builtin .tailList)) prevTail)))
        unwrapper
      fieldsExposeLoop idList constrNameLam n none remaining body1
    else
      let body1 := Term.apply
        (Term.lam ("__tail_" ++ toString index ++ "_" ++ toString currentTailId) body)
        (Term.apply (Term.force (Term.builtin .tailList)) prevTail)
      fieldsExposeLoop idList constrNameLam n (some field) remaining body1
  | none =>
    let body1 := Term.apply
      (Term.lam ("__tail_" ++ toString index ++ "_" ++ toString currentTailId) body)
      (Term.apply (Term.force (Term.builtin .tailList)) prevTail)
    fieldsExposeLoop idList constrNameLam n none remaining body1

/-- The `ModuleFn` name-mangling rule of the `Air::Var` arm. -/
def moduleFnName (funcName module name variantName : String) : String :=
  if (funcName == name || name == module ++ "_" ++ funcName) && module ≠ "" then
    module ++ "_" ++ funcName ++ variantName
  else
    funcName ++ variantName

/-- The per-type clause checker of the `Air::Clause` arm: a partial
equality application against the subject variable; `is_bool` is a
`todo!()` and `is_list` an `unreachable!()`. -/
def clauseChecker (tipo : Tipo) (subjectName : String) : Option Term :=
  if tipo.isInt then
    some (Term.apply (Term.builtin .equalsInteger) (Term.var subjectName))
  else if tipo.isBytearray then
    some (Term.apply (Term.builtin .equalsByteString) (Term.var subjectName))
  else if tipo.isBool then none
  else if tipo.isString then
    some (Term.apply (Term.builtin .equalsString) (Term.var subjectName))
  else if tipo.isList then none
  else
    some (Term.apply (Term.builtin .equalsInteger) (Term.var subjectName))

/-- Modelled from the spec: a runtime value of the downstream UPLC
evaluator — a constant, a delayed term, a lambda, or a partially
applied builtin carrying its forces and arguments so far. -/
inductive Value where
| vCon (c : UplcConstant)
| vDelay (t : Term)
| vLam (param : String) (body : Term)
| vBuiltin (f : DefaultFunction) (forces : Nat) (args : List Value)

mutual

/-- Modelled from the spec: discharge a machine value back into a term
(the `Term<NamedDeBruijn> -> Term<Name>` conversion after the
compile-time evaluation of a zero-argument function). -/
def valueToTerm : Value → Term
| .vCon c => Term.con c
| .vDelay t => Term.delay t
| .vLam p b => Term.lam p b
| .vBuiltin f forces args => valuesApply (forceWrapN (Term.builtin f) forces) args

/-- Reapply discharged builtin arguments. -/
def valuesApply : Term → List Value → Term
| t, [] => t
| t, v :: vs => valuesApply (Term.apply t (valueToTerm v)) vs

end

/-- Modelled from the spec: capture-naive substitution of a closed term
for a variable (values discharged by the machine are closed). -/
def substTerm (name : String) (v : Term) : Term → Term
| .var n => if n == name then v else .var n
| .lam p b => if p == name then .lam p b else .lam p (substTerm name v b)
| .apply f a => .apply (substTerm name v f) (substTerm name v a)
| .delay t => .delay (substTerm name v t)
| .force t => .force (substTerm name v t)
| .con c => .con c
| .builtin f => .builtin f
| .errorT => .errorT

/-- Modelled from the spec: value-argument arity of each builtin. -/
def DefaultFunction.arity : DefaultFunction → Nat
| .ifThenElse => 3
| .chooseList => 3
| .chooseUnit => 2
| .headList => 1
| .tailList => 1
| .nullList => 1
| .fstPair => 1
| .sndPair => 1
| .mapData => 1
| .listData => 1
| .iData => 1
| .bData => 1
| .unConstrData => 1
| .unMapData => 1
| .unListData => 1
| .unIData => 1
| .unBData => 1
| .traceB => 2
| _ => 2

/-- Modelled from the spec: the semantics of a saturated builtin on the
constant/data fragment exercised here; ill-typed applications (for
example `EqualsData` on a non-`Data` argument) are evaluation errors. -/
def evalBuiltin : DefaultFunction → List Value → Option Value
| .addInteger, [.vCon (.integer a), .vCon (.integer b)] => some (.vCon (.integer (a + b)))
| .subtractInteger, [.vCon (.integer a), .vCon (.integer b)] => some (.vCon (.integer (a - b)))
| .multiplyInteger, [.vCon (.integer a), .vCon (.integer b)] => some (.vCon (.integer (a * b)))
| .equalsInteger, [.vCon (.integer a), .vCon (.integer b)] => some (.vCon (.boolC (a == b)))
| .lessThanInteger, [.vCon (.integer a), .vCon (.integer b)] => some (.vCon (.boolC (a < b)))
| .lessThanEqualsInteger, [.vCon (.integer a), .vCon (.integer b)] => some (.vCon (.boolC (a ≤ b)))
| .equalsByteString, [.vCon (.byteStringC a), .vCon (.byteStringC b)] => some (.vCon (.boolC (a == b)))
| .equalsString, [.vCon (.stringC a), .vCon (.stringC b)] => some (.vCon (.boolC (a == b)))
| .equalsData, [.vCon (.dataC a), .vCon (.dataC b)] => some (.vCon (.boolC (PData.beq a b)))
| .ifThenElse, [.vCon (.boolC b), t, e] => some (if b then t else e)
| .listData, [.vCon (.protoList _ xs)] => do
  let ds ← xs.mapM (fun c => match c with | UplcConstant.dataC d => some d | _ => none)
  return .vCon (.dataC (.listD ds))
| .mapData, [.vCon (.protoList _ xs)] => do
  let ps ← xs.mapM (fun c => match c with
    | UplcConstant.protoPair _ _ (.dataC k) (.dataC v) => some (k, v)
    | _ => none)
  return .vCon (.dataC (.mapD ps))
| .iData, [.vCon (.integer a)] => some (.vCon (.dataC (.iD a)))
| .bData, [.vCon (.byteStringC a)] => some (.vCon (.dataC (.bD a)))
| .unIData, [.vCon (.dataC (.iD a))] => some (.vCon (.integer a))
| .unBData, [.vCon (.dataC (.bD a))] => some (.vCon (.byteStringC a))
| .unListData, [.vCon (.dataC (.listD ds))] =>
  some (.vCon (.protoList .dataU (ds.map (fun d => UplcConstant.dataC d))))
| .mkCons, [.vCon c, .vCon (.protoList t xs)] => some (.vCon (.protoList t (c :: xs)))
| _, _ => none

/-- Modelled from the spec: big-step evaluation of closed terms over
the builtin/constant fragment of the downstream VM (fuelled; lambda
application is outside the fragment; `none` is an evaluation error). -/
def evalTerm : Nat → Term → Option Value
| 0, _ => none
| _ + 1, .con c => some (.vCon c)
| _ + 1, .builtin f => some (.vBuiltin f 0 [])
| _ + 1, .delay t => some (.vDelay t)
| _ + 1, .lam p b => some (.vLam p b)
| _ + 1, .var _ => none
| _ + 1, .errorT => none
| fuel + 1, .force t => do
  let v ← evalTerm fuel t
  match v with
  | .vDelay t2 => evalTerm fuel t2
  | .vBuiltin f k [] =>
    if k < f.forceCount then some (.vBuiltin f (k + 1) []) else none
  | _ => none
| fuel + 1, .apply f a => do
  let vf ← evalTerm fuel f
  let va ← evalTerm fuel a
  match vf with
  | .vBuiltin fb k args =>
    if k ≠ fb.forceCount then none
    else if args.length + 1 = fb.arity then evalBuiltin fb (args ++ [va])
    else if args.length + 1 < fb.arity then some (.vBuiltin fb k (args ++ [va]))
    else none
  | .vLam p body => evalTerm fuel (substTerm p (valueToTerm va) body)
  | _ => none

/-- The mangled-name test of the zero-argument `Air::Call` loop
(`uplc.rs` lines 2788-2791): the popped variable matches a zero-arg
function when it equals `{func}{variant}` or `{module}_{func}{variant}`. -/
def zeroArgNameMatch (text : String) (kv : FunctionAccessKey × List Air) : Bool :=
  text == kv.1.functionName ++ kv.1.variantName ||
  text == kv.1.moduleName ++ "_" ++ kv.1.functionName ++ kv.1.variantName

/-- Pop exactly `n` operands off the operand stack (`arg_stack.pop()`
`n` times; `none` models the `unwrap` panic on an empty stack). -/
def popN (n : Nat) (stack : List Term) : Option (List Term × List Term) :=
  if stack.length < n then none else some (stack.take n, stack.drop n)

mutual

/-- `CodeGenerator::gen_uplc` (`uplc.rs` lines 2294–4285), split into
the operand list popped per `airOpCount` and the pushed result terms:
`[t]` for a synthesizing instruction, `[]` for `Air::Finally`, and one
term per matching zero-argument function for a zero-argument
`Air::Call` on a variable (its saved AIR is compile-time synthesized,
spliced and evaluated, re-entering `uplc_code_gen`, hence the fuel).
Every `todo!()`/`unreachable!()`/failed `unwrap` is `none`. -/
def genSynth (env : Env) : Nat → GenState → Air → List Term → Option (List Term × GenState)
| 0, _, _, _ => none
| fuel + 1, st, air, ops =>
  match air, ops with
  | .intA _ value, _ => do
    let i ← parseInt value
    return ([Term.con (.integer i)], st)
  | .stringA _ value, _ => some ([Term.con (.stringC value)], st)
  | .byteArrayA _ bytes, _ => some ([Term.con (.byteStringC bytes)], st)
  | .varA _ constructor name variantName, _ =>
    match constructor.variant with
    | .localVariable => some ([Term.var name], st)
    | .moduleConstant _ => none
    | .moduleFn funcName module _ _ _ =>
      some ([Term.var (moduleFnName funcName module name variantName)], st)
    | .record constrName arity fieldMapR =>
      do
      let dataTypeKey ← match constructor.tipo with
        | .app _ module name _ => some (DataTypeKey.mk module name)
        | .fn _ (.app _ module name _) => some (DataTypeKey.mk module name)
        | _ => none
      if constructor.tipo.isBool then
        return ([Term.con (.boolC (constrName == "True"))], st)
      else if constructor.tipo.isVoid then
        return ([Term.con .unit], st)
      else do
        let dataType ← lookupKey env.dataTypes dataTypeKey
        let constrIndex ← dataType.constructors.findIdx? (fun x => x.name = constrName)
        let argsType ← constructor.tipo.argTypes
        let fields :=
          match fieldMapR with
          | some fieldMap =>
            recordFieldsWithMap ((sortByKey (fun p => p.2) fieldMap.fields).zip argsType)
          | none => recordFieldsPositional (argsType.enum.take arity)
        let term0 := Term.apply
          (Term.apply (Term.builtin .constrData) (Term.con (.integer constrIndex)))
          fields
        let term :=
          match fieldMapR with
          | some fieldMap =>
            (sortByKey (fun p => p.2) fieldMap.fields).foldr
              (fun f acc => Term.lam f.1 acc) term0
          | none =>
            (argsType.enum.take arity).foldl
              (fun acc p => Term.lam ("__arg_" ++ toString p.1) acc) term0
        return ([term], st)
  | .discardA _, _ => some ([Term.con .unit], st)
  | .listA _ count tipo tail, ops => do
    let args := ops.take count
    let constants := args.filterMap (fun t => match t with | .con c => some c | _ => none)
    let listType ← tipo.getInnerTypes.head?
    if constants.length == args.length && !tail then
      if tipo.isMap then do
        let pairs ← mapOptionList
          (fun c => match c with
            | UplcConstant.protoPair _ _ f s => some (f, s)
            | _ => none) constants
        let convertKeys := convertConstantsToData (pairs.map Prod.fst)
        let convertValues := convertConstantsToData (pairs.map Prod.snd)
        let list := Term.con (.protoList (.pair .dataU .dataU)
          ((convertKeys.zip convertValues).map
            (fun kv => UplcConstant.protoPair .dataU .dataU kv.1 kv.2)))
        return ([list], st)
      else
        return ([Term.con (.protoList .dataU (convertConstantsToData constants))], st)
    else do
      let term0 ←
        if tail then ops.get? count
        else if tipo.isMap then some (Term.con (.protoList (.pair .dataU .dataU) []))
        else some (Term.con (.protoList .dataU []))
      let term := args.foldr
        (fun arg acc =>
          mkConsApply (if tipo.isMap then arg else convertTypeToData arg listType) acc)
        term0
      return ([term], st)
  | .listAccessor _ names tail tipo, [value, term] => do
    let (idList, st1) := drawIds st names.length
    let (firstName, restNames) ← match names with
      | n :: ns => some (n, ns)
      | [] => none
    let (listId, st2) := st1.next
    let listVar := Term.var ("__list_" ++ toString listId)
    let headListT ←
      if tipo.isMap then
        some (Term.apply (Term.force (Term.builtin .headList)) listVar)
      else do
        let inner ← tipo.getInnerTypes.head?
        some (convertDataToType (Term.apply (Term.force (Term.builtin .headList)) listVar) inner)
    let result := Term.apply
      (Term.lam ("__list_" ++ toString listId)
        (Term.apply
          (Term.lam firstName
            (Term.apply (listAccessToUplc restNames idList tail 0 term tipo)
              (Term.apply (Term.force (Term.builtin .tailList)) listVar)))
          headListT))
      value
    return ([result], st2)
  | .listExpose _ tailHeadNames tail tipo, [term] => do
    let headOf : String → Option Term := fun tailVar =>
      if tipo.isMap then
        some (Term.apply (Term.force (Term.builtin .headList)) (Term.var tailVar))
      else do
        let inner ← tipo.getInnerTypes.head?
        some (convertDataToType
          (Term.apply (Term.force (Term.builtin .headList)) (Term.var tailVar)) inner)
    let t1 := match tail with
      | some (tailVar, tailName) =>
        Term.apply (Term.lam tailName term)
          (Term.apply (Term.force (Term.builtin .tailList)) (Term.var tailVar))
      | none => term
    let t2 ← tailHeadNames.foldr
      (fun p acc => do
        let accT ← acc
        let h ← headOf p.1
        some (Term.apply (Term.lam p.2 accT) h))
      (some t1)
    return ([t2], st)
  | .fnA _ params, [term] =>
    some ([params.foldr (fun p acc => Term.lam p acc) term], st)
  | .callA _ count, ops =>
    if count ≥ 1 then do
      let callee ← ops.head?
      return ([(ops.drop 1).foldl (fun acc arg => Term.apply acc arg) callee], st)
    else do
      let term ← ops.head?
      match term with
      | Term.var text => zeroArgApply env fuel st text st.zeroArgFunctions
      | _ => some ([], st)
  | .builtinA _ func tipo, _ =>
    match func with
    | .fstPair | .sndPair | .headList => do
      let (id, st1) := st.next
      let term0 := Term.apply (forceWrapN (Term.builtin func) func.forceCount)
        (Term.var ("__arg_" ++ toString id))
      let innerType ←
        if func matches .sndPair then do
          let t0 ← tipo.getInnerTypes.head?
          t0.getInnerTypes.get? 1
        else do
          let t0 ← tipo.getInnerTypes.head?
          t0.getInnerTypes.get? 0
      let term1 := convertDataToType term0 innerType
      return ([Term.lam ("__arg_" ++ toString id) term1], st1)
    | .mkCons => none
    | .mkPairData => none
    | _ => some ([forceWrapN (Term.builtin func) func.forceCount], st)
  | .binOpA _ name _ tipo, [left, right] => do
    let defaultBuiltin : DefaultFunction :=
      if tipo.isInt then .equalsInteger
      else if tipo.isString then .equalsString
      else if tipo.isBytearray then .equalsByteString
      else .equalsData
    let term ←
      match name with
      | .andB => some (delayedIfElse left right (Term.con (.boolC false)))
      | .orB => some (delayedIfElse left (Term.con (.boolC true)) right)
      | .eqB =>
        if tipo.isBool then
          some (delayedIfElse left right
            (ifElse right (Term.con (.boolC false)) (Term.con (.boolC true))))
        else if tipo.isMap then
          some (Term.apply
            (Term.apply (Term.builtin defaultBuiltin)
              (Term.apply (Term.builtin .mapData) left))
            (Term.apply (Term.builtin .mapData) right))
        else if tipo.isTuple && (tipo.getUplcType matches UplcType.pair _ _) then
          some (Term.apply
            (Term.apply (Term.builtin defaultBuiltin)
              (Term.apply (Term.builtin .mapData) (mkConsApply left emptyPairList)))
            (Term.apply (Term.builtin .mapData) (mkConsApply right emptyPairList)))
        else if tipo.isList then
          some (Term.apply
            (Term.apply (Term.builtin defaultBuiltin)
              (Term.apply (Term.builtin .listData) left))
            (Term.apply (Term.builtin .listData) right))
        else if tipo.isVoid then
          some (Term.con (.boolC true))
        else
          some (Term.apply (Term.apply (Term.builtin defaultBuiltin) left) right)
      | .notEqB =>
        if tipo.isBool then
          some (delayedIfElse left
            (ifElse right (Term.con (.boolC false)) (Term.con (.boolC true)))
            right)
        else if tipo.isMap then
          some (ifElse
            (Term.apply
              (Term.apply (Term.builtin defaultBuiltin)
                (Term.apply (Term.builtin .mapData) left))
              (Term.apply (Term.builtin .mapData) right))
            (Term.con (.boolC false)) (Term.con (.boolC true)))
        else if tipo.isTuple && (tipo.getUplcType matches UplcType.pair _ _) then
          some (ifElse
            (Term.apply
              (Term.apply (Term.builtin defaultBuiltin)
                (Term.apply (Term.builtin .mapData) (mkConsApply left emptyPairList)))
              (mkConsApply right emptyPairList))
            (Term.con (.boolC false)) (Term.con (.boolC true)))
        else if tipo.isList then
          some (ifElse
            (Term.apply
              (Term.apply (Term.builtin defaultBuiltin)
                (Term.apply (Term.builtin .listData) left))
              (Term.apply (Term.builtin defaultBuiltin)
                (Term.apply (Term.builtin .listData) right)))
            (Term.con (.boolC false)) (Term.con (.boolC true)))
        else if tipo.isVoid then
          some (Term.con (.boolC false))
        else
          some (ifElse
            (Term.apply (Term.apply (Term.builtin defaultBuiltin) left) right)
            (Term.con (.boolC false)) (Term.con (.boolC true)))
      | .ltInt =>
        some (Term.apply (Term.apply (Term.builtin .lessThanInteger) left) right)
      | .ltEqInt =>
        some (Term.apply (Term.apply (Term.builtin .lessThanEqualsInteger) left) right)
      | .gtEqInt =>
        some (Term.apply (Term.apply (Term.builtin .lessThanEqualsInteger) right) left)
      | .gtInt =>
        some (Term.apply (Term.apply (Term.builtin .lessThanInteger) right) left)
      | .addInt =>
        some (Term.apply (Term.apply (Term.builtin .addInteger) left) right)
      | .subInt =>
        some (Term.apply (Term.apply (Term.builtin .subtractInteger) left) right)
      | .multInt =>
        some (Term.apply (Term.apply (Term.builtin .multiplyInteger) left) right)
      | .divInt =>
        some (Term.apply (Term.apply (Term.builtin .divideInteger) left) right)
      | .modInt =>
        some (Term.apply (Term.apply (Term.builtin .modInteger) left) right)
    some ([term], st)
  | .unOpA _ op, [value] =>
    match op with
    | .notU =>
      some ([ifElse value (Term.con (.boolC false)) (Term.con (.boolC true))], st)
    | .negate =>
      some ([Term.apply (Term.apply (Term.builtin .subtractInteger) (Term.con (.integer 0))) value], st)
  | .assignmentA _ name _, [rightHand, lamBody] =>
    some ([Term.apply (Term.lam name lamBody) rightHand], st)
  | .defineFunc _ funcName moduleName variantName params recursive, [funcBody0, term0] =>
    let funcNameFull :=
      if moduleName == "" then funcName ++ variantName
      else moduleName ++ "_" ++ funcName ++ variantName
    let funcBody := params.foldr (fun p acc => Term.lam p acc) funcBody0
    if !recursive then
      some ([Term.apply (Term.lam funcNameFull term0) funcBody], st)
    else
      let funcBody1 := Term.lam funcNameFull funcBody
      some ([Term.apply
        (Term.lam funcNameFull
          (Term.apply (Term.lam funcNameFull term0)
            (Term.apply (Term.var funcNameFull) (Term.var funcNameFull))))
        funcBody1], st)
  | .defineConst _, _ => none
  | .defineConstrFields _, _ => none
  | .defineConstrFieldAccess _, _ => none
  | .lamA _ name, [arg, term] =>
    some ([Term.apply (Term.lam name term) arg], st)
  | .whenA _ subjectName tipo, [subject, term] =>
    if tipo.isInt || tipo.isBytearray || tipo.isString || tipo.isList || tipo.isTuple then
      some ([Term.apply (Term.lam subjectName term) subject], st)
    else
      some ([Term.apply (Term.lam subjectName term) (constrIndexExposer subject)], st)
  | .clauseA _ tipo subjectName complexClause, [clause, bodyT, term] => do
    let checker ← clauseChecker tipo subjectName
    if complexClause then
      return ([Term.force (Term.apply
        (Term.lam "__other_clauses_delayed"
          (Term.force (ifElse (Term.apply checker clause) (Term.delay bodyT)
            (Term.var "__other_clauses_delayed"))))
        (Term.delay term))], st)
    else
      return ([delayedIfElse (Term.apply checker clause) bodyT term], st)
  | .listClauseA _ _ tailName nextTailName complexClause inverse, [_, p1, p2] =>
    let (bodyT, term) := if inverse then (p2, p1) else (p1, p2)
    let arg := match nextTailName with
      | some ntn =>
        Term.apply (Term.lam ntn term)
          (Term.apply (Term.force (Term.builtin .tailList)) (Term.var tailName))
      | none => term
    if complexClause then
      let t1 := Term.force (chooseListT (Term.var tailName) (Term.delay bodyT)
        (Term.var "__other_clauses_delayed"))
      some ([Term.apply (Term.lam "__other_clauses_delayed" t1) (Term.delay arg)], st)
    else
      some ([delayedChooseList (Term.var tailName) bodyT arg], st)
  | .clauseGuard _ subjectName tipo, [condition, thenT] => do
    let checker ←
      if tipo.isInt then
        some (Term.apply (Term.builtin .equalsInteger) (Term.var subjectName))
      else if tipo.isBytearray then
        some (Term.apply (Term.builtin .equalsByteString) (Term.var subjectName))
      else if tipo.isBool then none
      else if tipo.isString then
        some (Term.apply (Term.builtin .equalsString) (Term.var subjectName))
      else if tipo.isList then none
      else
        some (Term.apply (Term.builtin .equalsInteger)
          (constrIndexExposer (Term.var subjectName)))
    return ([Term.force (ifElse (Term.apply checker condition) (Term.delay thenT)
      (Term.var "__other_clauses_delayed"))], st)
  | .finallyA _, [_] => some ([], st)
  | .ifA _, [condition, thenT, term] =>
    some ([delayedIfElse condition thenT term], st)
  | .constrA _, _ => none
  | .fieldsA _, _ => none
  | .recordAccessA _ index tipo, [constr] =>
    let term0 := Term.apply
      (Term.apply (Term.var constrGetFieldName)
        (Term.apply (Term.var constrFieldsExposerName) constr))
      (Term.con (.integer index))
    some ([convertDataToType term0 tipo], st)
  | .fieldsExpose _ _ indices, [constrVar, bodyT] => do
    let st0 := { st with needsFieldAccess := true }
    let highest ← indices.reverse.head?
    let (hIdx, hName, hTipo) := (highest.1, highest.2.1, highest.2.2)
    let (idList, st1) := drawIds st0 hIdx
    let (cid, st2) := st1.next
    let constrNameLam := "__constr_fields_" ++ toString cid
    let lastPrevTail :=
      if hIdx == 0 then Term.var constrNameLam
      else Term.var ("__tail_" ++ toString (hIdx - 1) ++ "_" ++
        toString (idList.getD (hIdx - 1) 0))
    let body1 := Term.apply (Term.lam hName bodyT)
      (convertDataToType
        (Term.apply (Term.force (Term.builtin .headList)) lastPrevTail) hTipo)
    let body2 := fieldsExposeLoop idList constrNameLam hIdx none
      (indices.reverse.drop 1) body1
    let body3 := Term.apply (Term.lam constrNameLam body2)
      (Term.apply (Term.var constrFieldsExposerName) constrVar)
    return ([body3], st2)
  | .tupleA _ tipo count, ops => do
    let args := ops
    let constants := args.filterMap (fun t => match t with | .con c => some c | _ => none)
    let tupleSubTypes := tipo.getInnerTypes
    if constants.length == args.length then
      let dataConstants := convertConstantsToData constants
      if count == 2 then do
        let d0 ← dataConstants.get? 0
        let d1 ← dataConstants.get? 1
        return ([Term.con (.protoPair .dataU .dataU d0 d1)], st)
      else
        return ([Term.con (.protoList .dataU dataConstants)], st)
    else if count == 2 then do
      let a0 ← args.get? 0
      let a1 ← args.get? 1
      let t0 ← tupleSubTypes.get? 0
      let t1 ← tupleSubTypes.get? 1
      return ([Term.apply
        (Term.apply (Term.builtin .mkPairData) (convertTypeToData a0 t0))
        (convertTypeToData a1 t1)], st)
    else
      return ([(args.zip tupleSubTypes).foldr
        (fun p acc => mkConsApply (convertTypeToData p.1 p.2) acc)
        (Term.con (.protoList .dataU []))], st)
  | .todoA _ label _, _ =>
    some ([Term.force (Term.apply
      (Term.apply (Term.force (Term.builtin .traceB))
        (Term.con (.stringC (label.getD "aiken::todo"))))
      (Term.delay Term.errorT))], st)
  | .recordA _, _ => none
  | .recordUpdateA _, _ => none
  | .tupleIndexA _ tipo index, [term] =>
    if tipo.getUplcType matches UplcType.pair _ _ then
      if index == 0 then do
        let t0 ← tipo.getInnerTypes.get? 0
        return ([convertDataToType
          (applyWrap (forceWrapN (Term.builtin .fstPair) 2) term) t0], st)
      else do
        let t1 ← tipo.getInnerTypes.get? 1
        return ([convertDataToType
          (applyWrap (forceWrapN (Term.builtin .sndPair) 2) term) t1], st)
    else
      some ([applyWrap
        (applyWrap (Term.var constrGetFieldName) term)
        (Term.con (.integer index))], { st with needsFieldAccess := true })
  | .tupleAccessor _ names tipo, [value, term] => do
    let innerTypes := tipo.getInnerTypes
    let (listId, st1) := st.next
    let tupleVar := Term.var ("__tuple_" ++ toString listId)
    if names.length == 2 then do
      let n0 ← names.get? 0
      let n1 ← names.get? 1
      let it0 ← innerTypes.get? 0
      let it1 ← innerTypes.get? 1
      return ([Term.apply
        (Term.lam ("__tuple_" ++ toString listId)
          (Term.apply
            (Term.lam n0
              (Term.apply (Term.lam n1 term)
                (convertDataToType
                  (Term.apply (forceWrapN (Term.builtin .sndPair) 2) tupleVar) it1)))
            (convertDataToType
              (Term.apply (forceWrapN (Term.builtin .fstPair) 2) tupleVar) it0)))
        value], st1)
    else do
      let (idList, st2) := drawIds st1 names.length
      let (firstName, restNames) ← match names with
        | n :: ns => some (n, ns)
        | [] => none
      let headListT ← do
        let inner ← tipo.getInnerTypes.head?
        some (convertDataToType
          (Term.apply (Term.force (Term.builtin .headList)) tupleVar) inner)
      return ([Term.apply
        (Term.lam ("__tuple_" ++ toString listId)
          (Term.apply
            (Term.lam firstName
              (Term.apply (listAccessToUplc restNames idList false 0 term tipo)
                (Term.apply (Term.force (Term.builtin .tailList)) tupleVar)))
            headListT))
        value], st2)
  | .traceA _ text _, [term] =>
    some ([Term.apply
      (Term.apply (Term.force (Term.builtin .traceB))
        (Term.con (.stringC (text.getD "aiken::trace"))))
      term], st)
  | .errorTermA _ _ label, _ =>
    match label with
    | some l =>
      some ([Term.force (Term.apply
        (Term.apply (Term.force (Term.builtin .traceB)) (Term.con (.stringC l)))
        (Term.delay Term.errorT))], st)
    | none => some ([Term.errorT], st)
  | .tupleClauseA _ tipo indices _ subjectName _ complexClause, ops => do
    let term0 ← ops.head?
    let tupleTypes := tipo.getInnerTypes
    let term1 ←
      if tupleTypes.length == 2 then
        indices.foldlM (fun acc p => do
          let tIdx ← tupleTypes.get? p.1
          let accessor := if p.1 == 0 then DefaultFunction.fstPair else DefaultFunction.sndPair
          return applyWrap (Term.lam p.2 acc)
            (convertDataToType
              (applyWrap (forceWrapN (Term.builtin accessor) 2) (Term.var subjectName))
              tIdx)) term0
      else
        indices.foldlM (fun acc p => do
          let tIdx ← tupleTypes.get? p.1
          return applyWrap (Term.lam p.2 acc)
            (convertDataToType
              (applyWrap (Term.force (Term.builtin .headList))
                (repeatTailList (Term.var subjectName) p.1))
              tIdx)) term0
    if complexClause then do
      let nextClause ← ops.get? 1
      return ([applyWrap (Term.lam "__other_clauses_delayed" term1) (Term.delay nextClause)], st)
    else
      return ([term1], st)
  | _, _ => none
termination_by structural fuel => fuel

/-- The zero-argument `Air::Call` loop (`uplc.rs` lines 2774-2812):
for each zero-arg function whose mangled name matches the popped
variable, synthesize its saved AIR, splice the field-access helpers,
evaluate at compile time and push the discharged result (in push
order: the first match ends up deepest). -/
def zeroArgApply (env : Env) : Nat → GenState → String →
    List (FunctionAccessKey × List Air) → Option (List Term × GenState)
| 0, _, _, _ => none
| _ + 1, st, _, [] => some ([], st)
| fuel + 1, st, text, (key, ir) :: rest =>
  if zeroArgNameMatch text (key, ir) then do
    let (t0, st1) ← uplcCodeGen env fuel st ir
    let t1 := constrFieldsExposer (constrGetField t0)
    let v ← evalTerm fuel t1
    let (restOut, st2) ← zeroArgApply env fuel st1 text rest
    return (restOut ++ [valueToTerm v], st2)
  else zeroArgApply env fuel st text rest
termination_by structural fuel => fuel

/-- One iteration of the `uplc_code_gen` loop: pop the instruction's
operands, synthesize, push the results. -/
def genUplcStep (env : Env) : Nat → GenState → Air → List Term → Option (List Term × GenState)
| 0, _, _, _ => none
| fuel + 1, st, air, stack => do
  let (ops, rest) ← popN (airOpCount air) stack
  let (out, st1) ← genSynth env fuel st air ops
  return (out ++ rest, st1)
termination_by structural fuel => fuel

/-- The `while let Some(ir) = ir_stack.pop()` loop of `uplc_code_gen`:
the instruction list is consumed from the front here because the caller
passes it already reversed. -/
def genUplcGo (env : Env) : Nat → List Air → GenState → List Term → Option (List Term × GenState)
| 0, _, _, _ => none
| _ + 1, [], st, stack => some (stack, st)
| fuel + 1, ir :: restIr, st, stack => do
  let (stack1, st1) ← genUplcStep env fuel st ir stack
  genUplcGo env fuel restIr st1 stack1
termination_by structural fuel => fuel

/-- `CodeGenerator::uplc_code_gen` (`uplc.rs` lines 2284–2292):
reverse-iterate the AIR through an operand stack and return
`arg_stack[0]` — the bottom (first-pushed) element of the stack, which
in this head-is-top list representation is the last element. -/
def uplcCodeGen (env : Env) : Nat → GenState → List Air → Option (Term × GenState)
| 0, _, _ => none
| fuel + 1, st, irStack => do
  let (stack, st1) ← genUplcGo env fuel irStack.reverse st []
  let t ← stack.getLast?
  return (t, st1)
termination_by structural fuel => fuel

end

/-- `IndexMap::insert`: overwrite in place when the key exists,
otherwise append (insertion order preserved). -/
def assocInsert {α β : Type} [DecidableEq α] (xs : List (α × β)) (k : α) (v : β) : List (α × β) :=
  if xs.any (fun p => p.1 = k) then
    xs.map (fun p => if p.1 = k then (k, v) else p)
  else xs ++ [(k, v)]

/-- `IndexMap::shift_remove`: drop a key preserving the order of the
remaining entries. -/
def assocRemove {α β : Type} [DecidableEq α] (xs : List (α × β)) (k : α) : List (α × β) :=
  xs.filter (fun p => ¬ p.1 = k)

mutual

/-- Modelled from the spec: substitute concrete types for generic type
variables (the core of `monomorphize`). -/
def substTipo (m : List (Nat × Tipo)) : Tipo → Tipo
| .varT id => (lookupKey m id).getD (.varT id)
| .app p mo n args => .app p mo n (substTipoList m args)
| .fn args ret => .fn (substTipoList m args) (substTipo m ret)
| .tuple elems => .tuple (substTipoList m elems)

/-- Elementwise `substTipo`. -/
def substTipoList (m : List (Nat × Tipo)) : List Tipo → List Tipo
| [] => []
| t :: ts => substTipo m t :: substTipoList m ts

end

mutual

/-- Modelled from the spec: the canonical (stable) string encoding of a
concrete type, used to key monomorphic instantiations. -/
def tipoCanonical : Tipo → String
| .app _ mo n args => mo ++ n ++ tipoCanonicalList args
| .fn args ret => "fn" ++ tipoCanonicalList args ++ tipoCanonical ret
| .tuple elems => "tuple" ++ tipoCanonicalList elems
| .varT id => "g" ++ toString id

/-- Concatenated canonical encodings. -/
def tipoCanonicalList : List Tipo → String
| [] => ""
| t :: ts => "_" ++ tipoCanonical t ++ tipoCanonicalList ts

end

mutual

/-- Modelled from the spec: `get_generics_and_type` — unify a declared
(possibly generic) type against a concrete one, collecting the
`(type-variable id, concrete type)` pairs. -/
def getGenericsAndType : Tipo → Tipo → List (Nat × Tipo)
| .varT id, t => [(id, t)]
| .app _ _ _ args, .app _ _ _ args2 => getGenericsAndTypeList args args2
| .fn args ret, .fn args2 ret2 =>
  getGenericsAndTypeList args args2 ++ getGenericsAndType ret ret2
| .tuple es, .tuple es2 => getGenericsAndTypeList es es2
| _, _ => []

/-- Pairwise `getGenericsAndType`. -/
def getGenericsAndTypeList : List Tipo → List Tipo → List (Nat × Tipo)
| t :: ts, u :: us => getGenericsAndType t u ++ getGenericsAndTypeList ts us
| _, _ => []

end

/-- Apply a type substitution to every type payload of an AIR
instruction (the tree rewrite performed by `monomorphize`). -/
def mapAirTipo (f : Tipo → Tipo) : Air → Air
| .builtinA s fu t => .builtinA s fu (f t)
| .binOpA s n c t => .binOpA s n c (f t)
| .listA s c t tl => .listA s c (f t) tl
| .listAccessor s ns tl t => .listAccessor s ns tl (f t)
| .listExpose s thn tl t => .listExpose s thn tl (f t)
| .tupleA s t c => .tupleA s (f t) c
| .tupleAccessor s ns t => .tupleAccessor s ns (f t)
| .tupleIndexA s t i => .tupleIndexA s (f t) i
| .recordAccessA s i t => .recordAccessA s i (f t)
| .fieldsExpose s c idx => .fieldsExpose s c (idx.map (fun p => (p.1, p.2.1, f p.2.2)))
| .whenA s n t => .whenA s n (f t)
| .clauseA s t n c => .clauseA s (f t) n c
| .listClauseA s t n nt c i => .listClauseA s (f t) n nt c i
| .tupleClauseA s t i pi n c cc => .tupleClauseA s (f t) i pi n c cc
| .clauseGuard s n t => .clauseGuard s n (f t)
| .traceA s txt t => .traceA s txt (f t)
| .todoA s l t => .todoA s l (f t)
| .errorTermA s t l => .errorTermA s (f t) l
| .varA s c n v =>
  .varA s { c with tipo := f c.tipo } n v
| a => a

/-- Modelled from the spec: `monomorphize` — substitute the generic
parameters of a lowered body by the concrete types of the call site and
produce the deterministic `variant_name` (empty when there are no
generics). -/
def monomorphize (ir : List Air) (genericsMap : List (Nat × Tipo)) (fullType : Tipo) : String × List Air :=
  if genericsMap.isEmpty then ("", ir)
  else
    ("_" ++ tipoCanonical (substTipo genericsMap fullType),
     ir.map (mapAirTipo (substTipo genericsMap)))

/-- The generics-map construction shared by both `process_define_ir`
sites: extend the map with `get_generics_and_type` for every generic
declared argument, later bindings overriding earlier ones; out-of-range
parameter access is a panic. -/
def genericsMapOf (funcArgs : List TypedArg) (paramTypes : List Tipo) : Option (List (Nat × Tipo)) :=
  funcArgs.enum.foldlM
    (fun acc p =>
      if p.2.tipo.isGeneric then do
        let pt ← paramTypes.get? p.1
        return (getGenericsAndType p.2.tipo pt).foldl
          (fun m kv => assocInsert m kv.1 kv.2) acc
      else
        return acc)
    []

/-- Modelled from the spec: `handle_func_deps_ir`, restricted to
dependency-free functions — with no dependencies it emits nothing;
dependent functions are outside this embedding. -/
def handleFuncDepsIr (comp : FuncComponents) : Option (List Air) :=
  if comp.dependencies.isEmpty then some [] else none

/-- Modelled from the spec: `handle_recursion_ir` — the function body
AIR emitted after its `DefineFunc`; the self-reference rewriting of
recursive bodies is name-stable in this model. -/
def handleRecursionIr (comp : FuncComponents) : List Air :=
  comp.ir

/-- The `func_calls` collection loop inside `process_define_ir` (lines
2138–2237): scan the monomorphized body for `ModuleFn` variables and
record each referenced key (monomorphizing dependencies on the fly);
ends with the `recursive` flag extraction. -/
def collectFuncCalls (env : Env) (fuel : Nat) (functionKey : FunctionAccessKey) (variantName : String) (scope : List Nat) :
    List Air → List FunctionAccessKey → GenState → Option (List FunctionAccessKey × GenState)
| [], acc, st => some (acc, st)
| ir :: rest, acc, st =>
  match ir with
  | .varA _ constructor _ _ =>
    match constructor.variant with
    | .moduleFn funcName module _ _ _ =>
      let currentFunc : FunctionAccessKey := ⟨module, funcName, ""⟩
      let currentFuncAsVariant : FunctionAccessKey := ⟨module, funcName, variantName⟩
      let functionOpt := lookupKey env.functions currentFunc
      if functionKey = currentFuncAsVariant then
        let acc1 := if acc.contains currentFuncAsVariant then acc else acc ++ [currentFuncAsVariant]
        collectFuncCalls env fuel functionKey variantName scope rest acc1 st
      else
        match functionOpt, constructor.tipo with
        | some function, .fn fnArgs fnRet => do
          let paramTypes ← (Tipo.fn fnArgs fnRet).argTypes
          let genericsMap ← genericsMapOf function.arguments paramTypes
          let (funcIr, st1) ← buildIr env fuel function.body st scope
          let (variant2, _) := monomorphize funcIr genericsMap (Tipo.fn fnArgs fnRet)
          let k : FunctionAccessKey := ⟨currentFunc.moduleName, currentFunc.functionName, variant2⟩
          let acc1 := if acc.contains k then acc else acc ++ [k]
          collectFuncCalls env fuel functionKey variantName scope rest acc1 st1
        | _, _ =>
          let acc1 := if acc.contains currentFunc then acc else acc ++ [currentFunc]
          collectFuncCalls env fuel functionKey variantName scope rest acc1 st
    | _ => collectFuncCalls env fuel functionKey variantName scope rest acc st
  | _ => collectFuncCalls env fuel functionKey variantName scope rest acc st

/-- The non-`Var` arm of the `process_define_ir` scan (lines
2252–2273): record or refine the hoist scope of every pending function
dominated by the instruction's scope. -/
def processScopeArm (scope : List Nat) (toBeDefined : List (FunctionAccessKey × List Nat))
    (funcIndexMap : List (FunctionAccessKey × List Nat)) :
    List (FunctionAccessKey × List Nat) × List (FunctionAccessKey × List Nat) :=
  toBeDefined.foldl
    (fun (acc : List (FunctionAccessKey × List Nat) × List (FunctionAccessKey × List Nat)) func =>
      let (tbd, fim) := acc
      if commonAncestor scope func.2 = scope then
        match lookupKey fim func.1 with
        | some indexScope =>
          if commonAncestor indexScope func.2 = scope then
            (assocRemove tbd func.1, assocInsert fim func.1 scope)
          else
            (assocInsert tbd func.1 (commonAncestor indexScope func.2), fim)
        | none =>
          (assocRemove tbd func.1, assocInsert fim func.1 scope)
      else acc)
    (toBeDefined, funcIndexMap)

/-- `CodeGenerator::process_define_ir` (`uplc.rs` lines 2066–2282),
expressed as a reverse fold over the enumerated AIR snapshot; the AIR
vector is rewritten in place at `Var` rewrites. -/
def processDefineIr (env : Env) (fuel : Nat) :
    List (Nat × Air) → List Air → List (FunctionAccessKey × List Nat) →
    List (FunctionAccessKey × FuncComponents) → List (FunctionAccessKey × List Nat) →
    GenState →
    Option (List Air × List (FunctionAccessKey × List Nat) ×
      List (FunctionAccessKey × FuncComponents) × List (FunctionAccessKey × List Nat) × GenState)
| [], irStack, toBeDefined, funcComponents, funcIndexMap, st =>
  some (irStack, toBeDefined, funcComponents, funcIndexMap, st)
| (index, ir) :: restRev, irStack, toBeDefined, funcComponents, funcIndexMap, st =>
  match ir with
  | .varA scope constructor name _ =>
    match constructor.variant with
    | .moduleFn fnName module _ none _ => do
      let nonVariantKey : FunctionAccessKey := ⟨module, fnName, ""⟩
      let function ← lookupKey env.functions nonVariantKey
      let (funcIr0, st1) ← buildIr env fuel function.body st scope
      let paramTypes ← constructor.tipo.argTypes
      let genericsMap ← genericsMapOf function.arguments paramTypes
      let (variantName, funcIr) := monomorphize funcIr0 genericsMap constructor.tipo
      let functionKey : FunctionAccessKey := ⟨module, nonVariantKey.functionName, variantName⟩
      let irStack1 := irStack.set index (Air.varA scope constructor name variantName)
      match lookupKey toBeDefined functionKey with
      | some scopePrev =>
        let toBeDefined1 := assocInsert toBeDefined functionKey (commonAncestor scope scopePrev)
        processDefineIr env fuel restRev irStack1 toBeDefined1 funcComponents funcIndexMap st1
      | none =>
        if (lookupKey funcComponents functionKey).isSome then
          let toBeDefined1 := assocInsert toBeDefined functionKey scope
          processDefineIr env fuel restRev irStack1 toBeDefined1 funcComponents funcIndexMap st1
        else do
          let toBeDefined1 := assocInsert toBeDefined functionKey scope
          let (funcCalls0, st2) ←
            collectFuncCalls env fuel functionKey variantName scope funcIr [] st1
          let args := function.arguments.map (fun a => a.argName.getD "_")
          let recursive := funcCalls0.contains functionKey
          let funcCalls :=
            if recursive then funcCalls0.filter (fun k => ¬ k = functionKey) else funcCalls0
          let funcComponents1 := assocInsert funcComponents functionKey
            ⟨funcIr, funcCalls, recursive, args⟩
          processDefineIr env fuel restRev irStack1 toBeDefined1 funcComponents1 funcIndexMap st2
    | _ =>
      processDefineIr env fuel restRev irStack toBeDefined funcComponents funcIndexMap st
  | _ =>
    let (toBeDefined1, funcIndexMap1) := processScopeArm ir.scope toBeDefined funcIndexMap
    processDefineIr env fuel restRev irStack toBeDefined1 funcComponents funcIndexMap1 st

/-- The trailing "still to be defined" fold of `process_define_ir`
(lines 2277–2281): a leftover pending function with no recorded index
scope is a panic. -/
def processLeftovers (toBeDefined : List (FunctionAccessKey × List Nat))
    (funcIndexMap : List (FunctionAccessKey × List Nat)) :
    Option (List (FunctionAccessKey × List Nat)) :=
  toBeDefined.foldlM
    (fun fim func => do
      let indexScope ← lookupKey fim func.1
      return assocInsert fim func.1 (commonAncestor func.2 indexScope))
    funcIndexMap

/-- `process_define_ir` top level: scan plus leftover resolution. -/
def processDefineIrTop (env : Env) (fuel : Nat) (irStack : List Air)
    (funcComponents : List (FunctionAccessKey × FuncComponents))
    (funcIndexMap : List (FunctionAccessKey × List Nat)) (st : GenState) :
    Option (List Air × List (FunctionAccessKey × FuncComponents) ×
      List (FunctionAccessKey × List Nat) × GenState) := do
  let (irStack1, toBeDefined1, funcComponents1, funcIndexMap1, st1) ←
    processDefineIr env fuel irStack.enum.reverse irStack [] funcComponents funcIndexMap st
  let funcIndexMap2 ← processLeftovers toBeDefined1 funcIndexMap1
  return (irStack1, funcComponents1, funcIndexMap2, st1)

/-- The self-reference scan of `define_recurse_ir` (lines 1986–2031):
walk a function body for `ModuleFn` variables equal to the enclosing
key, producing the `skip` flag and the grown recursion map. -/
def recursionScan (func : FunctionAccessKey) (recursionMap : List FunctionAccessKey) :
    List Air → Bool → List FunctionAccessKey → Bool × List FunctionAccessKey
| [], skip, toAdd => (skip, toAdd)
| ir :: rest, skip, toAdd =>
  match ir with
  | .varA _ constructor _ variantName =>
    match constructor.variant with
    | .moduleFn fnName module _ _ _ =>
      let key : FunctionAccessKey := ⟨module, fnName, variantName⟩
      if recursionMap.contains key && func = key then
        recursionScan func recursionMap rest true toAdd
      else if func = key then
        let toAdd1 := if toAdd.contains key then toAdd else toAdd ++ [key]
        recursionScan func recursionMap rest skip toAdd1
      else
        recursionScan func recursionMap rest skip toAdd
    | _ => recursionScan func recursionMap rest skip toAdd
  | _ => recursionScan func recursionMap rest skip toAdd

mutual

/-- `CodeGenerator::define_recurse_ir` (`uplc.rs` lines 1968–2063). -/
def defineRecurseIr (env : Env) : Nat → List Air →
    List (FunctionAccessKey × FuncComponents) → List (FunctionAccessKey × List Nat) →
    List FunctionAccessKey → GenState →
    Option (List Air × List (FunctionAccessKey × FuncComponents) ×
      List (FunctionAccessKey × List Nat) × GenState)
| 0, _, _, _, _, _ => none
| fuel + 1, irStack, funcComponents, funcIndexMap, recursionMap, st => do
  let (irStack1, funcComponents1, funcIndexMap1, st1) ←
    processDefineIrTop env fuel irStack funcComponents funcIndexMap st
  let (funcComponents2, funcIndexMap2, _, st2) ←
    defineRecurseLoop env fuel funcIndexMap1 funcComponents1 funcIndexMap1 recursionMap st1
  return (irStack1, funcComponents2, funcIndexMap2, st2)
termination_by structural fuel => fuel

/-- The per-function loop of `define_recurse_ir`: iterate the snapshot
of `func_index_map`, recursing into every non-skipped body and
unifying the inner maps into the outer ones. -/
def defineRecurseLoop (env : Env) : Nat → List (FunctionAccessKey × List Nat) →
    List (FunctionAccessKey × FuncComponents) → List (FunctionAccessKey × List Nat) →
    List FunctionAccessKey → GenState →
    Option (List (FunctionAccessKey × FuncComponents) × List (FunctionAccessKey × List Nat) ×
      List FunctionAccessKey × GenState)
| 0, _, _, _, _, _ => none
| _ + 1, [], funcComponents, funcIndexMap, recursionMap, st =>
  some (funcComponents, funcIndexMap, recursionMap, st)
| fuel + 1, funcIndex :: rest, funcComponents, funcIndexMap, recursionMap, st => do
  let func := funcIndex.1
  let functionComponents ← lookupKey funcComponents func
  let functionIr := functionComponents.ir
  let (skip, recursionMap1) := recursionScan func recursionMap functionIr false recursionMap
  if skip then
    defineRecurseLoop env fuel rest funcComponents funcIndexMap recursionMap1 st
  else do
    let (functionIr1, innerComponents, innerIndexMap, st1) ←
      defineRecurseIr env fuel functionIr [] [] recursionMap1 st
    let funcComponents1 := assocInsert funcComponents func
      { functionComponents with ir := functionIr1 }
    let funcComponents2 := innerComponents.foldl
      (fun acc item =>
        if (lookupKey acc item.1).isSome then acc else acc ++ [item])
      funcComponents1
    let funcIndexMap1 := innerIndexMap.foldl
      (fun acc item =>
        match lookupKey acc item.1 with
        | some entry => assocInsert acc item.1 (commonAncestor entry item.2)
        | none => acc ++ [item])
      funcIndexMap
    defineRecurseLoop env fuel rest funcComponents2 funcIndexMap1 recursionMap1 st1
termination_by structural fuel => fuel

end

/-- The dependency-ordering loop of `define_ir` (lines 1851–1858):
repeatedly pop a key, move it to the end of the dependency map and push
its dependencies. -/
def dependencyOrder (funcComponents : List (FunctionAccessKey × FuncComponents)) :
    Nat → List FunctionAccessKey → List FunctionAccessKey → Option (List FunctionAccessKey)
| 0, _, _ => none
| _ + 1, [], dependencyMap => some dependencyMap
| fuel + 1, funcKeys, dependencyMap =>
  match funcKeys.getLast? with
  | none => some dependencyMap
  | some function => do
    let funtComp ← lookupKey funcComponents function
    let dependencyMap1 :=
      (dependencyMap.filter (fun k => ¬ k = function)) ++ [function]
    dependencyOrder funcComponents fuel
      (funcKeys.dropLast ++ funtComp.dependencies) dependencyMap1

/-- The per-key pass of `define_ir` (lines 1862–1905): dependency IR
for parameterful functions, compile-time capture for zero-argument
ones. -/
def defineDepsPass (env : Env) (fuel : Nat)
    (funcComponents : List (FunctionAccessKey × FuncComponents))
    (funcIndexMap : List (FunctionAccessKey × List Nat)) :
    List FunctionAccessKey → GenState → List (FunctionAccessKey × List Air) →
    Option (List (FunctionAccessKey × List Air) × GenState)
| [], st, finalFuncDepIr => some (finalFuncDepIr, st)
| func :: rest, st, finalFuncDepIr =>
  if st.definedFunctions.contains func then
    defineDepsPass env fuel funcComponents funcIndexMap rest st finalFuncDepIr
  else do
    let funtComp ← lookupKey funcComponents func
    let _ ← lookupKey funcIndexMap func
    if !funtComp.args.isEmpty then do
      let depIr ← handleFuncDepsIr funtComp
      defineDepsPass env fuel funcComponents funcIndexMap rest st
        (assocInsert finalFuncDepIr func depIr)
    else do
      let depIr ← handleFuncDepsIr funtComp
      let finalZeroArgIr := depIr ++ funtComp.ir
      let st1 := { st with zeroArgFunctions := assocInsert st.zeroArgFunctions func finalZeroArgIr }
      defineDepsPass env fuel funcComponents funcIndexMap rest st1 finalFuncDepIr

/-- The per-instruction insertion step of the final `define_ir` loop
(lines 1915–1965). -/
def defineInsertAt (funcComponents : List (FunctionAccessKey × FuncComponents))
    (finalFuncDepIr : List (FunctionAccessKey × List Air)) (index : Nat) (ir : Air) :
    List Air → List (FunctionAccessKey × List Nat) → GenState →
    Option (List Air × List (FunctionAccessKey × List Nat) × GenState) :=
  fun irStack funcIndexMap st => do
    let toInsert := funcIndexMap.filter (fun func =>
      commonAncestor func.2 ir.scope = ir.scope &&
      ¬ st.definedFunctions.contains func.1 &&
      (lookupKey st.zeroArgFunctions func.1).isNone)
    toInsert.foldlM
      (fun (acc : List Air × List (FunctionAccessKey × List Nat) × GenState) func => do
        let (irStackA, funcIndexMapA, stA) := acc
        let funcIndexMapB := assocRemove funcIndexMapA func.1
        let stB := { stA with definedFunctions := stA.definedFunctions ++ [func.1] }
        let fullFuncIr0 ← lookupKey finalFuncDepIr func.1
        let funcComp ← lookupKey funcComponents func.1
        if !funcComp.args.isEmpty then
          let recursionIr := handleRecursionIr funcComp
          let fullFuncIr := fullFuncIr0 ++
            (Air.defineFunc func.2 func.1.functionName func.1.moduleName func.1.variantName
              funcComp.args funcComp.recursive :: recursionIr)
          let irStackB := irStackA.take index ++ fullFuncIr ++ irStackA.drop index
          return (irStackB, funcIndexMapB, stB)
        else
          let fullFuncIr := fullFuncIr0 ++ funcComp.ir
          let stC := { stB with zeroArgFunctions := assocInsert stB.zeroArgFunctions func.1 fullFuncIr }
          return (irStackA, funcIndexMapB, stC))
      (irStack, funcIndexMap, st)

/-- `CodeGenerator::define_ir` (`uplc.rs` lines 1828–1966). -/
def defineIr (env : Env) (fuel : Nat) (irStack : List Air) (st : GenState) :
    Option (List Air × GenState) := do
  let (irStack1, funcComponents, funcIndexMap, st1) ←
    defineRecurseIr env fuel irStack [] [] [] st
  let dependencyVec ←
    dependencyOrder funcComponents fuel (funcComponents.map Prod.fst) []
  let (finalFuncDepIr, st2) ←
    defineDepsPass env fuel funcComponents funcIndexMap dependencyVec st1 []
  let (irStack2, _, st3) ←
    (irStack1.enum.reverse).foldlM
      (fun (acc : List Air × List (FunctionAccessKey × List Nat) × GenState) p => do
        let (irStackA, funcIndexMapA, stA) := acc
        defineInsertAt funcComponents finalFuncDepIr p.1 p.2 irStackA funcIndexMapA stA)
      (irStack1, funcIndexMap, st2)
  return (irStack2, st3)

/-- The raw pipeline of `CodeGenerator::generate` up to and including
`uplc_code_gen` (`uplc.rs` lines 79–86): lower, plan definitions,
synthesize. -/
def rawCodeGen (env : Env) (fuel : Nat) (body : TypedExpr) : Option (Term × GenState) := do
  let st0 := GenState.init
  let (rootId, st1) := st0.next
  let scope := [rootId]
  let (air, st2) ← buildIr env fuel body st1 scope
  let (air2, st3) ← defineIr env fuel air st2
  uplcCodeGen env fuel st3 air2

/-- `CodeGenerator::generate` without the validator/argument wrapping
(`uplc.rs` lines 79–92): the raw pipeline followed by the one-time
splice of the field-access helper combinators when the flag was set. -/
def generateCore (env : Env) (fuel : Nat) (body : TypedExpr) : Option (Term × GenState) := do
  let (term, st4) ← rawCodeGen env fuel body
  let term2 :=
    if st4.needsFieldAccess then
      constrFieldsExposer (constrGetField term)
    else term
  return (term2, st4)

/-- `CodeGenerator::generate` (`uplc.rs` lines 73–113): the full entry
point.  The interner only assigns unique indices and is the identity on
this name-as-text representation. -/
def generate (env : Env) (fuel : Nat) (body : TypedExpr) (arguments : List TypedArg)
    (wrapAsValidator : Bool) : Option Term := do
  let (term2, _) ← generateCore env fuel body
  let term3 := if wrapAsValidator then finalWrapper term2 else term2
  return wrapValidatorArgs term3 arguments

/-- Whether a term is a `Constant` (the test driving the constant
folding of `Air::List` and `Air::Tuple`). -/
def isConTerm : Term → Bool
| .con _ => true
| _ => false

/-- Whether a term mentions the `MkCons` or `MkPairData` builtin
anywhere (used to state that constant folding avoids cons chains). -/
def termMentionsCons : Term → Bool
| .var _ => false
| .delay t => termMentionsCons t
| .lam _ b => termMentionsCons b
| .apply f a => termMentionsCons f || termMentionsCons a
| .con _ => false
| .builtin f => (f matches DefaultFunction.mkCons) || (f matches DefaultFunction.mkPairData)
| .force t => termMentionsCons t
| .errorT => false

/-- Discriminator for `Air::Finally`. -/
def isFinallyA : Air → Bool
| .finallyA _ => true
| _ => false

/-- Discriminator for a zero-argument `Air::Call`. -/
def isCallZero : Air → Bool
| .callA _ 0 => true
| _ => false

/-- The number of terms a successful `gen_uplc` iteration pushes:
one for a synthesizing instruction, none for `Air::Finally`, and one
per matching zero-argument function for a zero-argument `Air::Call`
on a variable. -/
def airPushOut (st : GenState) (air : Air) (ops : List Term) : Nat :=
  match air with
  | .finallyA _ => 0
  | .callA _ 0 =>
    (match ops.head? with
     | some (Term.var text) => (st.zeroArgFunctions.filter (zeroArgNameMatch text)).length
     | _ => 0)
  | _ => 1

/-- The flag contribution of one instruction during synthesis:
`FieldsExpose` always sets `needs_field_access`, `TupleIndex` sets it
exactly on non-pair (longer-than-2) tuples. -/
def stepTrigger : Air → Bool
| .fieldsExpose _ _ _ => true
| .tupleIndexA _ tipo _ => !(tipo.getUplcType matches UplcType.pair _ _)
| _ => false

/-- The flag contribution of a whole AIR vector during synthesis. -/
def airAnyTrigger (airs : List Air) : Bool :=
  airs.any stepTrigger

/-- Whether an instruction is not a non-builtin `ModuleFn` variable
(the kind that activates the function-definition planner). -/
def airNotModuleFnVar : Air → Bool
| .varA _ c _ _ =>
  match c.variant with
  | .moduleFn _ _ _ none _ => false
  | _ => true
| _ => true

/-- A pattern consisting of a variable only (the element shape accepted
by the `pattern_ir` element loops without recursion). -/
def simpleElemPattern : Pattern → Bool
| .varP _ => true
| _ => false

/-- An argument pattern that is a variable or a discard. -/
def varOrDiscardPattern : Pattern → Bool
| .varP _ => true
| .discardP => true
| _ => false

/-- The assignment patterns covered by the `Supported` fragment. -/
def supportedPattern : Pattern → Bool
| .varP _ => true
| .discardP => true
| .listP es t =>
  es.all simpleElemPattern &&
  (match t with
   | none => true
   | some (.varP _) => true
   | some .discardP => true
   | some _ => false)
| .tupleP es => es.all simpleElemPattern
| .constructorP _ _ args _ _ => args.all (fun a => varOrDiscardPattern a.2)
| _ => false

/-- Whether an assignment pattern produces a `FieldsExpose`
instruction: a constructor pattern binding at least one field. -/
def patternTriggersFieldsExpose : Pattern → Bool
| .constructorP _ _ args _ _ =>
  args.any (fun a => a.2 matches Pattern.varP _)
| _ => false

mutual

/-- The expression fragment over which claim C2 is settled: everything
`build_ir` handles except `When` matches, module selection, module
functions requiring the definition planner, and record updates;
assignment patterns are restricted to `supportedPattern`. -/
def Supported : TypedExpr → Bool
| .intE _ _ => true
| .stringE _ _ => true
| .byteArrayE _ _ => true
| .todoE _ _ => true
| .errorTermE _ _ => true
| .sequence es => SupportedList es
| .pipeline es => SupportedList es
| .varE c _ =>
  match c.variant with
  | .moduleFn _ _ _ none _ => false
  | _ => true
| .fnE _ _ _ body => Supported body
| .listE _ es t =>
  SupportedList es && (match t with | some x => Supported x | none => true)
| .callE _ f args => Supported f && SupportedList args
| .binOpE _ _ l r => Supported l && Supported r
| .assignmentE _ v p _ => Supported v && supportedPattern p
| .traceE _ th _ => Supported th
| .whenE _ _ _ => false
| .ifE _ branches e => SupportedBranches branches && Supported e
| .recordAccessE _ _ _ r => Supported r
| .moduleSelect _ _ _ _ => false
| .tupleE _ es => SupportedList es
| .tupleIndexE _ _ t => Supported t
| .recordUpdateE _ _ _ => false
| .unOpE _ _ v => Supported v

/-- `Supported` over expression lists. -/
def SupportedList : List TypedExpr → Bool
| [] => true
| e :: es => Supported e && SupportedList es

/-- `Supported` over `If` branches. -/
def SupportedBranches : List (TypedExpr × TypedExpr) → Bool
| [] => true
| (c, b) :: rest => Supported c && Supported b && SupportedBranches rest

end

mutual

/-- The claim-side predicate of C2, following the claim's words: the
source expression contains a `RecordAccess`, a `FieldsExpose`-producing
pattern binding, or a `TupleIndex` on a tuple longer than 2. -/
def claimNeedsFieldAccess : TypedExpr → Bool
| .intE _ _ => false
| .stringE _ _ => false
| .byteArrayE _ _ => false
| .todoE _ _ => false
| .errorTermE _ _ => false
| .sequence es => claimNeedsList es
| .pipeline es => claimNeedsList es
| .varE _ _ => false
| .fnE _ _ _ body => claimNeedsFieldAccess body
| .listE _ es t =>
  claimNeedsList es ||
  (match t with | some x => claimNeedsFieldAccess x | none => false)
| .callE _ f args => claimNeedsFieldAccess f || claimNeedsList args
| .binOpE _ _ l r => claimNeedsFieldAccess l || claimNeedsFieldAccess r
| .assignmentE _ v p _ => claimNeedsFieldAccess v || patternTriggersFieldsExpose p
| .traceE _ th _ => claimNeedsFieldAccess th
| .whenE _ _ _ => false
| .ifE _ branches e => claimNeedsBranches branches || claimNeedsFieldAccess e
| .recordAccessE _ _ _ _ => true
| .moduleSelect _ _ _ _ => false
| .tupleE _ es => claimNeedsList es
| .tupleIndexE _ _ t =>
  !(t.tipo.getUplcType matches UplcType.pair _ _) || claimNeedsFieldAccess t
| .recordUpdateE _ _ _ => false
| .unOpE _ _ v => claimNeedsFieldAccess v

/-- `claimNeedsFieldAccess` over expression lists. -/
def claimNeedsList : List TypedExpr → Bool
| [] => false
| e :: es => claimNeedsFieldAccess e || claimNeedsList es

/-- `claimNeedsFieldAccess` over `If` branches. -/
def claimNeedsBranches : List (TypedExpr × TypedExpr) → Bool
| [] => false
| (c, b) :: rest =>
  claimNeedsFieldAccess c || claimNeedsFieldAccess b || claimNeedsBranches rest

end

/-- Whether the first clause's first pattern of a `When` is a list
pattern (the canonicalization condition of `build_ir`). -/
def firstPatternIsList (clauses : List (List Pattern × TypedExpr)) : Option Bool :=
  match clauses.head? with
  | none => none
  | some c0 =>
    match c0.1.head? with
    | none => none
    | some (.listP _ _) => some true
    | some _ => some false

/-- Non-decreasing order of clause sort keys. -/
def clausesKeySorted : List (List Pattern × TypedExpr) → Bool
| [] => true
| [_] => true
| c :: d :: rest => decide (clauseSortKey c ≤ clauseSortKey d) && clausesKeySorted (d :: rest)

/-- The empty registries. -/
def env0 : Env := ⟨[], [], []⟩

/-- A validator argument named `x` of integer type. -/
def xArg : TypedArg := ⟨some "x", intTipo⟩

/-- The list literal `[1]` at type `List<Int>`. -/
def listLit1 : TypedExpr := .listE (listTipo intTipo) [.intE intTipo "1"] none

/-- The list literal `[2]` at type `List<Int>`. -/
def listLit2 : TypedExpr := .listE (listTipo intTipo) [.intE intTipo "2"] none

/-- The expression `[1] == [2]`. -/
def eqListExpr : TypedExpr := .binOpE boolTipo .eqB listLit1 listLit2

/-- The expression `[1] != [2]`. -/
def neqListExpr : TypedExpr := .binOpE boolTipo .notEqB listLit1 listLit2

/-- A local integer variable value constructor. -/
def intVC : ValueConstructor := ValueConstructor.public intTipo .localVariable

/-- The C4 fixture registries: a single module function
`f(x: Int) -> Int { x }`. -/
def envF : Env :=
  ⟨[(⟨"", "f", ""⟩, ⟨[⟨some "x", intTipo⟩], .varE intVC "x"⟩)], [], []⟩

/-- The C9 fixture registries: the `Bool` data type with constructors
`True` and `False`. -/
def envBool : Env :=
  ⟨[], [(⟨"", "Bool"⟩, ⟨[⟨"True", []⟩, ⟨"False", []⟩]⟩)], []⟩

/-- A local boolean variable value constructor. -/
def boolVC : ValueConstructor := ValueConstructor.public boolTipo .localVariable

/-- The `True` pattern of the C9 fixture. -/
def truePat : Pattern := .constructorP false "True" [] ⟨"True", none⟩ boolTipo

/-- The `False` pattern of the C9 fixture. -/
def falsePat : Pattern := .constructorP false "False" [] ⟨"False", none⟩ boolTipo

/-- The C9 fixture body: `when b is { True -> 1  False -> 2 }` with a
boolean subject and a non-final clause. -/
def boolWhenExpr : TypedExpr :=
  .whenE intTipo [.varE boolVC "b"]
    [([truePat], .intE intTipo "1"), ([falsePat], .intE intTipo "2")]

/-- The `When` arm of `build_ir` after the clause list has been chosen:
draw the subject and constructor-variable names and run the clause
machinery on the given clause list. -/
def buildIrWhenSelected (env : Env) (fuel : Nat) (subjects : List TypedExpr)
    (selected : List (List Pattern × TypedExpr)) (st : GenState) (scope : List Nat) :
    Option (List Air × GenState) :=
  let (sid, st1) := st.next
  let subjectName := "__subject_name_" ++ toString sid
  let (cid, st2) := st1.next
  let constrVar := "__constr_name_" ++ toString cid
  match subjects.head? with
  | none => none
  | some subject => whenCore env fuel subject subjectName constrVar selected st2 scope

/-- The claim-side right fold of C6: elements consed onto the tail with
`MkCons`, map elements passed through unconverted. -/
def claimConsFoldList (tipo listType : Tipo) (args : List Term) (tailTerm : Term) : Term :=
  args.foldr
    (fun arg acc =>
      mkConsApply (if tipo.isMap then arg else convertTypeToData arg listType) acc)
    tailTerm

/-- The claim-side right fold of C6 for tuples longer than 2. -/
def claimConsFoldTuple (argsWithTypes : List (Term × Tipo)) : Term :=
  argsWithTypes.foldr
    (fun p acc => mkConsApply (convertTypeToData p.1 p.2) acc)
    (Term.con (.protoList .dataU []))

/-- The constant subterms of an operand list: the `Term::Constant`
filter the `Air::List`/`Air::Tuple` arms run over their popped
arguments. -/
def consOf (ts : List Term) : List UplcConstant :=
  ts.filterMap (fun t => match t with | .con c => some c | _ => none)

/-- The pair dissection of a `Constant::ProtoPair` used by the map
branch of the `Air::List` arm. -/
def pairParts (c : UplcConstant) : Option (UplcConstant × UplcConstant) :=
  match c with
  | UplcConstant.protoPair _ _ f s => some (f, s)
  | _ => none

/-- The mangled binder name used by `Air::DefineFunc` synthesis
(`uplc.rs` lines 3262-3269): `{module}_{func}{variant}`, with the
module segment dropped for local functions. -/
def defineFuncMangledName (funcName moduleName variantName : String) : String :=
  if moduleName == "" then funcName ++ variantName
  else moduleName ++ "_" ++ funcName ++ variantName

/-- The record-access fixture of claim C2: `r.f` at field index 0. -/
def c2Body : TypedExpr := .recordAccessE intTipo "f" 0 (.varE intVC "r")

theorem tipoLast_eq (es : List TypedExpr) :
    TypedExpr.tipoLast es = ((es.getLast?).map TypedExpr.tipo).getD voidTipo := by
  induction es with
  | nil => rfl
  | cons e rest ih =>
    cases rest with
    | nil => rfl
    | cons e2 rest2 =>
      rw [show TypedExpr.tipoLast (e :: e2 :: rest2) = TypedExpr.tipoLast (e2 :: rest2) from rfl,
        ih, List.getLast?_cons_cons]

/-- Claim C10: `TypedExpr::tipo()` is total over all typed-expression
variants (it is a total Lean function on the full `TypedExpr`
inductive); a `Sequence` or `Pipeline` returns the type of its last
expression and the void type when the list is empty; a `Trace` returns
the type of its continuation; a `Var` the type recorded in its value
constructor. -/
theorem c10_tipo_total :
    (∀ es : List TypedExpr,
      (TypedExpr.sequence es).tipo = ((es.getLast?).map TypedExpr.tipo).getD voidTipo) ∧
    (∀ es : List TypedExpr,
      (TypedExpr.pipeline es).tipo = ((es.getLast?).map TypedExpr.tipo).getD voidTipo) ∧
    (TypedExpr.sequence []).tipo = voidTipo ∧
    (TypedExpr.pipeline []).tipo = voidTipo ∧
    (∀ (t : Tipo) (thenE : TypedExpr) (text : Option String),
      (TypedExpr.traceE t thenE text).tipo = thenE.tipo) ∧
    (∀ (c : ValueConstructor) (n : String), (TypedExpr.varE c n).tipo = c.tipo) := by
  refine ⟨fun es => ?_, fun es => ?_, rfl, rfl, fun t thenE text => rfl, fun c n => rfl⟩ <;>
    simpa [TypedExpr.tipo] using tipoLast_eq es

/-- Claim C1 (amended): `final_wrapper` is applied exactly when
`wrap_as_validator` is true, but `wrap_validator_args(arguments)` is
applied unconditionally — for both flag values the generated program is
the core term λ-abstracted over the argument list. -/
theorem c1_validator_wrapping (env : Env) (fuel : Nat) (body : TypedExpr)
    (args : List TypedArg) (core : Term) (st : GenState)
    (h : generateCore env fuel body = some (core, st)) :
    generate env fuel body args true = some (wrapValidatorArgs (finalWrapper core) args) ∧
    generate env fuel body args false = some (wrapValidatorArgs core args) := by
  constructor <;> simp [generate, h]

/-- Witness for C1 at the body `1` with one argument `x`. -/
theorem c1_validator_wrapping_witness :
    generate env0 60 (.intE intTipo "1") [xArg] true =
      some (wrapValidatorArgs (finalWrapper (Term.con (.integer 1))) [xArg]) ∧
    generate env0 60 (.intE intTipo "1") [xArg] false =
      some (wrapValidatorArgs (Term.con (.integer 1)) [xArg]) :=
  c1_validator_wrapping env0 60 (.intE intTipo "1") [xArg] (Term.con (.integer 1))
    ⟨[], 1, false, []⟩ rfl

/-- Counterexample to C1 as stated: with `wrap_as_validator = false`
and a nonempty argument list the program is still λ-abstracted over the
arguments by `wrap_validator_args` — generating the body `1` yields
`λx. 1`, not the bare core term `1`. -/
theorem c1_counterexample :
    generate env0 60 (.intE intTipo "1") [xArg] false =
      some (Term.lam "x" (Term.con (.integer 1))) ∧
    Term.lam "x" (Term.con (.integer 1)) ≠ Term.con (.integer 1) :=
  ⟨rfl, fun h => Term.noConfusion h⟩

/-- Claim C3 (code bug): on list operands the synthesized `!=` is not
the boolean negation of `==`: generating and evaluating `[1] == [2]`
yields `false`, generation of `[1] != [2]` succeeds, but evaluating it
is a runtime error instead of `true` — the `NotEq` list branch applies
`EqualsData` to the right operand where the `Eq` branch applies
`ListData`. -/
theorem c3_neq_list_evaluation :
    (do
      let t ← generate env0 60 eqListExpr [] false
      evalTerm 100 t) = some (Value.vCon (.boolC false)) ∧
    (generate env0 60 neqListExpr [] false).isSome = true ∧
    (do
      let t ← generate env0 60 neqListExpr [] false
      evalTerm 100 t) = none :=
  ⟨rfl, rfl, rfl⟩

/-- Claim C9: synthesizing an `Air::Clause` whose subject type is
`Bool` aborts (`todo!()` in the clause-checker dispatch), for every
operand stack; and a complete `when` on a boolean subject with a
non-final clause makes the whole generation abort. -/
theorem c9_bool_clause_unimplemented :
    (∀ (env : Env) (fuel : Nat) (st : GenState) (scope : List Nat) (subjectName : String)
       (complex : Bool) (ops : List Term),
      genSynth env fuel st (.clauseA scope boolTipo subjectName complex) ops = none) ∧
    generate envBool 80 boolWhenExpr [] false = none := by
  refine ⟨fun env fuel st scope subjectName complex ops => ?_, rfl⟩
  cases fuel with
  | zero => rfl
  | succ fuel => rcases ops with _ | ⟨a, _ | ⟨b, _ | ⟨c, _ | ⟨e, d⟩⟩⟩⟩ <;> rfl

/-- Claim C7: `Air::DefineFunc` synthesis pops the function body and the
continuation and, for `recursive = false`, emits the plain let-via-lambda
`(λf. continuation) (λparams. body)`; for `recursive = true` it emits the
self-application binding `(λf. (λf. continuation) (f f)) (λf. λparams. body)`,
where `f` is the function's mangled name and the body is lambda-abstracted
over the parameters in order (`uplc.rs` lines 3256-3342). -/
theorem c7_define_func_shape (env : Env) (fuel : Nat) (st : GenState) (scope : List Nat)
    (fn mn vn : String) (params : List String) (funcBody term : Term) :
    genSynth env (fuel + 1) st (.defineFunc scope fn mn vn params false) [funcBody, term] =
      some ([Term.apply (Term.lam (defineFuncMangledName fn mn vn) term)
        (params.foldr Term.lam funcBody)], st) ∧
    genSynth env (fuel + 1) st (.defineFunc scope fn mn vn params true) [funcBody, term] =
      some ([Term.apply
        (Term.lam (defineFuncMangledName fn mn vn)
          (Term.apply (Term.lam (defineFuncMangledName fn mn vn) term)
            (Term.apply (Term.var (defineFuncMangledName fn mn vn))
              (Term.var (defineFuncMangledName fn mn vn)))))
        (Term.lam (defineFuncMangledName fn mn vn)
          (params.foldr Term.lam funcBody))], st) :=
  ⟨rfl, rfl⟩

theorem clauseOrderedInsert_sorted_aux (c : List Pattern × TypedExpr) :
    ∀ (ds : List (List Pattern × TypedExpr)) (d : List Pattern × TypedExpr),
      ¬ clauseSortKey c ≤ clauseSortKey d →
      clausesKeySorted (d :: ds) = true →
      clausesKeySorted (d :: clauseOrderedInsert c ds) = true := by
  intro ds
  induction ds with
  | nil =>
    intro d hcd _
    simp [clauseOrderedInsert, clausesKeySorted]
    omega
  | cons e es ih =>
    intro d hcd hsort
    simp only [clausesKeySorted, Bool.and_eq_true, decide_eq_true_eq] at hsort
    by_cases hce : clauseSortKey c ≤ clauseSortKey e
    · simp only [clauseOrderedInsert, if_pos hce, clausesKeySorted, Bool.and_eq_true,
        decide_eq_true_eq]
      exact ⟨by omega, by omega, hsort.2⟩
    · simp only [clauseOrderedInsert, if_neg hce, clausesKeySorted, Bool.and_eq_true,
        decide_eq_true_eq]
      refine ⟨hsort.1, ?_⟩
      have := ih e hce hsort.2
      simpa [clausesKeySorted] using this

theorem clauseOrderedInsert_sorted (c : List Pattern × TypedExpr)
    (cs : List (List Pattern × TypedExpr)) (h : clausesKeySorted cs = true) :
    clausesKeySorted (clauseOrderedInsert c cs) = true := by
  cases cs with
  | nil => rfl
  | cons d ds =>
    by_cases hcd : clauseSortKey c ≤ clauseSortKey d
    · simp only [clauseOrderedInsert, if_pos hcd, clausesKeySorted, Bool.and_eq_true,
        decide_eq_true_eq]
      exact ⟨by omega, h⟩
    · simp only [clauseOrderedInsert, if_neg hcd]
      exact clauseOrderedInsert_sorted_aux c ds d hcd h

theorem rearrangeClauses_sorted (cs : List (List Pattern × TypedExpr)) :
    clausesKeySorted (rearrangeClauses cs) = true := by
  induction cs with
  | nil => rfl
  | cons c cs ih => exact clauseOrderedInsert_sorted c _ ih

theorem clauseOrderedInsert_filter (c : List Pattern × TypedExpr) (k : Nat) :
    ∀ (cs : List (List Pattern × TypedExpr)),
      (clauseOrderedInsert c cs).filter (fun d => clauseSortKey d == k) =
        (if clauseSortKey c == k
         then c :: cs.filter (fun d => clauseSortKey d == k)
         else cs.filter (fun d => clauseSortKey d == k)) := by
  intro cs
  induction cs with
  | nil =>
    simp only [clauseOrderedInsert, List.filter]
    split <;> rename_i hck <;> simp [hck]
  | cons d ds ih =>
    simp only [clauseOrderedInsert]
    by_cases hcd : clauseSortKey c ≤ clauseSortKey d
    · rw [if_pos hcd]
      by_cases hck : (clauseSortKey c == k) = true <;>
        simp [List.filter_cons, hck]
    · rw [if_neg hcd]
      by_cases hck : (clauseSortKey c == k) = true
      · have hdk : (clauseSortKey d == k) = false := by
          simp only [beq_iff_eq] at hck ⊢
          simp only [beq_eq_false_iff_ne]
          omega
        simp [List.filter_cons, hdk, ih, hck]
      · simp only [Bool.not_eq_true] at hck
        by_cases hdk : (clauseSortKey d == k) = true <;>
          simp [List.filter_cons, hdk, ih, hck]

theorem rearrangeClauses_stable (k : Nat) :
    ∀ (cs : List (List Pattern × TypedExpr)),
      (rearrangeClauses cs).filter (fun d => clauseSortKey d == k) =
        cs.filter (fun d => clauseSortKey d == k) := by
  intro cs
  induction cs with
  | nil => rfl
  | cons c cs ih =>
    simp only [rearrangeClauses, clauseOrderedInsert_filter, ih, List.filter_cons]

/-- Claim C8: lowering a `When` canonicalizes the clause list via
`rearrange_clauses` exactly when the first clause's first pattern is a
list pattern (`uplc.rs` lines 271-284), processes clauses in source
order otherwise, and the canonicalized order is non-decreasing in the
list-pattern element-count key with catch-all clauses last; ties are
broken by source order: for every key, the subsequence of clauses with
that key is exactly the source subsequence. -/
theorem c8_when_rearrange :
    (∀ (env : Env) (fuel : Nat) (t : Tipo) (subjects : List TypedExpr)
       (clauses : List (List Pattern × TypedExpr)) (st : GenState) (scope : List Nat),
      firstPatternIsList clauses = some true →
      buildIr env (fuel + 1) (.whenE t subjects clauses) st scope =
        buildIrWhenSelected env fuel subjects (rearrangeClauses clauses) st scope) ∧
    (∀ (env : Env) (fuel : Nat) (t : Tipo) (subjects : List TypedExpr)
       (clauses : List (List Pattern × TypedExpr)) (st : GenState) (scope : List Nat),
      firstPatternIsList clauses = some false →
      buildIr env (fuel + 1) (.whenE t subjects clauses) st scope =
        buildIrWhenSelected env fuel subjects clauses st scope) ∧
    (∀ clauses : List (List Pattern × TypedExpr),
      clausesKeySorted (rearrangeClauses clauses) = true) ∧
    (∀ (clauses : List (List Pattern × TypedExpr)) (k : Nat),
      (rearrangeClauses clauses).filter (fun c => clauseSortKey c == k) =
        clauses.filter (fun c => clauseSortKey c == k)) := by
  refine ⟨?_, ?_, rearrangeClauses_sorted, fun clauses k => rearrangeClauses_stable k clauses⟩
  · intro env fuel t subjects clauses st scope h
    rcases clauses with _ | ⟨⟨pats, body⟩, rest⟩
    · simp [firstPatternIsList] at h
    rcases pats with _ | ⟨p0, prest⟩
    · simp [firstPatternIsList] at h
    cases p0 <;> simp [firstPatternIsList] at h
    cases subjects <;> rfl
  · intro env fuel t subjects clauses st scope h
    rcases clauses with _ | ⟨⟨pats, body⟩, rest⟩
    · simp [firstPatternIsList] at h
    rcases pats with _ | ⟨p0, prest⟩
    · simp [firstPatternIsList] at h
    cases p0 <;> simp [firstPatternIsList] at h <;> cases subjects <;> rfl

theorem c8_when_rearrange_witness :
    (firstPatternIsList [([Pattern.listP [] none], TypedExpr.intE intTipo "1"),
       ([Pattern.varP "v"], TypedExpr.intE intTipo "2")] = some true ∧
     buildIr env0 5
       (.whenE intTipo [.varE intVC "s"]
         [([Pattern.listP [] none], TypedExpr.intE intTipo "1"),
          ([Pattern.varP "v"], TypedExpr.intE intTipo "2")]) GenState.init [0] =
       buildIrWhenSelected env0 4 [.varE intVC "s"]
         (rearrangeClauses
           [([Pattern.listP [] none], TypedExpr.intE intTipo "1"),
            ([Pattern.varP "v"], TypedExpr.intE intTipo "2")]) GenState.init [0]) ∧
    (firstPatternIsList [([Pattern.varP "v"], TypedExpr.intE intTipo "2")] = some false ∧
     buildIr env0 5
       (.whenE intTipo [.varE intVC "s"]
         [([Pattern.varP "v"], TypedExpr.intE intTipo "2")]) GenState.init [0] =
       buildIrWhenSelected env0 4 [.varE intVC "s"]
         [([Pattern.varP "v"], TypedExpr.intE intTipo "2")] GenState.init [0]) :=
  ⟨⟨rfl, c8_when_rearrange.1 env0 4 intTipo [.varE intVC "s"] _ GenState.init [0] rfl⟩,
   ⟨rfl, c8_when_rearrange.2.1 env0 4 intTipo [.varE intVC "s"] _ GenState.init [0] rfl⟩⟩


theorem zeroArgApply_length (env : Env) : ∀ (fuel : Nat) (st : GenState) (text : String)
    (zs : List (FunctionAccessKey × List Air)) (out : List Term) (st1 : GenState),
    zeroArgApply env fuel st text zs = some (out, st1) →
    out.length = (zs.filter (zeroArgNameMatch text)).length := by
  intro fuel
  induction fuel with
  | zero => intro st text zs out st1 h; exact absurd h (by simp [zeroArgApply])
  | succ fuel ih =>
    intro st text zs out st1 h
    cases zs with
    | nil =>
      simp only [zeroArgApply, Option.some.injEq, Prod.mk.injEq] at h
      obtain ⟨h1, _⟩ := h
      simp [← h1]
    | cons kv rest =>
      obtain ⟨key, ir⟩ := kv
      simp only [zeroArgApply] at h
      by_cases hm : zeroArgNameMatch text (key, ir) = true
      · rw [if_pos hm] at h
        simp only [Option.pure_def, Option.bind_eq_bind', Option.bind_eq_some',
          Option.some.injEq, Prod.mk.injEq] at h
        obtain ⟨⟨t0, stA⟩, _, v, _, ⟨restOut, stB⟩, hrec, h1, h2⟩ := h
        have := ih stA text rest restOut stB hrec
        simp [List.filter_cons, hm, ← h1, this]
      · rw [if_neg hm] at h
        simp only [Bool.not_eq_true] at hm
        simp [List.filter_cons, hm, ih st text rest out st1 h]

theorem genSynth_push_count (env : Env) (fuel : Nat) (st : GenState) (air : Air)
    (ops : List Term) (out : List Term) (st1 : GenState)
    (h : genSynth env fuel st air ops = some (out, st1)) :
    out.length = airPushOut st air ops := by
  cases fuel with
  | zero => exact absurd h (by simp [genSynth])
  | succ fuel =>
  cases air
  case callA s count =>
    rcases count with _ | n
    · rcases ops with _ | ⟨a, rest⟩
      · exact absurd h (by simp [genSynth])
      · cases a <;>
          simp only [genSynth, airPushOut, List.head?_cons, Option.some_bind,
            Option.pure_def, Option.bind_eq_bind', Option.bind_eq_some',
            Option.some.injEq, Prod.mk.injEq] at h ⊢ <;>
          first
            | (exact zeroArgApply_length env fuel st _ _ out st1 h)
            | (obtain ⟨rfl, rfl⟩ := h; rfl)
    · rcases ops with _ | ⟨a, rest⟩ <;>
        simp only [genSynth, airPushOut, Option.pure_def, Option.bind_eq_bind',
          Option.bind_eq_some', Option.some.injEq, Prod.mk.injEq, List.head?_cons,
          Option.some_bind, Nat.le_add_left] at h ⊢ <;>
        (repeat' split at h) <;>
        (try simp only [Option.some.injEq, Prod.mk.injEq] at h) <;>
        first
          | contradiction
          | (obtain ⟨rfl, rfl⟩ := h; rfl)
  all_goals (
    rcases ops with _ | ⟨a, _ | ⟨b, _ | ⟨c, _ | ⟨d, rest⟩⟩⟩⟩ <;>
    simp only [genSynth, airPushOut, Option.pure_def, Option.bind_eq_bind',
      Option.bind_eq_some', Option.some.injEq, Prod.mk.injEq] at h ⊢ <;>
    (repeat' split at h) <;>
    (try simp only [Option.some.injEq, Prod.mk.injEq, Option.bind_eq_bind',
      Option.bind_eq_some'] at h) <;>
    first
      | contradiction
      | (obtain ⟨rfl, rfl⟩ := h; rfl)
      | (obtain ⟨x1, h1, rfl, rfl⟩ := h; rfl)
      | (obtain ⟨x1, h1, x2, h2, rfl, rfl⟩ := h; rfl)
      | (obtain ⟨x1, h1, x2, h2, x3, h3, rfl, rfl⟩ := h; rfl)
      | (obtain ⟨x1, h1, x2, h2, x3, h3, x4, h4, rfl, rfl⟩ := h; rfl))

/-- Claim C5 (amended): each successfully processed AIR instruction pops
`airOpCount` operands and pushes exactly one synthesized term, except
`Air::Finally`, which pushes none, and a zero-argument `Air::Call`,
which pushes one compile-time-evaluated term per zero-argument function
matching the popped variable (none when the callee matches no
zero-argument function); and the term `uplc_code_gen` returns is
`arg_stack[0]`, the first-pushed (bottom) element of the final operand
stack. -/
theorem c5_operand_stack :
    (∀ (env : Env) (fuel : Nat) (st : GenState) (air : Air) (stack : List Term)
       (res : List Term × GenState),
      genUplcStep env fuel st air stack = some res →
      stack.length ≥ airOpCount air ∧
      res.1.length + airOpCount air =
        stack.length + airPushOut st air (stack.take (airOpCount air))) ∧
    (∀ (env : Env) (fuel : Nat) (st : GenState) (irStack : List Air) (t : Term)
       (st1 : GenState),
      uplcCodeGen env (fuel + 1) st irStack = some (t, st1) →
      ∃ stack, genUplcGo env fuel irStack.reverse st [] = some (stack, st1) ∧
        stack.getLast? = some t) := by
  constructor
  · intro env fuel st air stack res h
    cases fuel with
    | zero => exact absurd h (by simp [genUplcStep])
    | succ fuel =>
    simp only [genUplcStep, Option.pure_def, Option.bind_eq_bind', Option.bind_eq_some'] at h
    obtain ⟨⟨opsl, rest⟩, hpop, ⟨out, stx⟩, hsyn, heq⟩ := h
    simp only [popN] at hpop
    split at hpop
    · exact absurd hpop (by simp)
    · rename_i hlen
      simp only [Option.some.injEq, Prod.mk.injEq] at hpop heq
      obtain ⟨rfl, rfl⟩ := hpop
      obtain ⟨rfl, rfl⟩ := heq
      have hout : out.length = airPushOut st air (stack.take (airOpCount air)) :=
        genSynth_push_count env fuel st air _ out stx hsyn
      refine ⟨by omega, ?_⟩
      simp only [List.length_append, List.length_drop]
      omega
  · intro env fuel st irStack t st1 h
    simp only [uplcCodeGen, Option.pure_def, Option.bind_eq_bind', Option.bind_eq_some'] at h
    obtain ⟨⟨stack, stx⟩, hgo, hrest⟩ := h
    simp only [Option.bind_eq_bind', Option.bind_eq_some', Option.some.injEq,
      Prod.mk.injEq] at hrest
    obtain ⟨tt, hlast, rfl, rfl⟩ := hrest
    exact ⟨stack, hgo, hlast⟩

theorem c5_operand_stack_witness :
    ([Term.errorT].length ≥ airOpCount (Air.finallyA []) ∧
     (([] : List Term), GenState.init).1.length + airOpCount (Air.finallyA []) =
       [Term.errorT].length +
         airPushOut GenState.init (Air.finallyA [])
           ([Term.errorT].take (airOpCount (Air.finallyA [])))) ∧
    (∃ stack, genUplcGo env0 8 ([Air.intA [] "1"].reverse) GenState.init [] =
        some (stack, GenState.init) ∧
      stack.getLast? = some (Term.con (.integer 1))) :=
  ⟨c5_operand_stack.1 env0 2 GenState.init (Air.finallyA []) [Term.errorT]
     (([] : List Term), GenState.init) rfl,
   c5_operand_stack.2 env0 8 GenState.init [Air.intA [] "1"] (Term.con (.integer 1))
     GenState.init rfl⟩

theorem c5_counterexample :
    (genSynth env0 1 GenState.init (Air.finallyA []) [Term.errorT] =
       some ([], GenState.init) ∧ ([] : List Term).length ≠ 1) ∧
    (∃ stack st1,
      genUplcGo env0 8 ([Air.intA [] "1", Air.intA [] "2"].reverse) GenState.init [] =
        some (stack, st1) ∧
      stack.head? = some (Term.con (.integer 1)) ∧
      uplcCodeGen env0 9 GenState.init [Air.intA [] "1", Air.intA [] "2"] =
        some (Term.con (.integer 2), st1) ∧
      Term.con (.integer 2) ≠ Term.con (.integer 1)) :=
  ⟨⟨rfl, by simp⟩,
   ⟨[Term.con (.integer 1), Term.con (.integer 2)], GenState.init, rfl, rfl, rfl, by simp⟩⟩

theorem consOf_def (ts : List Term) :
    (ts.filterMap (fun t => match t with | Term.con c => some c | _ => none)) = consOf ts := rfl

theorem pairParts_def :
    (fun c => match c with | UplcConstant.protoPair _ _ f s => some (f, s) | _ => none) =
      pairParts := rfl

theorem consOf_length_eq_iff (ts : List Term) :
    (consOf ts).length = ts.length ↔ ts.all isConTerm = true := by
  simp only [← consOf_def]
  induction ts with
  | nil => simp
  | cons t ts ih =>
    have hle := List.length_filterMap_le
      (fun t => match t with | Term.con c => some c | _ => none) ts
    cases t <;>
      simp only [List.filterMap_cons, List.all_cons, isConTerm, Bool.true_and, Bool.false_and,
        List.length_cons, Bool.false_eq_true, iff_false] <;>
      first
        | omega
        | (simp only [Nat.add_right_cancel_iff]; exact ih)

theorem consOf_beq_false (ts : List Term) (h : ts.all isConTerm = false) :
    ((consOf ts).length == ts.length) = false := by
  rw [beq_eq_false_iff_ne]
  intro hh
  rw [consOf_length_eq_iff] at hh
  simp [h] at hh

/-- Claim C6: fully-constant lists (with no tail) and tuples of
constants synthesize to `ProtoList`/`ProtoPair` constants (a list of
`ProtoPair`s for maps); otherwise the elements are folded right-to-left
with `MkCons` starting from the explicit tail or the empty-list
constant, and non-constant 2-tuples combine with `MkPairData`
(`uplc.rs` lines 2495-2583 and 3868-3927). -/
theorem c6_constant_folding :
    (∀ (env : Env) (fuel : Nat) (st : GenState) (scope : List Nat) (count : Nat) (tipo : Tipo)
       (ops : List Term) (listType : Tipo),
      tipo.getInnerTypes.head? = some listType → tipo.isMap = false →
      (ops.take count).all isConTerm = true →
      genSynth env (fuel + 1) st (.listA scope count tipo false) ops =
        some ([Term.con (.protoList .dataU (convertConstantsToData (consOf (ops.take count))))],
          st) ∧
      termMentionsCons
        (Term.con (.protoList .dataU (convertConstantsToData (consOf (ops.take count))))) =
        false) ∧
    (∀ (env : Env) (fuel : Nat) (st : GenState) (scope : List Nat) (count : Nat) (tipo : Tipo)
       (ops : List Term) (listType : Tipo) (pairs : List (UplcConstant × UplcConstant)),
      tipo.getInnerTypes.head? = some listType → tipo.isMap = true →
      (ops.take count).all isConTerm = true →
      mapOptionList pairParts (consOf (ops.take count)) = some pairs →
      genSynth env (fuel + 1) st (.listA scope count tipo false) ops =
        some ([Term.con (.protoList (.pair .dataU .dataU)
          (((convertConstantsToData (pairs.map Prod.fst)).zip
            (convertConstantsToData (pairs.map Prod.snd))).map
            (fun kv => UplcConstant.protoPair .dataU .dataU kv.1 kv.2)))], st)) ∧
    (∀ (env : Env) (fuel : Nat) (st : GenState) (scope : List Nat) (count : Nat) (tipo : Tipo)
       (ops : List Term) (listType : Tipo) (tl : Term),
      tipo.getInnerTypes.head? = some listType → ops.get? count = some tl →
      genSynth env (fuel + 1) st (.listA scope count tipo true) ops =
        some ([claimConsFoldList tipo listType (ops.take count) tl], st)) ∧
    (∀ (env : Env) (fuel : Nat) (st : GenState) (scope : List Nat) (count : Nat) (tipo : Tipo)
       (ops : List Term) (listType : Tipo),
      tipo.getInnerTypes.head? = some listType →
      (ops.take count).all isConTerm = false →
      genSynth env (fuel + 1) st (.listA scope count tipo false) ops =
        some ([claimConsFoldList tipo listType (ops.take count)
          (if tipo.isMap then Term.con (.protoList (.pair .dataU .dataU) [])
           else Term.con (.protoList .dataU []))], st)) ∧
    (∀ (env : Env) (fuel : Nat) (st : GenState) (scope : List Nat) (tipo : Tipo) (ops : List Term)
       (d0 d1 : UplcConstant),
      ops.all isConTerm = true →
      (convertConstantsToData (consOf ops)).get? 0 = some d0 →
      (convertConstantsToData (consOf ops)).get? 1 = some d1 →
      genSynth env (fuel + 1) st (.tupleA scope tipo 2) ops =
        some ([Term.con (.protoPair .dataU .dataU d0 d1)], st)) ∧
    (∀ (env : Env) (fuel : Nat) (st : GenState) (scope : List Nat) (tipo : Tipo) (count : Nat)
       (ops : List Term),
      ops.all isConTerm = true → count ≠ 2 →
      genSynth env (fuel + 1) st (.tupleA scope tipo count) ops =
        some ([Term.con (.protoList .dataU (convertConstantsToData (consOf ops)))], st)) ∧
    (∀ (env : Env) (fuel : Nat) (st : GenState) (scope : List Nat) (tipo : Tipo) (ops : List Term)
       (a0 a1 : Term) (t0 t1 : Tipo),
      ops.all isConTerm = false →
      ops.get? 0 = some a0 → ops.get? 1 = some a1 →
      tipo.getInnerTypes.get? 0 = some t0 → tipo.getInnerTypes.get? 1 = some t1 →
      genSynth env (fuel + 1) st (.tupleA scope tipo 2) ops =
        some ([Term.apply
          (Term.apply (Term.builtin .mkPairData) (convertTypeToData a0 t0))
          (convertTypeToData a1 t1)], st)) ∧
    (∀ (env : Env) (fuel : Nat) (st : GenState) (scope : List Nat) (tipo : Tipo) (count : Nat)
       (ops : List Term),
      ops.all isConTerm = false → count ≠ 2 →
      genSynth env (fuel + 1) st (.tupleA scope tipo count) ops =
        some ([claimConsFoldTuple (ops.zip tipo.getInnerTypes)], st)) := by
  refine ⟨?_, ?_, ?_, ?_, ?_, ?_, ?_, ?_⟩
  · intro env fuel st scope count tipo ops listType hlt hmap hall
    have hlen := (consOf_length_eq_iff (ops.take count)).mpr hall
    constructor
    · simp only [genSynth, consOf_def, Option.bind_eq_bind', Option.pure_def, hlt,
        Option.some_bind, hlen, beq_self_eq_true, Bool.not_false, Bool.and_true, if_true,
        hmap, Bool.false_eq_true, if_false]
    · rfl
  · intro env fuel st scope count tipo ops listType pairs hlt hmap hall hpairs
    have hlen := (consOf_length_eq_iff (ops.take count)).mpr hall
    simp only [genSynth, consOf_def, pairParts_def, Option.bind_eq_bind', Option.pure_def,
      hlt, Option.some_bind, hlen, beq_self_eq_true, Bool.not_false, Bool.and_true, if_true,
      hmap, hpairs, if_true]
  · intro env fuel st scope count tipo ops listType tl hlt hget
    simp only [genSynth, consOf_def, Option.bind_eq_bind', Option.pure_def, hlt,
      Option.some_bind, Bool.not_true, Bool.and_false, Bool.false_eq_true, if_false,
      if_true, hget, claimConsFoldList]
  · intro env fuel st scope count tipo ops listType hlt hall
    have hbeq := consOf_beq_false (ops.take count) hall
    by_cases hm : tipo.isMap = true <;>
      simp only [genSynth, consOf_def, Option.bind_eq_bind', Option.pure_def, hlt,
        Option.some_bind, hbeq, Bool.false_and, Bool.false_eq_true, if_false, hm,
        if_true, Option.some_bind, claimConsFoldList]
  · intro env fuel st scope tipo ops d0 d1 hall h0 h1
    have hlen := (consOf_length_eq_iff ops).mpr hall
    simp only [genSynth, consOf_def, Option.bind_eq_bind', Option.pure_def, hlen,
      beq_self_eq_true, if_true, h0, h1, Option.some_bind, beq_self_eq_true]
  · intro env fuel st scope tipo count ops hall hc
    have hlen := (consOf_length_eq_iff ops).mpr hall
    have hcb : (count == 2) = false := beq_eq_false_iff_ne.mpr hc
    simp only [genSynth, consOf_def, Option.bind_eq_bind', Option.pure_def, hlen,
      beq_self_eq_true, if_true, hcb, Bool.false_eq_true, if_false]
  · intro env fuel st scope tipo ops a0 a1 t0 t1 hall h0 h1 ht0 ht1
    have hbeq := consOf_beq_false ops hall
    simp only [genSynth, consOf_def, Option.bind_eq_bind', Option.pure_def, hbeq,
      Bool.false_eq_true, if_false, beq_self_eq_true, if_true, h0, h1, ht0, ht1,
      Option.some_bind]
  · intro env fuel st scope tipo count ops hall hc
    have hbeq := consOf_beq_false ops hall
    have hcb : (count == 2) = false := beq_eq_false_iff_ne.mpr hc
    simp only [genSynth, consOf_def, Option.bind_eq_bind', Option.pure_def, hbeq, hcb,
      Bool.false_eq_true, if_false, claimConsFoldTuple]


theorem c6_constant_folding_witness :
    (genSynth env0 1 GenState.init (.listA [] 1 (listTipo intTipo) false)
        [Term.con (.integer 1)] =
      some ([Term.con (.protoList .dataU
        (convertConstantsToData (consOf ([Term.con (.integer 1)].take 1))))],
        GenState.init) ∧
     termMentionsCons
       (Term.con (.protoList .dataU
         (convertConstantsToData (consOf ([Term.con (.integer 1)].take 1))))) = false) ∧
    (genSynth env0 1 GenState.init
        (.listA [] 1 (listTipo (Tipo.tuple [intTipo, intTipo])) false)
        [Term.con (.protoPair .dataU .dataU (.integer 1) (.integer 2))] =
      some ([Term.con (.protoList (.pair .dataU .dataU)
        (((convertConstantsToData
            ([((UplcConstant.integer 1 : UplcConstant), (UplcConstant.integer 2 : UplcConstant))].map Prod.fst)).zip
          (convertConstantsToData
            ([((UplcConstant.integer 1 : UplcConstant), (UplcConstant.integer 2 : UplcConstant))].map Prod.snd))).map
          (fun kv => UplcConstant.protoPair .dataU .dataU kv.1 kv.2)))], GenState.init)) ∧
    (genSynth env0 1 GenState.init (.listA [] 1 (listTipo intTipo) true)
        [Term.con (.integer 1), Term.var "t"] =
      some ([claimConsFoldList (listTipo intTipo) intTipo
        ([Term.con (.integer 1), Term.var "t"].take 1) (Term.var "t")], GenState.init)) ∧
    (genSynth env0 1 GenState.init (.listA [] 1 (listTipo intTipo) false) [Term.var "x"] =
      some ([claimConsFoldList (listTipo intTipo) intTipo ([Term.var "x"].take 1)
        (if (listTipo intTipo).isMap then Term.con (.protoList (.pair .dataU .dataU) [])
         else Term.con (.protoList .dataU []))], GenState.init)) ∧
    (genSynth env0 1 GenState.init (.tupleA [] (Tipo.tuple [intTipo, intTipo]) 2)
        [Term.con (.integer 1), Term.con (.integer 2)] =
      some ([Term.con (.protoPair .dataU .dataU (.dataC (.iD 1)) (.dataC (.iD 2)))],
        GenState.init)) ∧
    (genSynth env0 1 GenState.init (.tupleA [] (Tipo.tuple [intTipo, intTipo, intTipo]) 3)
        [Term.con (.integer 1), Term.con (.integer 2), Term.con (.integer 3)] =
      some ([Term.con (.protoList .dataU (convertConstantsToData
        (consOf [Term.con (.integer 1), Term.con (.integer 2), Term.con (.integer 3)])))],
        GenState.init)) ∧
    (genSynth env0 1 GenState.init (.tupleA [] (Tipo.tuple [intTipo, intTipo]) 2)
        [Term.var "x", Term.con (.integer 2)] =
      some ([Term.apply
        (Term.apply (Term.builtin .mkPairData) (convertTypeToData (Term.var "x") intTipo))
        (convertTypeToData (Term.con (.integer 2)) intTipo)], GenState.init)) ∧
    (genSynth env0 1 GenState.init (.tupleA [] (Tipo.tuple [intTipo, intTipo, intTipo]) 3)
        [Term.var "x", Term.con (.integer 2), Term.con (.integer 3)] =
      some ([claimConsFoldTuple
        ([Term.var "x", Term.con (.integer 2), Term.con (.integer 3)].zip
          (Tipo.tuple [intTipo, intTipo, intTipo]).getInnerTypes)], GenState.init)) :=
  ⟨c6_constant_folding.1 env0 0 GenState.init [] 1 (listTipo intTipo)
     [Term.con (.integer 1)] intTipo rfl rfl rfl,
   c6_constant_folding.2.1 env0 0 GenState.init [] 1 (listTipo (Tipo.tuple [intTipo, intTipo]))
     [Term.con (.protoPair .dataU .dataU (.integer 1) (.integer 2))]
     (Tipo.tuple [intTipo, intTipo])
     [((UplcConstant.integer 1 : UplcConstant), (UplcConstant.integer 2 : UplcConstant))]
     rfl rfl rfl rfl,
   c6_constant_folding.2.2.1 env0 0 GenState.init [] 1 (listTipo intTipo)
     [Term.con (.integer 1), Term.var "t"] intTipo (Term.var "t") rfl rfl,
   c6_constant_folding.2.2.2.1 env0 0 GenState.init [] 1 (listTipo intTipo)
     [Term.var "x"] intTipo rfl rfl,
   c6_constant_folding.2.2.2.2.1 env0 0 GenState.init [] (Tipo.tuple [intTipo, intTipo])
     [Term.con (.integer 1), Term.con (.integer 2)] (.dataC (.iD 1)) (.dataC (.iD 2))
     rfl rfl rfl,
   c6_constant_folding.2.2.2.2.2.1 env0 0 GenState.init []
     (Tipo.tuple [intTipo, intTipo, intTipo]) 3
     [Term.con (.integer 1), Term.con (.integer 2), Term.con (.integer 3)] rfl (by decide),
   c6_constant_folding.2.2.2.2.2.2.1 env0 0 GenState.init [] (Tipo.tuple [intTipo, intTipo])
     [Term.var "x", Term.con (.integer 2)] (Term.var "x") (Term.con (.integer 2))
     intTipo intTipo rfl rfl rfl rfl rfl,
   c6_constant_folding.2.2.2.2.2.2.2 env0 0 GenState.init []
     (Tipo.tuple [intTipo, intTipo, intTipo]) 3
     [Term.var "x", Term.con (.integer 2), Term.con (.integer 3)] rfl (by decide)⟩



theorem drawIds_flag (n : Nat) : ∀ st : GenState,
    ((drawIds st n).2).needsFieldAccess = st.needsFieldAccess := by
  induction n with
  | zero => intro st; rfl
  | succ n ih => intro st; simpa [drawIds, GenState.next] using ih st.next.2

theorem drawIds_zeroArg (n : Nat) : ∀ st : GenState,
    ((drawIds st n).2).zeroArgFunctions = st.zeroArgFunctions := by
  induction n with
  | zero => intro st; rfl
  | succ n ih => intro st; simpa [drawIds, GenState.next] using ih st.next.2

theorem genSynth_flag (env : Env) (fuel : Nat) (st : GenState) (air : Air) (ops : List Term)
    (out : List Term) (st1 : GenState)
    (h : genSynth env fuel st air ops = some (out, st1))
    (hz : st.zeroArgFunctions = []) :
    st1.needsFieldAccess = (st.needsFieldAccess || stepTrigger air) ∧
    st1.zeroArgFunctions = [] := by
  cases fuel with
  | zero => exact absurd h (by simp [genSynth])
  | succ fuel =>
  cases air
  case callA s count =>
    rcases count with _ | n
    · rcases ops with _ | ⟨a, rest⟩
      · exact absurd h (by simp [genSynth])
      · cases a <;>
          simp only [genSynth, List.head?_cons, Option.some_bind, Option.pure_def,
            Option.bind_eq_bind', Option.bind_eq_some', Option.some.injEq,
            Prod.mk.injEq] at h <;>
          first
            | (rw [hz] at h
               cases fuel with
               | zero => exact absurd h (by simp [zeroArgApply])
               | succ fuel =>
                 simp only [zeroArgApply, Option.some.injEq, Prod.mk.injEq] at h
                 obtain ⟨_, rfl⟩ := h
                 exact ⟨by simp [stepTrigger], hz⟩)
            | (obtain ⟨rfl, rfl⟩ := h; exact ⟨by simp [stepTrigger], hz⟩)
    · rcases ops with _ | ⟨a, rest⟩ <;>
        simp only [genSynth, stepTrigger, Option.pure_def, Option.bind_eq_bind',
          Option.bind_eq_some', Option.some.injEq, Prod.mk.injEq, List.head?_cons,
          Option.some_bind, Nat.le_add_left] at h <;>
        (repeat' split at h) <;>
        (try simp only [Option.some.injEq, Prod.mk.injEq] at h) <;>
        first
          | contradiction
          | (obtain ⟨rfl, rfl⟩ := h; exact ⟨by simp [stepTrigger], hz⟩)
  case tupleIndexA s tipo index =>
    rcases ops with _ | ⟨a, _ | ⟨b, rest⟩⟩ <;>
      simp only [genSynth, Option.pure_def, Option.bind_eq_bind', Option.bind_eq_some',
        Option.some.injEq, Prod.mk.injEq] at h <;>
      (try contradiction)
    split at h
    · rename_i hp
      split at h <;>
        (simp only [Option.bind_eq_bind', Option.bind_eq_some', Option.some.injEq,
           Prod.mk.injEq] at h;
         obtain ⟨x1, h1, rfl, rfl⟩ := h;
         exact ⟨by simp [stepTrigger, hp], hz⟩)
    · rename_i hp
      simp only [Bool.not_eq_true] at hp
      obtain ⟨rfl, rfl⟩ := h
      exact ⟨by simp [stepTrigger, hp], hz⟩
  all_goals (
    rcases ops with _ | ⟨a, _ | ⟨b, _ | ⟨c, _ | ⟨d, rest⟩⟩⟩⟩ <;>
    simp only [genSynth, stepTrigger, Option.pure_def, Option.bind_eq_bind',
      Option.bind_eq_some', Option.some.injEq, Prod.mk.injEq] at h <;>
    (repeat' split at h) <;>
    (try simp only [Option.some.injEq, Prod.mk.injEq, Option.bind_eq_bind',
      Option.bind_eq_some'] at h) <;>
    first
      | contradiction
      | (obtain ⟨rfl, rfl⟩ := h;
         exact ⟨by simp [stepTrigger, GenState.next, drawIds_flag], by simp [GenState.next, drawIds_zeroArg, hz]⟩)
      | (obtain ⟨x1, h1, rfl, rfl⟩ := h;
         exact ⟨by simp [stepTrigger, GenState.next, drawIds_flag], by simp [GenState.next, drawIds_zeroArg, hz]⟩)
      | (obtain ⟨x1, h1, x2, h2, rfl, rfl⟩ := h;
         exact ⟨by simp [stepTrigger, GenState.next, drawIds_flag], by simp [GenState.next, drawIds_zeroArg, hz]⟩)
      | (obtain ⟨x1, h1, x2, h2, x3, h3, rfl, rfl⟩ := h;
         exact ⟨by simp [stepTrigger, GenState.next, drawIds_flag], by simp [GenState.next, drawIds_zeroArg, hz]⟩)
      | (obtain ⟨x1, h1, x2, h2, x3, h3, x4, h4, rfl, rfl⟩ := h;
         exact ⟨by simp [stepTrigger, GenState.next, drawIds_flag], by simp [GenState.next, drawIds_zeroArg, hz]⟩))

theorem genUplcStep_flag (env : Env) (fuel : Nat) (st : GenState) (air : Air)
    (stack : List Term) (res : List Term × GenState)
    (h : genUplcStep env fuel st air stack = some res)
    (hz : st.zeroArgFunctions = []) :
    res.2.needsFieldAccess = (st.needsFieldAccess || stepTrigger air) ∧
    res.2.zeroArgFunctions = [] := by
  cases fuel with
  | zero => exact absurd h (by simp [genUplcStep])
  | succ fuel =>
  simp only [genUplcStep, Option.pure_def, Option.bind_eq_bind', Option.bind_eq_some',
    Option.some.injEq] at h
  obtain ⟨⟨opsl, rest⟩, hpop, ⟨out, stx⟩, hsyn, rfl⟩ := h
  exact genSynth_flag env fuel st air opsl out stx hsyn hz

theorem genUplcGo_flag (env : Env) : ∀ (fuel : Nat) (airs : List Air) (st : GenState)
    (stack : List Term) (res : List Term × GenState),
    genUplcGo env fuel airs st stack = some res →
    st.zeroArgFunctions = [] →
    res.2.needsFieldAccess = (st.needsFieldAccess || airs.any stepTrigger) ∧
    res.2.zeroArgFunctions = [] := by
  intro fuel
  induction fuel with
  | zero => intro airs st stack res h hz; exact absurd h (by simp [genUplcGo])
  | succ fuel ih =>
    intro airs st stack res h hz
    cases airs with
    | nil =>
      simp only [genUplcGo, Option.some.injEq] at h
      subst h
      exact ⟨by simp, hz⟩
    | cons ir restIr =>
      simp only [genUplcGo, Option.bind_eq_bind', Option.bind_eq_some'] at h
      obtain ⟨⟨stack1, stA⟩, hstep, hrec⟩ := h
      obtain ⟨h1, hz1⟩ := genUplcStep_flag env fuel st ir stack (stack1, stA) hstep hz
      obtain ⟨h2, hz2⟩ := ih restIr stA stack1 res hrec hz1
      refine ⟨?_, hz2⟩
      simp only [List.any_cons]
      rw [h2]
      have h1x : stA.needsFieldAccess = (st.needsFieldAccess || stepTrigger ir) := h1
      rw [h1x, Bool.or_assoc]

theorem uplcCodeGen_flag (env : Env) (fuel : Nat) (st : GenState) (irStack : List Air)
    (t : Term) (st1 : GenState)
    (h : uplcCodeGen env fuel st irStack = some (t, st1))
    (hz : st.zeroArgFunctions = []) :
    st1.needsFieldAccess = (st.needsFieldAccess || irStack.any stepTrigger) ∧
    st1.zeroArgFunctions = [] := by
  cases fuel with
  | zero => exact absurd h (by simp [uplcCodeGen])
  | succ fuel =>
  simp only [uplcCodeGen, Option.pure_def, Option.bind_eq_bind', Option.bind_eq_some'] at h
  obtain ⟨⟨stack, stx⟩, hgo, hrest⟩ := h
  simp only [Option.bind_eq_bind', Option.bind_eq_some', Option.some.injEq,
    Prod.mk.injEq] at hrest
  obtain ⟨tt, hlast, rfl, rfl⟩ := hrest
  have hg := genUplcGo_flag env fuel irStack.reverse st [] (stack, stx) hgo hz
  simpa [List.any_reverse] using hg

theorem processScopeArm_nil (scope : List Nat) (fim : List (FunctionAccessKey × List Nat)) :
    processScopeArm scope [] fim = ([], fim) := rfl

theorem processDefineIr_id (env : Env) (fuel : Nat) : ∀ (rev : List (Nat × Air))
    (irStack : List Air) (fc : List (FunctionAccessKey × FuncComponents))
    (fim : List (FunctionAccessKey × List Nat)) (st : GenState)
    (res : List Air × List (FunctionAccessKey × List Nat) ×
      List (FunctionAccessKey × FuncComponents) × List (FunctionAccessKey × List Nat) × GenState),
    rev.all (fun p => airNotModuleFnVar p.2) = true →
    processDefineIr env fuel rev irStack [] fc fim st = some res →
    res = (irStack, [], fc, fim, st) := by
  intro rev
  induction rev with
  | nil =>
    intro irStack fc fim st res _ h
    simp only [processDefineIr, Option.some.injEq] at h
    exact h.symm
  | cons p rest ih =>
    intro irStack fc fim st res hall h
    obtain ⟨i, ir⟩ := p
    simp only [List.all_cons, Bool.and_eq_true] at hall
    cases ir <;>
      simp only [processDefineIr, processScopeArm_nil] at h <;>
      first
        | exact ih _ _ _ _ _ hall.2 h
        | skip
    rename_i scope c name vn
    revert h
    simp only [airNotModuleFnVar] at hall
    rcases hc : c.variant with _ | _ | ⟨fn, md, ar, bi, fm⟩ | _ <;>
      simp only [hc] at hall ⊢ <;>
      intro h <;>
      first
        | exact ih _ _ _ _ _ hall.2 h
        | skip
    rcases bi with _ | b
    · exact absurd hall.1 (by simp)
    · exact ih _ _ _ _ _ hall.2 h


theorem all_enumFrom (P : Air → Bool) : ∀ (l : List Air) (n : Nat), l.all P = true →
    (List.enumFrom n l).all (fun p => P p.2) = true := by
  intro l
  induction l with
  | nil => intro n _; rfl
  | cons a l ih =>
    intro n h
    simp only [List.all_cons, Bool.and_eq_true] at h
    simp only [List.enumFrom, List.all_cons, Bool.and_eq_true]
    exact ⟨h.1, ih (n + 1) h.2⟩

theorem processLeftovers_nil (fim : List (FunctionAccessKey × List Nat)) :
    processLeftovers [] fim = some fim := rfl

theorem processDefineIrTop_id (env : Env) (fuel : Nat) (irStack : List Air)
    (fc : List (FunctionAccessKey × FuncComponents)) (fim : List (FunctionAccessKey × List Nat))
    (st : GenState)
    (res : List Air × List (FunctionAccessKey × FuncComponents) ×
      List (FunctionAccessKey × List Nat) × GenState)
    (hall : irStack.all airNotModuleFnVar = true)
    (h : processDefineIrTop env fuel irStack fc fim st = some res) :
    res = (irStack, fc, fim, st) := by
  have hall2 : (irStack.enum.reverse).all (fun p => airNotModuleFnVar p.2) = true := by
    rw [List.all_reverse]
    exact all_enumFrom airNotModuleFnVar irStack 0 hall
  simp only [processDefineIrTop, Option.pure_def, Option.bind_eq_bind',
    Option.bind_eq_some'] at h
  obtain ⟨⟨a, b, c, d, e⟩, hp, hrest⟩ := h
  have hid := processDefineIr_id env fuel irStack.enum.reverse irStack fc fim st
    (a, b, c, d, e) hall2 hp
  simp only [Prod.mk.injEq] at hid
  obtain ⟨rfl, rfl, rfl, rfl, rfl⟩ := hid
  rw [processLeftovers_nil] at hrest
  simp only [Option.some.injEq] at hrest
  obtain ⟨fim2, rfl, hres⟩ := hrest
  exact hres.symm


theorem defineRecurseLoop_nil (env : Env) (fuel : Nat)
    (fc : List (FunctionAccessKey × FuncComponents)) (fim : List (FunctionAccessKey × List Nat))
    (rm : List FunctionAccessKey) (st : GenState)
    (res : List (FunctionAccessKey × FuncComponents) × List (FunctionAccessKey × List Nat) ×
      List FunctionAccessKey × GenState)
    (h : defineRecurseLoop env fuel [] fc fim rm st = some res) :
    res = (fc, fim, rm, st) := by
  cases fuel with
  | zero => exact absurd h (by simp [defineRecurseLoop])
  | succ f =>
    simp only [defineRecurseLoop, Option.some.injEq] at h
    exact h.symm

theorem defineRecurseIr_id (env : Env) (fuel : Nat) (airs : List Air)
    (rm : List FunctionAccessKey) (st : GenState)
    (res : List Air × List (FunctionAccessKey × FuncComponents) ×
      List (FunctionAccessKey × List Nat) × GenState)
    (hall : airs.all airNotModuleFnVar = true)
    (h : defineRecurseIr env fuel airs [] [] rm st = some res) :
    res = (airs, [], [], st) := by
  cases fuel with
  | zero => exact absurd h (by simp [defineRecurseIr])
  | succ f =>
    simp only [defineRecurseIr, Option.pure_def, Option.bind_eq_bind',
      Option.bind_eq_some'] at h
    obtain ⟨⟨a, b, c, d⟩, htop, hrest⟩ := h
    have hid := processDefineIrTop_id env f airs [] [] st (a, b, c, d) hall htop
    simp only [Prod.mk.injEq] at hid
    obtain ⟨rfl, rfl, rfl, h4⟩ := hid
    obtain ⟨⟨e2, f2, g2, s2⟩, hloop, hres⟩ := hrest
    have hl := defineRecurseLoop_nil env f [] [] rm d (e2, f2, g2, s2) hloop
    simp only [Prod.mk.injEq] at hl
    obtain ⟨rfl, rfl, rfl, h5⟩ := hl
    simp only [Option.some.injEq] at hres
    rw [← hres, h5, h4]

theorem dependencyOrder_nil (fc : List (FunctionAccessKey × FuncComponents)) (fuel : Nat)
    (dm : List FunctionAccessKey) (res : List FunctionAccessKey)
    (h : dependencyOrder fc fuel [] dm = some res) : res = dm := by
  cases fuel with
  | zero => exact absurd h (by simp [dependencyOrder])
  | succ f =>
    simp only [dependencyOrder, Option.some.injEq] at h
    exact h.symm

theorem defineInsertAt_nil (fc : List (FunctionAccessKey × FuncComponents))
    (fd : List (FunctionAccessKey × List Air)) (i : Nat) (ir : Air) (irStack : List Air)
    (st : GenState) :
    defineInsertAt fc fd i ir irStack [] st = some (irStack, [], st) := rfl

theorem defineFold_id (fc : List (FunctionAccessKey × FuncComponents))
    (fd : List (FunctionAccessKey × List Air)) : ∀ (l : List (Nat × Air)) (irStack : List Air)
    (st : GenState),
    List.foldlM
      (fun (acc : List Air × List (FunctionAccessKey × List Nat) × GenState) p => do
        let (irStackA, funcIndexMapA, stA) := acc
        defineInsertAt fc fd p.1 p.2 irStackA funcIndexMapA stA)
      (irStack, ([] : List (FunctionAccessKey × List Nat)), st) l =
      some (irStack, [], st) := by
  intro l
  induction l with
  | nil => intro irStack st; rfl
  | cons p rest ih =>
    intro irStack st
    rw [List.foldlM_cons]
    simp only [defineInsertAt_nil, Option.some_bind]
    exact ih irStack st

theorem defineIr_id (env : Env) (fuel : Nat) (airs : List Air) (st : GenState)
    (res : List Air × GenState)
    (hall : airs.all airNotModuleFnVar = true)
    (h : defineIr env fuel airs st = some res) :
    res = (airs, st) := by
  simp only [defineIr, Option.pure_def, Option.bind_eq_bind', Option.bind_eq_some'] at h
  obtain ⟨⟨a, b, c, d⟩, hrec, hrest⟩ := h
  have hid := defineRecurseIr_id env fuel airs [] st (a, b, c, d) hall hrec
  simp only [Prod.mk.injEq] at hid
  obtain ⟨rfl, rfl, rfl, h4⟩ := hid
  obtain ⟨dv, hdv, hrest2⟩ := hrest
  have hdv2 := dependencyOrder_nil [] fuel [] dv (by simpa using hdv)
  subst hdv2
  obtain ⟨⟨fdep, s2⟩, hdeps, hrest3⟩ := hrest2
  simp only [defineDepsPass, Option.some.injEq, Prod.mk.injEq] at hdeps
  obtain ⟨h5, h6⟩ := hdeps
  obtain ⟨⟨i1, i2, i3⟩, hfold, hres⟩ := hrest3
  rw [defineFold_id] at hfold
  simp only [Option.some.injEq, Prod.mk.injEq] at hfold
  obtain ⟨hi1, hi2, hi3⟩ := hfold
  simp only [Option.some.injEq] at hres
  rw [← hres, ← hi1, ← hi3, ← h6, h4]


theorem varX_buildIr (fuel : Nat) (hf : 1 ≤ fuel) (st : GenState) (scope : List Nat) :
    buildIr envF fuel (.varE intVC "x") st scope = some ([Air.varA scope intVC "x" ""], st) := by
  obtain ⟨f, rfl⟩ : ∃ f, fuel = f + 1 := ⟨fuel - 1, by omega⟩
  rfl

theorem or_chain2 {b0 b1 b2 t1 t2 n1 n2 : Bool}
    (h1 : (b1 || t1) = (b0 || n1)) (h2 : (b2 || t2) = (b1 || n2)) :
    (b2 || (t1 || t2)) = (b0 || (n1 || n2)) := by
  cases b0 <;> cases b1 <;> cases b2 <;> cases t1 <;> cases t2 <;> cases n1 <;> cases n2 <;>
    simp_all

theorem or_chain_head {b0 b1 t n x : Bool} (h : (b1 || t) = (b0 || n)) :
    (b1 || (x || t)) = (b0 || (x || n)) := by
  cases b0 <;> cases b1 <;> cases t <;> cases n <;> cases x <;> simp_all

theorem or_chain_pat {b0 b1 t n x : Bool} (h : (b1 || t) = (b0 || n)) :
    (b1 || (x || t)) = (b0 || (n || x)) := by
  cases b0 <;> cases b1 <;> cases t <;> cases n <;> cases x <;> simp_all

theorem airAnyTrigger_cons (a : Air) (l : List Air) :
    airAnyTrigger (a :: l) = (stepTrigger a || airAnyTrigger l) := rfl

theorem airAnyTrigger_append (l1 l2 : List Air) :
    airAnyTrigger (l1 ++ l2) = (airAnyTrigger l1 || airAnyTrigger l2) := by
  simp [airAnyTrigger, List.any_append]

theorem airAnyTrigger_nil : airAnyTrigger [] = false := rfl


theorem keyOrderedInsert_ne_nil {α : Type} (key : α → Nat) (a : α) (l : List α) :
    keyOrderedInsert key a l ≠ [] := by
  cases l with
  | nil => simp [keyOrderedInsert]
  | cons b bs =>
    simp only [keyOrderedInsert]
    split <;> simp

theorem sortByKey_isEmpty {α : Type} (key : α → Nat) (l : List α) :
    (sortByKey key l).isEmpty = l.isEmpty := by
  cases l with
  | nil => rfl
  | cons a as =>
    simp only [sortByKey, List.isEmpty_cons]
    cases h : keyOrderedInsert key a (sortByKey key as) with
    | nil => exact absurd h (keyOrderedInsert_ne_nil key a _)
    | cons x xs => simp

theorem patternListElems_inv (env : Env) : ∀ (fuel : Nat) (els : List Pattern) (tipo : Tipo)
    (st : GenState) (scope : List Nat) (names : List String) (airs : List Air) (st1 : GenState),
    els.all simpleElemPattern = true →
    patternListElems env fuel els tipo st scope = some (names, airs, st1) →
    airs = [] ∧ st1 = st := by
  intro fuel
  induction fuel with
  | zero => intro els _ _ _ _ _ _ _ h; exact absurd h (by simp [patternListElems])
  | succ fuel ih =>
    intro els tipo st scope names airs st1 hall h
    cases els with
    | nil =>
      simp only [patternListElems, Option.some.injEq, Prod.mk.injEq] at h
      exact ⟨h.2.1.symm, h.2.2.symm⟩
    | cons el rest =>
      simp only [List.all_cons, Bool.and_eq_true] at hall
      cases el <;>
        simp only [simpleElemPattern, Bool.false_eq_true, false_and] at hall
      simp only [patternListElems, Option.pure_def, Option.bind_eq_bind',
        Option.bind_eq_some', Option.some.injEq, Prod.mk.injEq] at h
      obtain ⟨⟨ns, as, stx⟩, hrec, h1, h2, h3⟩ := h
      obtain ⟨rfl, rfl⟩ := ih rest tipo st scope ns as stx hall.2 hrec
      exact ⟨h2.symm, h3.symm⟩


theorem patternCtorArgsRec_inv (env : Env) : ∀ (fuel : Nat)
    (args : List (Option String × Pattern)) (fm : FieldMap) (st : GenState) (scope : List Nat)
    (items : List (String × String × Nat × Bool)) (nested : List Air) (st1 : GenState),
    args.all (fun a => varOrDiscardPattern a.2) = true →
    patternCtorArgsRec env fuel args fm st scope = some (items, nested, st1) →
    nested = [] ∧ st1 = st ∧
      ((items.filter (fun x => !x.2.2.2)).isEmpty =
        !(args.any (fun a => a.2 matches Pattern.varP _))) := by
  intro fuel
  induction fuel with
  | zero => intro args _ _ _ _ _ _ hall h; exact absurd h (by simp [patternCtorArgsRec])
  | succ fuel ih =>
    intro args fm st scope items nested st1 hall h
    cases args with
    | nil =>
      simp only [patternCtorArgsRec, Option.some.injEq, Prod.mk.injEq] at h
      obtain ⟨h1, h2, h3⟩ := h
      subst h1
      exact ⟨h2.symm, h3.symm, rfl⟩
    | cons item rest =>
      simp only [List.all_cons, Bool.and_eq_true] at hall
      rcases hitem : item.2 with nmi | nms | nm | _ | _ | _ | _ | _ <;>
        rw [hitem] at hall <;>
        simp only [varOrDiscardPattern, Bool.false_eq_true, false_and] at hall
      · -- varP nm
        simp only [patternCtorArgsRec, hitem, Option.pure_def, Option.bind_eq_bind',
          Option.bind_eq_some', Option.some.injEq, Prod.mk.injEq] at h
        obtain ⟨⟨acc, nst, stx⟩, hrec, h1, h2, h3⟩ := h
        obtain ⟨rfl, rfl, hfe⟩ := ih rest fm st scope acc nst stx hall.2 hrec
        refine ⟨h2.symm, h3.symm, ?_⟩
        subst h1
        rw [List.any_cons, hitem]
        simp [List.filter_cons]
      · -- discardP
        simp only [patternCtorArgsRec, hitem, Option.pure_def, Option.bind_eq_bind',
          Option.bind_eq_some', Option.some.injEq, Prod.mk.injEq] at h
        obtain ⟨⟨acc, nst, stx⟩, hrec, h1, h2, h3⟩ := h
        obtain ⟨rfl, rfl, hfe⟩ := ih rest fm st scope acc nst stx hall.2 hrec
        refine ⟨h2.symm, h3.symm, ?_⟩
        subst h1
        rw [List.any_cons, hitem]
        simpa [List.filter_cons] using hfe


theorem patternCtorArgsPos_inv (env : Env) : ∀ (fuel : Nat)
    (args : List (Option String × Pattern)) (index : Nat) (st : GenState) (scope : List Nat)
    (items : List (String × Nat × Bool)) (nested : List Air) (st1 : GenState),
    args.all (fun a => varOrDiscardPattern a.2) = true →
    patternCtorArgsPos env fuel args index st scope = some (items, nested, st1) →
    nested = [] ∧ st1 = st ∧
      ((items.filter (fun x => !x.2.2)).isEmpty =
        !(args.any (fun a => a.2 matches Pattern.varP _))) := by
  intro fuel
  induction fuel with
  | zero => intro args _ _ _ _ _ _ hall h; exact absurd h (by simp [patternCtorArgsPos])
  | succ fuel ih =>
    intro args index st scope items nested st1 hall h
    cases args with
    | nil =>
      simp only [patternCtorArgsPos, Option.some.injEq, Prod.mk.injEq] at h
      obtain ⟨h1, h2, h3⟩ := h
      subst h1
      exact ⟨h2.symm, h3.symm, rfl⟩
    | cons item rest =>
      simp only [List.all_cons, Bool.and_eq_true] at hall
      rcases hitem : item.2 with nmi | nms | nm | _ | _ | _ | _ | _ <;>
        rw [hitem] at hall <;>
        simp only [varOrDiscardPattern, Bool.false_eq_true, false_and] at hall
      · simp only [patternCtorArgsPos, hitem, Option.pure_def, Option.bind_eq_bind',
          Option.bind_eq_some', Option.some.injEq, Prod.mk.injEq] at h
        obtain ⟨⟨acc, nst, stx⟩, hrec, h1, h2, h3⟩ := h
        obtain ⟨rfl, rfl, hfe⟩ := ih rest (index + 1) st scope acc nst stx hall.2 hrec
        refine ⟨h2.symm, h3.symm, ?_⟩
        subst h1
        rw [List.any_cons, hitem]
        simp [List.filter_cons]
      · simp only [patternCtorArgsPos, hitem, Option.pure_def, Option.bind_eq_bind',
          Option.bind_eq_some', Option.some.injEq, Prod.mk.injEq] at h
        obtain ⟨⟨acc, nst, stx⟩, hrec, h1, h2, h3⟩ := h
        obtain ⟨rfl, rfl, hfe⟩ := ih rest (index + 1) st scope acc nst stx hall.2 hrec
        refine ⟨h2.symm, h3.symm, ?_⟩
        subst h1
        rw [List.any_cons, hitem]
        simpa [List.filter_cons] using hfe


theorem isEmpty_map {α β : Type} (f : α → β) (l : List α) :
    (l.map f).isEmpty = l.isEmpty := by cases l <;> rfl

theorem patternIr_inv (env : Env) (fuel : Nat) (p : Pattern) (values : List Air) (tipo : Tipo)
    (st : GenState) (scope : List Nat) (air : List Air) (st1 : GenState)
    (hsup : supportedPattern p = true)
    (h : patternIr env fuel p values tipo st scope = some (air, st1)) :
    st1 = st ∧ airAnyTrigger air = (patternTriggersFieldsExpose p || airAnyTrigger values) ∧
      air.all airNotModuleFnVar = values.all airNotModuleFnVar := by
  cases fuel with
  | zero => exact absurd h (by simp [patternIr])
  | succ fuel =>
  cases p with
  | intP v => exact absurd h (by simp [patternIr])
  | stringP v => exact absurd h (by simp [patternIr])
  | varP v => exact absurd h (by simp [patternIr])
  | varUsage v => exact absurd h (by simp [patternIr])
  | assignP n q => exact absurd h (by simp [patternIr])
  | discardP =>
    simp only [patternIr, Option.some.injEq, Prod.mk.injEq] at h
    obtain ⟨h1, h2⟩ := h
    subst h1
    refine ⟨h2.symm, ?_, ?_⟩ <;>
      simp [airAnyTrigger_cons, stepTrigger, patternTriggersFieldsExpose, airNotModuleFnVar]
  | listP elements tail =>
    simp only [supportedPattern, Bool.and_eq_true] at hsup
    obtain ⟨hels, htail⟩ := hsup
    rcases tail with _ | t
    · simp only [patternIr, Option.pure_def, Option.bind_eq_bind', Option.bind_eq_some',
        Option.some_bind, Option.some.injEq, Prod.mk.injEq] at h
      obtain ⟨⟨names0, elemsVec, stx⟩, hrec, h1, h2⟩ := h
      obtain ⟨rfl, rfl⟩ := patternListElems_inv env fuel elements tipo st scope
        names0 elemsVec stx hels hrec
      subst h1
      refine ⟨h2.symm, ?_, ?_⟩ <;>
        simp [airAnyTrigger_cons, airAnyTrigger_append, stepTrigger,
          patternTriggersFieldsExpose, airNotModuleFnVar]
    · cases t <;> simp only [Bool.false_eq_true] at htail <;>
        simp only [patternIr, Option.pure_def, Option.bind_eq_bind', Option.bind_eq_some',
          Option.some_bind, Option.some.injEq, Prod.mk.injEq] at h <;>
        obtain ⟨⟨names0, elemsVec, stx⟩, hrec, h1, h2⟩ := h <;>
        obtain ⟨rfl, rfl⟩ := patternListElems_inv env fuel elements tipo st scope
          names0 elemsVec stx hels hrec <;>
        subst h1 <;>
        refine ⟨h2.symm, ?_, ?_⟩ <;>
        simp [airAnyTrigger_cons, airAnyTrigger_append, stepTrigger,
          patternTriggersFieldsExpose, airNotModuleFnVar]
  | tupleP elems =>
    simp only [supportedPattern] at hsup
    simp only [patternIr, Option.pure_def, Option.bind_eq_bind', Option.bind_eq_some',
      Option.some.injEq, Prod.mk.injEq] at h
    obtain ⟨⟨names, elemsVec, stx⟩, hrec, h1, h2⟩ := h
    obtain ⟨rfl, rfl⟩ := patternListElems_inv env fuel elems tipo st scope
      names elemsVec stx hsup hrec
    subst h1
    refine ⟨h2.symm, ?_, ?_⟩ <;>
      simp [airAnyTrigger_cons, airAnyTrigger_append, stepTrigger,
        patternTriggersFieldsExpose, airNotModuleFnVar]
  | constructorP isRecord cn args ctor tipoP =>
    simp only [supportedPattern] at hsup
    cases isRecord with
    | true =>
      simp only [patternIr, Option.pure_def, Option.bind_eq_bind', Option.bind_eq_some',
        Option.some.injEq, Prod.mk.injEq, if_true] at h
      obtain ⟨dtk, hdtk, dt, hdt, ct, hct, argTs, hargTs, tm, htm, fm, hfm,
        ⟨items, nested, stx⟩, hrec, indices, hind, h1, h2⟩ := h
      obtain ⟨rfl, rfl, hfe⟩ := patternCtorArgsRec_inv env fuel args fm st scope
        items nested stx hsup hrec
      subst h1
      refine ⟨h2.symm, ?_, ?_⟩
      · rw [airAnyTrigger_append, airAnyTrigger_append, airAnyTrigger_nil, Bool.or_false,
          patternTriggersFieldsExpose]
        rw [sortByKey_isEmpty, isEmpty_map] at *
        cases hany : args.any (fun a => a.2 matches Pattern.varP _) <;>
          rw [hany] at hfe <;>
          simp only [Bool.not_false, Bool.not_true] at hfe <;>
          simp [hfe, sortByKey_isEmpty, isEmpty_map, airAnyTrigger_cons, airAnyTrigger_nil,
            stepTrigger]
      · rw [List.all_append, List.all_append]
        cases hany : args.any (fun a => a.2 matches Pattern.varP _) <;>
          rw [hany] at hfe <;>
          simp only [Bool.not_false, Bool.not_true] at hfe <;>
          simp [hfe, sortByKey_isEmpty, isEmpty_map, airNotModuleFnVar]
    | false =>
      simp only [patternIr, Option.pure_def, Option.bind_eq_bind', Option.bind_eq_some',
        Option.some.injEq, Prod.mk.injEq, if_false, Bool.false_eq_true] at h
      obtain ⟨dtk, hdtk, dt, hdt, ct, hct, argTs, hargTs,
        ⟨items, nested, stx⟩, hrec, indices, hind, h1, h2⟩ := h
      obtain ⟨rfl, rfl, hfe⟩ := patternCtorArgsPos_inv env fuel args 0 st scope
        items nested stx hsup hrec
      subst h1
      refine ⟨h2.symm, ?_, ?_⟩
      · rw [airAnyTrigger_append, airAnyTrigger_append, airAnyTrigger_nil, Bool.or_false,
          patternTriggersFieldsExpose]
        cases hany : args.any (fun a => a.2 matches Pattern.varP _) <;>
          rw [hany] at hfe <;>
          simp only [Bool.not_false, Bool.not_true] at hfe <;>
          simp [hfe, isEmpty_map, airAnyTrigger_cons, airAnyTrigger_nil, stepTrigger]
      · rw [List.all_append, List.all_append]
        cases hany : args.any (fun a => a.2 matches Pattern.varP _) <;>
          rw [hany] at hfe <;>
          simp only [Bool.not_false, Bool.not_true] at hfe <;>
          simp [hfe, isEmpty_map, airNotModuleFnVar]


theorem assignmentIr_inv (env : Env) (fuel : Nat) (p : Pattern) (values : List Air)
    (tipo : Tipo) (kind : AssignmentKind) (st : GenState) (scope : List Nat)
    (air : List Air) (st1 : GenState)
    (hsup : supportedPattern p = true)
    (h : assignmentIr env fuel p values tipo kind st scope = some (air, st1)) :
    st1 = st ∧ airAnyTrigger air = (patternTriggersFieldsExpose p || airAnyTrigger values) ∧
      air.all airNotModuleFnVar = values.all airNotModuleFnVar := by
  cases fuel with
  | zero => exact absurd h (by simp [assignmentIr])
  | succ fuel =>
  cases p with
  | intP v => exact absurd h (by simp [assignmentIr])
  | stringP v => exact absurd h (by simp [assignmentIr])
  | varUsage v => exact absurd h (by simp [assignmentIr])
  | assignP n q => exact absurd h (by simp [assignmentIr])
  | varP v =>
    simp only [assignmentIr, Option.some.injEq, Prod.mk.injEq] at h
    obtain ⟨h1, h2⟩ := h
    subst h1
    refine ⟨h2.symm, ?_, ?_⟩ <;>
      simp [airAnyTrigger_cons, stepTrigger, patternTriggersFieldsExpose, airNotModuleFnVar]
  | discardP => exact patternIr_inv env fuel _ values tipo st scope air st1 hsup h
  | listP els t => exact patternIr_inv env fuel _ values tipo st scope air st1 hsup h
  | constructorP a b c d e => exact patternIr_inv env fuel _ values tipo st scope air st1 hsup h
  | tupleP els => exact patternIr_inv env fuel _ values tipo st scope air st1 hsup h

theorem Supported_listE (t : Tipo) (es : List TypedExpr) (tl : Option TypedExpr) :
    Supported (.listE t es tl) =
      (SupportedList es && (match tl with | some x => Supported x | none => true)) := by
  rw [Supported.eq_def]

theorem buildIr_flag_inv (env : Env) : ∀ (fuel : Nat),
    (∀ (e : TypedExpr) (st : GenState) (scope : List Nat) (air : List Air) (st1 : GenState),
      Supported e = true → buildIr env fuel e st scope = some (air, st1) →
      (st1.needsFieldAccess || airAnyTrigger air) =
        (st.needsFieldAccess || claimNeedsFieldAccess e) ∧
      air.all airNotModuleFnVar = true ∧
      st1.zeroArgFunctions = st.zeroArgFunctions) ∧
    (∀ (es : List TypedExpr) (st : GenState) (scope : List Nat) (isFirst : Bool)
       (air : List Air) (st1 : GenState),
      SupportedList es = true → buildIrSeq env fuel es st scope isFirst = some (air, st1) →
      (st1.needsFieldAccess || airAnyTrigger air) = (st.needsFieldAccess || claimNeedsList es) ∧
      air.all airNotModuleFnVar = true ∧
      st1.zeroArgFunctions = st.zeroArgFunctions) ∧
    (∀ (es : List TypedExpr) (st : GenState) (scope : List Nat) (air : List Air)
       (st1 : GenState),
      SupportedList es = true → buildIrElems env fuel es st scope = some (air, st1) →
      (st1.needsFieldAccess || airAnyTrigger air) = (st.needsFieldAccess || claimNeedsList es) ∧
      air.all airNotModuleFnVar = true ∧
      st1.zeroArgFunctions = st.zeroArgFunctions) ∧
    (∀ (bs : List (TypedExpr × TypedExpr)) (st : GenState) (scope : List Nat) (isFirst : Bool)
       (air : List Air) (st1 : GenState),
      SupportedBranches bs = true →
      buildIrIfBranches env fuel bs st scope isFirst = some (air, st1) →
      (st1.needsFieldAccess || airAnyTrigger air) =
        (st.needsFieldAccess || claimNeedsBranches bs) ∧
      air.all airNotModuleFnVar = true ∧
      st1.zeroArgFunctions = st.zeroArgFunctions) := by
  intro fuel
  induction fuel with
  | zero =>
    refine ⟨?_, ?_, ?_, ?_⟩
    · intro e st scope air st1 hsup h
      exact absurd h (by simp [buildIr])
    · intro es st scope isFirst air st1 hsup h
      exact absurd h (by simp [buildIrSeq])
    · intro es st scope air st1 hsup h
      exact absurd h (by simp [buildIrElems])
    · intro bs st scope isFirst air st1 hsup h
      exact absurd h (by simp [buildIrIfBranches])
  | succ fuel ih =>
  obtain ⟨ihB, ihS, ihE, ihBr⟩ := ih
  refine ⟨?_, ?_, ?_, ?_⟩
  · -- buildIr
    intro e st scope air st1 hsup h
    cases e with
    | intE t v =>
      simp only [buildIr, Option.some.injEq, Prod.mk.injEq] at h
      obtain ⟨h1, h2⟩ := h
      subst h1
      refine ⟨by simp [h2, airAnyTrigger_cons, airAnyTrigger_nil, stepTrigger, claimNeedsFieldAccess], by simp [airNotModuleFnVar], by rw [← h2]⟩
    | stringE t v =>
      simp only [buildIr, Option.some.injEq, Prod.mk.injEq] at h
      obtain ⟨h1, h2⟩ := h
      subst h1
      refine ⟨by simp [h2, airAnyTrigger_cons, airAnyTrigger_nil, stepTrigger, claimNeedsFieldAccess], by simp [airNotModuleFnVar], by rw [← h2]⟩
    | byteArrayE t v =>
      simp only [buildIr, Option.some.injEq, Prod.mk.injEq] at h
      obtain ⟨h1, h2⟩ := h
      subst h1
      refine ⟨by simp [h2, airAnyTrigger_cons, airAnyTrigger_nil, stepTrigger, claimNeedsFieldAccess], by simp [airNotModuleFnVar], by rw [← h2]⟩
    | todoE t l =>
      simp only [buildIr, Option.some.injEq, Prod.mk.injEq] at h
      obtain ⟨h1, h2⟩ := h
      subst h1
      refine ⟨by simp [h2, airAnyTrigger_cons, airAnyTrigger_nil, stepTrigger, claimNeedsFieldAccess], by simp [airNotModuleFnVar], by rw [← h2]⟩
    | errorTermE t l =>
      simp only [buildIr, Option.some.injEq, Prod.mk.injEq] at h
      obtain ⟨h1, h2⟩ := h
      subst h1
      refine ⟨by simp [h2, airAnyTrigger_cons, airAnyTrigger_nil, stepTrigger, claimNeedsFieldAccess], by simp [airNotModuleFnVar], by rw [← h2]⟩
    | sequence es =>
      have := ihS es st scope true air st1 (by simpa [Supported] using hsup)
        (by simpa [buildIr] using h)
      simpa [claimNeedsFieldAccess] using this
    | pipeline es =>
      have := ihS es st scope true air st1 (by simpa [Supported] using hsup)
        (by simpa [buildIr] using h)
      simpa [claimNeedsFieldAccess] using this
    | whenE t subjects clauses => exact absurd hsup (by simp [Supported])
    | moduleSelect t l mn c => exact absurd hsup (by simp [Supported])
    | recordUpdateE t s args => exact absurd hsup (by simp [Supported])
    | varE c name =>
      simp only [Supported] at hsup
      simp only [buildIr] at h
      rcases hv : c.variant with _ | lit | ⟨fn, md, ar, bi, fm⟩ | ⟨rn, ra, rfm⟩ <;>
        rw [hv] at hsup h
      · simp only [Option.some.injEq, Prod.mk.injEq] at h
        obtain ⟨h1, h2⟩ := h
        subst h1
        refine ⟨by simp [h2, airAnyTrigger_cons, airAnyTrigger_nil, stepTrigger, claimNeedsFieldAccess],
          by simp [airNotModuleFnVar, hv], by rw [← h2]⟩
      · simp only [Option.some.injEq, Prod.mk.injEq] at h
        obtain ⟨h1, h2⟩ := h
        subst h1
        cases lit <;>
          refine ⟨by simp [h2, airAnyTrigger_cons, airAnyTrigger_nil, stepTrigger,
            claimNeedsFieldAccess, constantsIr], by simp [airNotModuleFnVar, constantsIr],
            by rw [← h2]⟩
      · rcases bi with _ | b
        · exact absurd hsup (by simp)
        · simp only [Option.some.injEq, Prod.mk.injEq] at h
          obtain ⟨h1, h2⟩ := h
          subst h1
          refine ⟨by simp [h2, airAnyTrigger_cons, airAnyTrigger_nil, stepTrigger, claimNeedsFieldAccess],
            by simp [airNotModuleFnVar], by rw [← h2]⟩
      · simp only [Option.some.injEq, Prod.mk.injEq] at h
        obtain ⟨h1, h2⟩ := h
        subst h1
        refine ⟨by simp [h2, airAnyTrigger_cons, airAnyTrigger_nil, stepTrigger, claimNeedsFieldAccess],
          by simp [airNotModuleFnVar, hv], by rw [← h2]⟩
    | fnE t args argNames body =>
      simp only [Supported] at hsup
      simp only [buildIr, GenState.next, Option.pure_def, Option.bind_eq_bind',
        Option.bind_eq_some', Option.some.injEq, Prod.mk.injEq] at h
      obtain ⟨⟨fb, st2⟩, hfb, h1, h2⟩ := h
      obtain ⟨ih1, ih2, ihz⟩ := ihB body _ _ fb st2 hsup hfb
      subst h1
      refine ⟨?_, by simp [airNotModuleFnVar, ih2], by rw [← h2]; simpa using ihz⟩
      rw [← h2]
      simpa [airAnyTrigger_cons, stepTrigger, claimNeedsFieldAccess, GenState.next]
        using ih1
    | listE t es tl =>
      simp only [Supported_listE, Bool.and_eq_true] at hsup
      simp only [buildIr, GenState.next, Option.pure_def, Option.bind_eq_bind',
        Option.bind_eq_some', Option.some_bind, Option.some.injEq, Prod.mk.injEq] at h
      obtain ⟨⟨elAir, stE⟩, helems, hrest⟩ := h
      obtain ⟨ihe1, ihe2, ihez⟩ := ihE es st scope elAir stE hsup.1 helems
      rcases tl with _ | tailE
      · simp only [Option.some.injEq, Prod.mk.injEq] at hrest
        obtain ⟨h1, h2⟩ := hrest
        subst h1
        refine ⟨?_, by simp [airNotModuleFnVar, ihe2], by rw [← h2]; exact ihez⟩
        rw [← h2]
        simpa [airAnyTrigger_cons, stepTrigger, claimNeedsFieldAccess] using ihe1
      · simp only [GenState.next, Option.pure_def, Option.bind_eq_bind',
          Option.bind_eq_some', Option.some.injEq, Prod.mk.injEq] at hrest
        obtain ⟨⟨tlAir, stT⟩, htl, h1, h2⟩ := hrest
        obtain ⟨iht1, iht2, ihtz⟩ := ihB tailE _ _ tlAir stT (by simpa using hsup.2) htl
        subst h1
        refine ⟨?_, by simp [airNotModuleFnVar, ihe2, iht2],
          by rw [← h2]; simp [GenState.next] at ihtz; rw [ihtz]; exact ihez⟩
        rw [← h2]
        rw [airAnyTrigger_cons, airAnyTrigger_append]
        simp only [stepTrigger, Bool.false_or, claimNeedsFieldAccess]
        simp only [GenState.next] at iht1
        exact or_chain2 ihe1 iht1
    | callE t f args =>
      simp only [Supported, Bool.and_eq_true] at hsup
      simp only [buildIr, GenState.next, Option.pure_def, Option.bind_eq_bind',
        Option.bind_eq_some', Option.some.injEq, Prod.mk.injEq] at h
      obtain ⟨⟨fAir, stF⟩, hf, ⟨aAir, stA⟩, ha, h1, h2⟩ := h
      obtain ⟨ihf1, ihf2, ihfz⟩ := ihB f _ _ fAir stF hsup.1 hf
      obtain ⟨iha1, iha2, ihaz⟩ := ihE args _ _ aAir stA hsup.2 ha
      subst h1
      refine ⟨?_, by simp [airNotModuleFnVar, ihf2, iha2],
        by rw [← h2, ihaz]; simpa using ihfz⟩
      rw [← h2]
      rw [airAnyTrigger_cons, airAnyTrigger_append]
      simp only [stepTrigger, Bool.false_or, claimNeedsFieldAccess]
      simp only [GenState.next] at ihf1
      exact or_chain2 ihf1 iha1
    | binOpE t op l r =>
      simp only [Supported, Bool.and_eq_true] at hsup
      simp only [buildIr, GenState.next, Option.pure_def, Option.bind_eq_bind',
        Option.bind_eq_some', Option.some.injEq, Prod.mk.injEq] at h
      obtain ⟨⟨lAir, stL⟩, hl, ⟨rAir, stR⟩, hr, h1, h2⟩ := h
      obtain ⟨ihl1, ihl2, ihlz⟩ := ihB l _ _ lAir stL hsup.1 hl
      obtain ⟨ihr1, ihr2, ihrz⟩ := ihB r _ _ rAir stR hsup.2 hr
      subst h1
      refine ⟨?_, by simp [airNotModuleFnVar, ihl2, ihr2],
        by rw [← h2, ihrz]; simpa using ihlz⟩
      rw [← h2]
      rw [airAnyTrigger_cons, airAnyTrigger_append]
      simp only [stepTrigger, Bool.false_or, claimNeedsFieldAccess]
      simp only [GenState.next] at ihl1
      exact or_chain2 ihl1 ihr1
    | assignmentE t v p kind =>
      simp only [Supported, Bool.and_eq_true] at hsup
      simp only [buildIr, GenState.next, Option.pure_def, Option.bind_eq_bind',
        Option.bind_eq_some', Option.some.injEq, Prod.mk.injEq] at h
      obtain ⟨⟨vAir, stV⟩, hval, hasg⟩ := h
      obtain ⟨ihv1, ihv2, ihvz⟩ := ihB v _ _ vAir stV hsup.1 hval
      obtain ⟨ha0, ha1, ha2⟩ := assignmentIr_inv env fuel p vAir t kind stV scope air st1
        hsup.2 hasg
      refine ⟨?_, by rw [ha2, ihv2], by rw [ha0]; simpa using ihvz⟩
      rw [ha0, ha1]
      simp only [claimNeedsFieldAccess]
      simp only [GenState.next] at ihv1
      exact or_chain_pat ihv1
    | traceE t th txt =>
      simp only [Supported] at hsup
      simp only [buildIr, GenState.next, Option.pure_def, Option.bind_eq_bind',
        Option.bind_eq_some', Option.some.injEq, Prod.mk.injEq] at h
      obtain ⟨⟨thAir, stT⟩, hth, h1, h2⟩ := h
      obtain ⟨ih1, ih2, ihz⟩ := ihB th _ _ thAir stT hsup hth
      subst h1
      refine ⟨?_, by simp [airNotModuleFnVar, ih2], by rw [← h2]; simpa using ihz⟩
      rw [← h2]
      simp only [GenState.next] at ih1
      simpa [airAnyTrigger_cons, stepTrigger, claimNeedsFieldAccess] using ih1
    | ifE t branches finalElse =>
      simp only [Supported, Bool.and_eq_true] at hsup
      simp only [buildIr, GenState.next, Option.pure_def, Option.bind_eq_bind',
        Option.bind_eq_some', Option.some.injEq, Prod.mk.injEq] at h
      obtain ⟨⟨bAir, stB⟩, hb, ⟨eAir, stE⟩, he, h1, h2⟩ := h
      obtain ⟨ihb1, ihb2, ihbz⟩ := ihBr branches _ _ true bAir stB hsup.1 hb
      obtain ⟨ihe1, ihe2, ihez⟩ := ihB finalElse _ _ eAir stE hsup.2 he
      subst h1
      refine ⟨?_, by simp [ihb2, ihe2],
        by rw [← h2]; simp [GenState.next] at ihez; rw [ihez]; exact ihbz⟩
      rw [← h2]
      rw [airAnyTrigger_append]
      simp only [claimNeedsFieldAccess]
      simp only [GenState.next] at ihe1
      exact or_chain2 ihb1 ihe1
    | recordAccessE t lbl idx record =>
      simp only [Supported] at hsup
      simp only [buildIr, GenState.next, Option.pure_def, Option.bind_eq_bind',
        Option.bind_eq_some', Option.some.injEq, Prod.mk.injEq] at h
      obtain ⟨⟨rAir, stR⟩, hr, h1, h2⟩ := h
      obtain ⟨ih1, ih2, ihz⟩ := ihB record _ _ rAir stR hsup hr
      subst h1
      refine ⟨?_, by simp [airNotModuleFnVar, ih2], by rw [← h2]; simpa using ihz⟩
      rw [← h2]
      rw [airAnyTrigger_cons]
      simp only [stepTrigger, Bool.false_or, claimNeedsFieldAccess, Bool.or_true]
      simp only [Bool.true_or] at ih1
      cases hx : stR.needsFieldAccess <;> simp_all
    | tupleE t es =>
      simp only [Supported] at hsup
      simp only [buildIr, GenState.next, Option.pure_def, Option.bind_eq_bind',
        Option.bind_eq_some', Option.some.injEq, Prod.mk.injEq] at h
      obtain ⟨⟨eAir, stE⟩, he, h1, h2⟩ := h
      obtain ⟨ih1, ih2, ihz⟩ := ihE es _ _ eAir stE hsup he
      subst h1
      refine ⟨?_, by simp [airNotModuleFnVar, ih2], by rw [← h2]; exact ihz⟩
      rw [← h2]
      simpa [airAnyTrigger_cons, stepTrigger, claimNeedsFieldAccess] using ih1
    | tupleIndexE t idx tupleExpr =>
      simp only [Supported] at hsup
      simp only [buildIr, GenState.next, Option.pure_def, Option.bind_eq_bind',
        Option.bind_eq_some', Option.some.injEq, Prod.mk.injEq] at h
      obtain ⟨⟨tAir, stT⟩, ht, h1, h2⟩ := h
      obtain ⟨ih1, ih2, ihz⟩ := ihB tupleExpr _ _ tAir stT hsup ht
      subst h1
      refine ⟨?_, by simp [airNotModuleFnVar, ih2], by rw [← h2]; exact ihz⟩
      rw [← h2]
      rw [airAnyTrigger_cons]
      simp only [stepTrigger, claimNeedsFieldAccess]
      exact or_chain_head ih1
    | unOpE t op v =>
      simp only [Supported] at hsup
      simp only [buildIr, GenState.next, Option.pure_def, Option.bind_eq_bind',
        Option.bind_eq_some', Option.some.injEq, Prod.mk.injEq] at h
      obtain ⟨⟨vAir, stV⟩, hv2, h1, h2⟩ := h
      obtain ⟨ih1, ih2, ihz⟩ := ihB v _ _ vAir stV hsup hv2
      subst h1
      refine ⟨?_, by simp [airNotModuleFnVar, ih2], by rw [← h2]; exact ihz⟩
      rw [← h2]
      simpa [airAnyTrigger_cons, stepTrigger, claimNeedsFieldAccess] using ih1
  · -- buildIrSeq
    intro es st scope isFirst air st1 hsup h
    cases es with
    | nil =>
      cases isFirst <;>
        simp only [buildIrSeq, Option.some.injEq, Prod.mk.injEq] at h <;>
        obtain ⟨h1, h2⟩ := h <;>
        subst h1 <;>
        simp [h2, airAnyTrigger_nil, claimNeedsList]
    | cons e rest =>
      simp only [SupportedList, Bool.and_eq_true] at hsup
      cases isFirst <;>
        simp only [buildIrSeq, GenState.next, Option.pure_def, Option.bind_eq_bind',
          Option.bind_eq_some', Option.some.injEq, Prod.mk.injEq, if_true, if_false,
          Bool.false_eq_true] at h <;>
        obtain ⟨⟨eAir, stE⟩, he, ⟨rAir, stR⟩, hr, h1, h2⟩ := h <;>
        obtain ⟨ihe1, ihe2, ihez⟩ := ihB e _ _ eAir stE hsup.1 he <;>
        obtain ⟨ihr1, ihr2, ihrz⟩ := ihS rest _ _ false rAir stR hsup.2 hr <;>
        subst h1 <;>
        refine ⟨?_, by simp [ihe2, ihr2],
          by rw [← h2, ihrz]; simpa using ihez⟩ <;>
        (rw [← h2, airAnyTrigger_append];
         simp only [claimNeedsList, GenState.next] at ihe1 ⊢;
         exact or_chain2 ihe1 ihr1)
  · -- buildIrElems
    intro es st scope air st1 hsup h
    cases es with
    | nil =>
      simp only [buildIrElems, Option.some.injEq, Prod.mk.injEq] at h
      obtain ⟨h1, h2⟩ := h
      subst h1
      simp [h2, airAnyTrigger_nil, claimNeedsList]
    | cons e rest =>
      simp only [SupportedList, Bool.and_eq_true] at hsup
      simp only [buildIrElems, GenState.next, Option.pure_def, Option.bind_eq_bind',
        Option.bind_eq_some', Option.some.injEq, Prod.mk.injEq] at h
      obtain ⟨⟨eAir, stE⟩, he, ⟨rAir, stR⟩, hr, h1, h2⟩ := h
      obtain ⟨ihe1, ihe2, ihez⟩ := ihB e _ _ eAir stE hsup.1 he
      obtain ⟨ihr1, ihr2, ihrz⟩ := ihE rest _ _ rAir stR hsup.2 hr
      subst h1
      refine ⟨?_, by simp [ihe2, ihr2],
        by rw [← h2, ihrz]; simpa using ihez⟩
      rw [← h2, airAnyTrigger_append]
      simp only [claimNeedsList, GenState.next] at ihe1 ⊢
      exact or_chain2 ihe1 ihr1
  · -- buildIrIfBranches
    intro bs st scope isFirst air st1 hsup h
    cases bs with
    | nil =>
      simp only [buildIrIfBranches, Option.some.injEq, Prod.mk.injEq] at h
      obtain ⟨h1, h2⟩ := h
      subst h1
      simp [h2, airAnyTrigger_nil, claimNeedsBranches]
    | cons b rest =>
      obtain ⟨cond, bodyE⟩ := b
      simp only [SupportedBranches, Bool.and_eq_true] at hsup
      simp only [buildIrIfBranches, GenState.next, Option.pure_def, Option.bind_eq_bind',
        Option.bind_eq_some', Option.some.injEq, Prod.mk.injEq] at h
      obtain ⟨⟨cAir, stC⟩, hc, ⟨bAir, stB⟩, hb, ⟨rAir, stR⟩, hr, h1, h2⟩ := h
      obtain ⟨ihc1, ihc2, ihcz⟩ := ihB cond _ _ cAir stC hsup.1.1 hc
      obtain ⟨ihb1, ihb2, ihbz⟩ := ihB bodyE _ _ bAir stB hsup.1.2 hb
      obtain ⟨ihr1, ihr2, ihrz⟩ := ihBr rest _ _ false rAir stR hsup.2 hr
      subst h1
      refine ⟨?_, by simp [airNotModuleFnVar, ihc2, ihb2, ihr2],
        by rw [← h2, ihrz, ihbz]; simpa using ihcz⟩
      rw [← h2]
      rw [airAnyTrigger_append, airAnyTrigger_cons, airAnyTrigger_append]
      simp only [stepTrigger, Bool.false_or, claimNeedsBranches, GenState.next] at ihc1 ⊢
      exact or_chain2 (or_chain2 ihc1 ihb1) ihr1


/-- Claim C2: over the `Supported` fragment the `needs_field_access`
flag after the full raw pipeline equals the claim-side syntactic
predicate (a `RecordAccess`, a `FieldsExpose`-producing pattern binding,
or a long-tuple `TupleIndex` occurs), and `generate` splices the
`__constr_fields_exposer`/`__constr_get_field` combinators around the
program term exactly once, exactly when that predicate holds. -/
theorem c2_field_access_helpers (env : Env) (fuel : Nat) (body : TypedExpr) (t : Term)
    (st : GenState) (hsup : Supported body = true)
    (h : rawCodeGen env fuel body = some (t, st)) :
    st.needsFieldAccess = claimNeedsFieldAccess body ∧
    generateCore env fuel body =
      some ((if claimNeedsFieldAccess body then constrFieldsExposer (constrGetField t)
             else t), st) := by
  have hraw := h
  simp only [rawCodeGen, GenState.next, GenState.init, Option.pure_def, Option.bind_eq_bind',
    Option.bind_eq_some'] at h
  obtain ⟨⟨air, st2⟩, hbuild, ⟨air2, st3⟩, hdef, hgen⟩ := h
  obtain ⟨hb1, hb2, hbz⟩ := (buildIr_flag_inv env fuel).1 body _ _ air st2 hsup hbuild
  have hdefid := defineIr_id env fuel air st2 (air2, st3) hb2 hdef
  simp only [Prod.mk.injEq] at hdefid
  obtain ⟨hd1, hd2⟩ := hdefid
  rw [hd1, hd2] at hgen
  have hz2 : st2.zeroArgFunctions = [] := by simpa using hbz
  obtain ⟨hflag0, _⟩ := uplcCodeGen_flag env fuel st2 air t st hgen hz2
  simp only [Bool.false_or] at hb1
  have hflag : st.needsFieldAccess = claimNeedsFieldAccess body := by
    rw [hflag0, ← hb1]
    rfl
  refine ⟨hflag, ?_⟩
  simp only [generateCore, Option.pure_def, Option.bind_eq_bind', hraw, Option.some_bind,
    hflag]


theorem c2_field_access_helpers_witness :
    (Supported c2Body = true ∧
     Supported (.intE intTipo "1") = true ∧
     (let tPos := Term.apply (Term.builtin .unIData)
        (Term.apply
          (Term.apply (Term.var constrGetFieldName)
            (Term.apply (Term.var constrFieldsExposerName) (Term.var "r")))
          (Term.con (.integer 0)));
      rawCodeGen env0 5 c2Body = some (tPos, ⟨[], 1, true, []⟩) ∧
      (⟨[], 1, true, []⟩ : GenState).needsFieldAccess = claimNeedsFieldAccess c2Body ∧
      generateCore env0 5 c2Body =
        some ((if claimNeedsFieldAccess c2Body
               then constrFieldsExposer (constrGetField tPos) else tPos),
          (⟨[], 1, true, []⟩ : GenState))) ∧
     ((⟨[], 1, false, []⟩ : GenState).needsFieldAccess =
        claimNeedsFieldAccess (.intE intTipo "1") ∧
      generateCore env0 5 (.intE intTipo "1") =
        some ((if claimNeedsFieldAccess (.intE intTipo "1")
               then constrFieldsExposer (constrGetField (Term.con (.integer 1)))
               else Term.con (.integer 1)),
          (⟨[], 1, false, []⟩ : GenState)))) :=
  ⟨rfl, rfl,
   ⟨rfl, (c2_field_access_helpers env0 5 c2Body _ ⟨[], 1, true, []⟩ rfl rfl).1,
    (c2_field_access_helpers env0 5 c2Body _ ⟨[], 1, true, []⟩ rfl rfl).2⟩,
   ⟨(c2_field_access_helpers env0 5 (.intE intTipo "1") (Term.con (.integer 1))
      ⟨[], 1, false, []⟩ rfl rfl).1,
    (c2_field_access_helpers env0 5 (.intE intTipo "1") (Term.con (.integer 1))
      ⟨[], 1, false, []⟩ rfl rfl).2⟩⟩

end AikenGen
